import Mathlib

/-!
# Verification of the go-sigparser specification against its implementation

This file is a shallow embedding, in Lean 4, of the `sigparser` Go package
(file `sigparser.go`): a recursive-descent parser and printer for
Ethereum-contract-ABI-style signatures.  The Go parser walks a byte slice
with a cursor; here the input is a `List Char` consumed from the front, and
each Go parsing method becomes a Lean function returning the parsed value
together with the unconsumed remainder.  Fallible methods return
`Except PErr`.  The mutually recursive part of the grammar
(`parseParameter` / `parseCompositeType` and the loops) is made structurally
terminating with an explicit fuel argument; the public entry points supply
`3 * length + 3` fuel, which is more than the recursion can ever use, since
every cycle through the mutual recursion consumes at least one input
character and decrements fuel at most three times per character.
-/

namespace SigParser

/-! ## Character classes (Go: isDigit / isAlpha / isWhitespace / isIdentifierSymbol) -/

/-- Go `isDigit`: `c >= '0' && c <= '9'`. -/
def isDigit (c : Char) : Bool := '0' ≤ c && c ≤ '9'

/-- Go `isAlpha`: `(c >= 'a' && c <= 'z') || (c >= 'A' && c <= 'Z')`. -/
def isAlpha (c : Char) : Bool := ('a' ≤ c && c ≤ 'z') || ('A' ≤ c && c ≤ 'Z')

/-- Go `isWhitespace`: space, tab or newline. -/
def isWhitespace (c : Char) : Bool := c = ' ' || c = '\t' || c = '\n'

/-- Go `isIdentifierSymbol`: `'$'` or `'_'`. -/
def isIdentifierSymbol (c : Char) : Bool := c = '$' || c = '_'

/-! ## Data model (Go: SignatureKind, DataLocation, Parameter, Signature) -/

/-- Go `SignatureKind` constants. -/
inductive SignatureKind where
  | unknown
  | function
  | constructor
  | fallback
  | receive
  | event
  | error
  deriving DecidableEq, Repr

/-- Go `DataLocation` constants. -/
inductive DataLocation where
  | unspecified
  | storage
  | calldata
  | memory
  deriving DecidableEq, Repr

/-- Go `Parameter` struct.  Strings are modelled as `List Char`; the struct
is a nested inductive because `Tuple` holds child parameters. -/
inductive Parameter where
  | mk (name : List Char) (type : List Char) (tuple : List Parameter)
       (arrays : List Int) (indexed : Bool) (dataLocation : DataLocation)

/-- `Parameter.Name` field. -/
def Parameter.name : Parameter → List Char
  | .mk n _ _ _ _ _ => n

/-- `Parameter.Type` field. -/
def Parameter.type : Parameter → List Char
  | .mk _ t _ _ _ _ => t

/-- `Parameter.Tuple` field. -/
def Parameter.tuple : Parameter → List Parameter
  | .mk _ _ tu _ _ _ => tu

/-- `Parameter.Arrays` field. -/
def Parameter.arrays : Parameter → List Int
  | .mk _ _ _ a _ _ => a

/-- `Parameter.Indexed` field. -/
def Parameter.indexed : Parameter → Bool
  | .mk _ _ _ _ i _ => i

/-- `Parameter.DataLocation` field. -/
def Parameter.dataLocation : Parameter → DataLocation
  | .mk _ _ _ _ _ d => d

/-- Go `Signature` struct. -/
structure Signature where
  kind : SignatureKind
  name : List Char
  inputs : List Parameter
  outputs : List Parameter
  modifiers : List (List Char)

/-- Go `InputKind` constants (returned by the `Kind` classifier). -/
inductive InputKind where
  | invalidInput
  | typeInput
  | arrayInput
  | tupleInput
  | structDefinitionInput
  | functionSignatureInput
  | constructorSignatureInput
  | fallbackSignatureInput
  | receiveSignatureInput
  | eventSignatureInput
  | errorSignatureInput
  deriving DecidableEq, Repr

/-! ## Errors

One constructor per `fmt.Errorf` shape in the Go source.  `outOfFuel` is an
artefact of the fuel-based embedding; the entry points supply enough fuel
that it is never returned on any input they pass down. -/

/-- Error values produced by the parser, mirroring the `fmt.Errorf` calls. -/
inductive PErr where
  /-- `unexpected end of input, ... expected`. -/
  | endOfInput (expected : String)
  /-- `unexpected character %q, ... expected`. -/
  | unexpectedChar (c : Char) (expected : String)
  /-- `invalid array size: %d` (value ≤ 0). -/
  | invalidArraySize (n : Int)
  /-- `invalid array size: %v` wrapping the `strconv` range error. -/
  | numberFormat
  /-- `invalid signature kind: %s` from `ParseSignatureAs`. -/
  | kindMismatch (k : SignatureKind)
  /-- a semantic validation failure, carrying the Go message. -/
  | semantic (msg : String)
  /-- `unexpected character %q at the end of the ...` (trailing input). -/
  | trailing (c : Char)
  /-- fuel exhaustion (unreachable from the entry points). -/
  | outOfFuel
  deriving DecidableEq, Repr

/-! ## Cursor primitives

The Go cursor is a byte slice plus a position; consuming from the front of a
`List Char` plays the same role, so `readBytes` returns the remainder on a
successful literal match and `parseWhitespace` drops the whitespace prefix. -/

/-- Go `parser.peekBytes`: the remaining input starts with `lit`. -/
def peekBytes (lit s : List Char) : Bool := lit.isPrefixOf s

/-- Go `parser.readBytes`: consume `lit` if it is a prefix, returning the rest. -/
def readBytes (lit s : List Char) : Option (List Char) :=
  if lit.isPrefixOf s then some (s.drop lit.length) else none

/-- Go `parser.parseWhitespace`: drop the maximal whitespace prefix. -/
def parseWhitespace (s : List Char) : List Char := s.dropWhile isWhitespace

/-- Go `parser.parseName` (and the identical scanning loop inside
`parseElementaryType`): a maximal run matching
`(alpha|$|_)(alpha|digit|$|_)*`, or the empty list if the first character
does not match. -/
def parseName : List Char → List Char × List Char
  | [] => ([], [])
  | c :: rest =>
    if isAlpha c || isIdentifierSymbol c then
      (c :: rest.takeWhile (fun b => isAlpha b || isDigit b || isIdentifierSymbol b),
       rest.dropWhile (fun b => isAlpha b || isDigit b || isIdentifierSymbol b))
    else ([], c :: rest)

/-- Go `parser.onlyWhitespaceOrDelimiterLeft`: every remaining character is
whitespace or `';'`. -/
def onlyWhitespaceOrDelimiterLeft (s : List Char) : Bool :=
  s.all (fun c => isWhitespace c || c = ';')

/-! ## Numbers and array suffixes -/

/-- Decimal value of a digit run (what `strconv.ParseInt` computes on an
all-digit string). -/
def digitsToNat (l : List Char) : Nat :=
  l.foldl (fun a c => 10 * a + (c.toNat - '0'.toNat)) 0

/-- `maxInt64`, the largest value `strconv.ParseInt(s, 10, 0)` accepts on a
64-bit platform. -/
def maxInt : Nat := 9223372036854775807

/-- Go `parser.parseNumber`: scan a maximal digit run; `none` when no digit
was present; a range error when the value overflows `int`. -/
def parseNumber (s : List Char) : Except PErr (Option Int × List Char) :=
  let digits := s.takeWhile isDigit
  let rest := s.dropWhile isDigit
  if digits.isEmpty then .ok (none, s)
  else if digitsToNat digits > maxInt then .error .numberFormat
  else .ok (some (digitsToNat digits : Nat), rest)

/-- Go `parser.parseArray`: repetitions of `[` optional-number `]`; a parsed
value ≤ 0 is rejected, an absent value yields the `-1` sentinel.  The loop is
fuelled; each iteration consumes at least two characters. -/
def parseArrayF : Nat → List Char → Except PErr (List Int × List Char)
  | 0, _ => .error .outOfFuel
  | fuel + 1, s =>
    match s with
    | '[' :: rest =>
      match parseNumber rest with
      | .error _ => .error .numberFormat
      | .ok (n?, r) =>
        match n? with
        | some n =>
          if n ≤ 0 then .error (.invalidArraySize n)
          else
            match r with
            | [] => .error (.endOfInput "']'")
            | ']' :: r' =>
              match parseArrayF fuel r' with
              | .error e => .error e
              | .ok (dims, r'') => .ok (n :: dims, r'')
            | c :: _ => .error (.unexpectedChar c "']'")
        | none =>
          match r with
          | [] => .error (.endOfInput "']'")
          | ']' :: r' =>
            match parseArrayF fuel r' with
            | .error e => .error e
            | .ok (dims, r'') => .ok ((-1 : Int) :: dims, r'')
          | c :: _ => .error (.unexpectedChar c "']'")
    | _ => .ok ([], s)

/-- Go `parser.parseElementaryType`: scan a type name with the same loop as
`parseName`, then an optional array suffix. -/
def parseElementaryType (fuel : Nat) (s : List Char) :
    Except PErr (Parameter × List Char) :=
  let (ty, r) := parseName s
  match r with
  | '[' :: _ =>
    match parseArrayF fuel r with
    | .error e => .error e
    | .ok (dims, r') => .ok (.mk [] ty [] dims false .unspecified, r')
  | _ => .ok (.mk [] ty [] [] false .unspecified, r)

/-- Replace the `name` field (Go `arg.Name = ...`). -/
def Parameter.setName (p : Parameter) (n : List Char) : Parameter :=
  match p with
  | .mk _ t tu a i d => .mk n t tu a i d

/-- Set the `indexed` flag (Go `arg.Indexed = true`). -/
def Parameter.setIndexed (p : Parameter) : Parameter :=
  match p with
  | .mk n t tu a _ d => .mk n t tu a true d

/-- Replace the `dataLocation` field (Go `arg.DataLocation = ...`). -/
def Parameter.setDataLocation (p : Parameter) (d : DataLocation) : Parameter :=
  match p with
  | .mk n t tu a i _ => .mk n t tu a i d

/-- The shared tail of Go `parser.parseParameter` once a data-location or
`indexed` keyword matched: a name follows only after further whitespace. -/
def afterFlag (arg : Parameter) (r : List Char) : Parameter × List Char :=
  match r with
  | c :: _ =>
    if isWhitespace c then
      let (nm, r') := parseName (parseWhitespace r)
      (arg.setName nm, r')
    else (arg, r)
  | [] => (arg, r)

/-- The data-location / `indexed` / name block at the end of Go
`parser.parseParameter` (lines after the type has been parsed): if
whitespace follows, try exactly one of the four keywords, then a name. -/
def parseParamSuffix (arg : Parameter) (r : List Char) : Parameter × List Char :=
  match r with
  | c :: _ =>
    if isWhitespace c then
      let r1 := parseWhitespace r
      match readBytes "indexed".data r1 with
      | some r2 => afterFlag arg.setIndexed r2
      | none =>
        match readBytes "storage".data r1 with
        | some r2 => afterFlag (arg.setDataLocation .storage) r2
        | none =>
          match readBytes "memory".data r1 with
          | some r2 => afterFlag (arg.setDataLocation .memory) r2
          | none =>
            match readBytes "calldata".data r1 with
            | some r2 => afterFlag (arg.setDataLocation .calldata) r2
            | none =>
              let (nm, r2) := parseName r1
              (arg.setName nm, r2)
    else (arg, r)
  | [] => (arg, r)

/-! ## Parameter grammar (Go: parseParameter / parseCompositeType)

`parseCompositeType`'s component loop becomes `parseTupleItemsF`.  All three
recurse structurally on the fuel. -/

mutual

/-- Go `parser.parseParameter`: a composite or elementary type, optionally
followed (after whitespace) by exactly one of `indexed` / `storage` /
`memory` / `calldata` and/or a name. -/
def parseParameterF : Nat → List Char → Except PErr (Parameter × List Char)
  | 0, _ => .error .outOfFuel
  | fuel + 1, s =>
    match s with
    | [] => .error (.endOfInput "type")
    | c :: _ =>
      let core : Except PErr (Parameter × List Char) :=
        if c = '(' || peekBytes "tuple(".data s then
          parseCompositeTypeF fuel s
        else if isAlpha c || isIdentifierSymbol c then
          parseElementaryType (fuel + 1) s
        else .error (.unexpectedChar c "type")
      match core with
      | .error e => .error e
      | .ok (arg, r) => .ok (parseParamSuffix arg r)

/-- Go `parser.parseCompositeType`: `(` or `tuple(`, components until `)`,
then an optional array suffix. -/
def parseCompositeTypeF : Nat → List Char → Except PErr (Parameter × List Char)
  | 0, _ => .error .outOfFuel
  | fuel + 1, s =>
    let opened : Except PErr (List Char) :=
      match s with
      | '(' :: rest => .ok rest
      | _ =>
        match readBytes "tuple(".data s with
        | some rest => .ok rest
        | none =>
          match s with
          | [] => .error (.endOfInput "'tuple(' or '('")
          | c :: _ => .error (.unexpectedChar c "'tuple(' or '('")
    match opened with
    | .error e => .error e
    | .ok rest =>
      let s1 := parseWhitespace rest
      let comps : Except PErr (List Parameter × List Char) :=
        match s1 with
        | ')' :: s2 => .ok ([], s2)
        | _ => parseTupleItemsF fuel s1
      match comps with
      | .error e => .error e
      | .ok (tup, s2) =>
        match s2 with
        | '[' :: _ =>
          match parseArrayF (fuel + 1) s2 with
          | .error e => .error e
          | .ok (dims, s3) => .ok (.mk [] [] tup dims false .unspecified, s3)
        | _ => .ok (.mk [] [] tup [] false .unspecified, s2)

/-- The component loop inside Go `parser.parseCompositeType`: whitespace, a
parameter, whitespace, then `,` to continue or `)` to stop. -/
def parseTupleItemsF : Nat → List Char → Except PErr (List Parameter × List Char)
  | 0, _ => .error .outOfFuel
  | fuel + 1, s =>
    let s1 := parseWhitespace s
    match parseParameterF fuel s1 with
    | .error e => .error e
    | .ok (comp, r) =>
      let r1 := parseWhitespace r
      match r1 with
      | ',' :: r2 =>
        match parseTupleItemsF fuel r2 with
        | .error e => .error e
        | .ok (comps, r3) => .ok (comp :: comps, r3)
      | ')' :: r2 => .ok ([comp], r2)
      | [] => .error (.endOfInput "',' or ')'")
      | c :: _ => .error (.unexpectedChar c "',' or ')'")

end

/-! ## Signature grammar (Go: parseSignatureKind, parseInputs, parseOutputs,
parseModifiers, parseSignature) -/

/-- Go `parser.parseSignatureKind`: try the six kind keywords as raw
prefixes, in source order. -/
def parseSignatureKind (s : List Char) : SignatureKind × List Char :=
  match readBytes "function".data s with
  | some r => (.function, r)
  | none =>
    match readBytes "constructor".data s with
    | some r => (.constructor, r)
    | none =>
      match readBytes "fallback".data s with
      | some r => (.fallback, r)
      | none =>
        match readBytes "receive".data s with
        | some r => (.receive, r)
        | none =>
          match readBytes "event".data s with
          | some r => (.event, r)
          | none =>
            match readBytes "error".data s with
            | some r => (.error, r)
            | none => (.unknown, s)

/-- Go `parser.parseModifiers`: names separated by mandatory whitespace,
stopping at end of input, `(`, or the literal `returns`. -/
def parseModifiersF : Nat → List Char → List (List Char) × List Char
  | 0, s => ([], s)
  | fuel + 1, s =>
    match s with
    | [] => ([], s)
    | c :: _ =>
      if c = '(' || peekBytes "returns".data s then ([], s)
      else
        match parseName s with
        | ([], _) => ([], s)
        | (mod, r) =>
          match r with
          | c' :: _ =>
            if isWhitespace c' then
              let (mods, r') := parseModifiersF fuel (parseWhitespace r)
              (mod :: mods, r')
            else ([mod], r)
          | [] => ([mod], r)

/-- Go `parser.parseInputs`: a parenthesised composite type whose fields
become the inputs; it must not carry an array suffix; absent parentheses
mean no inputs. -/
def parseInputsF (fuel : Nat) (s : List Char) :
    Except PErr (List Parameter × List Char) :=
  match s with
  | '(' :: _ =>
    match parseCompositeTypeF fuel s with
    | .error e => .error e
    | .ok (args, r) =>
      if args.arrays.isEmpty then .ok (args.tuple, r)
      else .error (.semantic "unexpected array declaration")
  | _ => .ok ([], s)

/-- Go `parser.parseOutputs`: an optional `returns` keyword (after which `(`
is mandatory), then the same composite-type form as inputs. -/
def parseOutputsF (fuel : Nat) (s : List Char) :
    Except PErr (List Parameter × List Char) :=
  let s1 := parseWhitespace s
  match readBytes "returns".data s1 with
  | some s2 =>
    let s3 := parseWhitespace s2
    match s3 with
    | '(' :: _ =>
      match parseCompositeTypeF fuel s3 with
      | .error e => .error e
      | .ok (args, r) =>
        if args.arrays.isEmpty then .ok (args.tuple, r)
        else .error (.semantic "unexpected array declaration")
    | [] => .error (.endOfInput "'(' after 'returns' keyword")
    | c :: _ => .error (.unexpectedChar c "'(' after 'returns' keyword")
  | none =>
    match s1 with
    | '(' :: _ =>
      match parseCompositeTypeF fuel s1 with
      | .error e => .error e
      | .ok (args, r) =>
        if args.arrays.isEmpty then .ok (args.tuple, r)
        else .error (.semantic "unexpected array declaration")
    | _ => .ok ([], s1)

/-- The kind-specific validation block at the end of Go
`parser.parseSignature` (the `switch sig.Kind` plus the two `Indexed`
loops), as a pure function of the fully parsed signature. -/
def validateSignature (sig : Signature) : Except PErr Unit :=
  let kindCheck : Except PErr Unit :=
    match sig.kind with
    | .constructor =>
      if !sig.name.isEmpty then .error (.semantic "unexpected constructor name")
      else if !sig.modifiers.isEmpty then .error (.semantic "unexpected constructor modifiers")
      else if !sig.outputs.isEmpty then .error (.semantic "unexpected constructor outputs")
      else .ok ()
    | .fallback =>
      if !sig.name.isEmpty then .error (.semantic "unexpected fallback name")
      else
        let validInOut :=
          sig.inputs.length = 1 &&
          (sig.inputs.headD (.mk [] [] [] [] false .unspecified)).type = "bytes".data &&
          sig.outputs.length = 1 &&
          (sig.outputs.headD (.mk [] [] [] [] false .unspecified)).type = "bytes".data
        if !validInOut && !sig.inputs.isEmpty then .error (.semantic "unexpected fallback inputs")
        else if !validInOut && !sig.outputs.isEmpty then .error (.semantic "unexpected fallback outputs")
        else .ok ()
    | .receive =>
      if !sig.name.isEmpty then .error (.semantic "unexpected receive name")
      else if !sig.inputs.isEmpty then .error (.semantic "unexpected receive inputs")
      else if !sig.outputs.isEmpty then .error (.semantic "unexpected receive outputs")
      else .ok ()
    | .event =>
      if sig.inputs.isEmpty then .error (.semantic "event must have inputs")
      else if !sig.outputs.isEmpty then .error (.semantic "unexpected event outputs")
      else if !(sig.modifiers.isEmpty ||
                (sig.modifiers.length = 1 && sig.modifiers.headD [] = "anonymous".data)) then
        .error (.semantic "unexpected event modifiers")
      else if sig.inputs.any (fun i => i.dataLocation ≠ .unspecified) then
        .error (.semantic "unexpected event input data location")
      else .ok ()
    | .error =>
      if !sig.outputs.isEmpty then .error (.semantic "unexpected error outputs")
      else if !sig.modifiers.isEmpty then .error (.semantic "unexpected error modifiers")
      else if sig.inputs.any (fun i => i.dataLocation ≠ .unspecified) then
        .error (.semantic "unexpected error input data location")
      else .ok ()
    | _ => .ok ()
  match kindCheck with
  | .error e => .error e
  | .ok () =>
    if sig.kind ≠ .unknown && sig.kind ≠ .event && sig.inputs.any (·.indexed) then
      .error (.semantic "unexpected indexed flag")
    else if sig.outputs.any (·.indexed) then
      .error (.semantic "unexpected indexed flag")
    else .ok ()

/-- Go `parser.parseSignature`: kind keyword, name, inputs, modifiers,
outputs, then kind-specific validation. -/
def parseSignatureF (fuel : Nat) (kind : SignatureKind) (s : List Char) :
    Except PErr (Signature × List Char) :=
  let (k0, s1) := parseSignatureKind s
  let kindP := if k0 = .unknown then kind else k0
  if kind ≠ .unknown && kindP ≠ kind then .error (.kindMismatch kindP)
  else
    let s2 := parseWhitespace s1
    let (nm, s3) := parseName s2
    let s4 := parseWhitespace s3
    match parseInputsF fuel s4 with
    | .error e => .error e
    | .ok (ins, s5) =>
      let s6 := parseWhitespace s5
      let (mods, s7) := parseModifiersF fuel s6
      let s8 := parseWhitespace s7
      match parseOutputsF fuel s8 with
      | .error e => .error e
      | .ok (outs, s9) =>
        let sig : Signature := ⟨kindP, nm, ins, outs, mods⟩
        match validateSignature sig with
        | .error e => .error e
        | .ok () => .ok (sig, s9)

/-! ## Struct definitions (Go: parseStruct) -/

/-- The field loop inside Go `parser.parseStruct`: whitespace, stop on `}`,
else an elementary type, whitespace, a mandatory field name, whitespace and
a mandatory `;`. -/
def parseStructFieldsF : Nat → List Char → Except PErr (List Parameter × List Char)
  | 0, _ => .error .outOfFuel
  | fuel + 1, s =>
    let s1 := parseWhitespace s
    match s1 with
    | '}' :: s2 => .ok ([], s2)
    | _ =>
      match parseElementaryType (fuel + 1) s1 with
      | .error e => .error e
      | .ok (field, r) =>
        let r1 := parseWhitespace r
        let (fname, r2) := parseName r1
        if fname.isEmpty then .error (.endOfInput "field name")
        else
          let r3 := parseWhitespace r2
          match r3 with
          | ';' :: r4 =>
            match parseStructFieldsF fuel r4 with
            | .error e => .error e
            | .ok (fields, r5) => .ok (field.setName fname :: fields, r5)
          | [] => .error (.endOfInput "';'")
          | c :: _ => .error (.unexpectedChar c "';'")

/-- Go `parser.parseStruct`: the `struct` keyword, a name, `{`, the field
loop; the result is a tuple-shaped `Parameter` named after the struct. -/
def parseStructF (fuel : Nat) (s : List Char) :
    Except PErr (Parameter × List Char) :=
  match readBytes "struct".data s with
  | none =>
    match s with
    | [] => .error (.endOfInput "'struct' keyword")
    | c :: _ => .error (.unexpectedChar c "'struct' keyword")
  | some s1 =>
    let s2 := parseWhitespace s1
    let (nm, s3) := parseName s2
    let s4 := parseWhitespace s3
    match s4 with
    | '{' :: s5 =>
      match parseStructFieldsF fuel s5 with
      | .error e => .error e
      | .ok (fields, r) => .ok (.mk nm [] fields [] false .unspecified, r)
    | [] => .error (.endOfInput "'\x7b'")
    | c :: _ => .error (.unexpectedChar c "'\x7b'")

/-! ## Public entry points -/

/-- The fuel the entry points provide: ample for an input of this length
(each pass through the fuelled recursions consumes input). -/
def entryFuel (s : List Char) : Nat := 3 * s.length + 3

/-- Go `ParseSignatureAs`: skip leading whitespace, parse a signature of the
given expected kind, and require only whitespace or `';'` to remain. -/
def ParseSignatureAs (kind : SignatureKind) (signature : String) :
    Except PErr Signature :=
  let s := signature.data
  let s1 := parseWhitespace s
  match parseSignatureF (entryFuel s) kind s1 with
  | .error e => .error e
  | .ok (sig, r) =>
    if onlyWhitespaceOrDelimiterLeft r then .ok sig
    else .error (.trailing (r.headD ' '))

/-- Go `ParseSignature`: `ParseSignatureAs` with `UnknownKind`. -/
def ParseSignature (signature : String) : Except PErr Signature :=
  ParseSignatureAs .unknown signature

/-- Go `ParseParameter`. -/
def ParseParameter (signature : String) : Except PErr Parameter :=
  let s := signature.data
  let s1 := parseWhitespace s
  match parseParameterF (entryFuel s) s1 with
  | .error e => .error e
  | .ok (typ, r) =>
    if onlyWhitespaceOrDelimiterLeft r then .ok typ
    else .error (.trailing (r.headD ' '))

/-- Go `ParseStruct`. -/
def ParseStruct (definition : String) : Except PErr Parameter :=
  let s := definition.data
  let s1 := parseWhitespace s
  match parseStructF (entryFuel s) s1 with
  | .error e => .error e
  | .ok (str, r) =>
    if onlyWhitespaceOrDelimiterLeft r then .ok str
    else .error (.trailing (r.headD ' '))

/-! ## Printer (Go: Signature.String, Parameter.String)

The Go printers build a `strings.Builder`; here they build a `List Char`. -/

/-- The decimal digit character for `d % 10`. -/
def decDigit (d : Nat) : Char :=
  match d with
  | 0 => '0' | 1 => '1' | 2 => '2' | 3 => '3' | 4 => '4'
  | 5 => '5' | 6 => '6' | 7 => '7' | 8 => '8' | _ => '9'

/-- Decimal digits of `n`, most significant first (empty for `0`); the fuel
bounds the number of digits and is in practice at least `n`. -/
def natToDecAux : Nat → Nat → List Char
  | 0, _ => []
  | fuel + 1, n =>
    if n = 0 then []
    else natToDecAux fuel (n / 10) ++ [decDigit (n % 10)]

/-- Decimal rendering of a natural number (Go `strconv.Itoa` on
non-negative values). -/
def natToDecimal (n : Nat) : List Char :=
  if n = 0 then ['0'] else natToDecAux n n

/-- Go `strconv.Itoa`. -/
def intToDecimal (n : Int) : List Char :=
  if n < 0 then '-' :: natToDecimal (-n).toNat else natToDecimal n.toNat

/-- The array-dimension loop of Go `Parameter.String`: `[]` for the `-1`
sentinel, `[N]` otherwise. -/
def renderArrays : List Int → List Char
  | [] => []
  | n :: rest =>
    (if n = -1 then "[]".data else '[' :: (intToDecimal n ++ [']'])) ++ renderArrays rest

/-- The data-location suffix of Go `Parameter.String` (a switch writing
`' '` plus `DataLocation.String()`, nothing for the unspecified location). -/
def renderLocation : DataLocation → List Char
  | .storage => " storage".data
  | .calldata => " calldata".data
  | .memory => " memory".data
  | .unspecified => []

mutual

/-- Go `Parameter.String`: the type name or the parenthesised tuple, the
array dimensions, ` indexed`, the data location, and ` name`. -/
def renderParameter : Parameter → List Char
  | .mk name type tuple arrays indexed loc =>
    (if type.isEmpty then '(' :: (renderTuple tuple ++ [')']) else type) ++
    renderArrays arrays ++
    (if indexed then " indexed".data else []) ++
    renderLocation loc ++
    (if name.isEmpty then [] else ' ' :: name)

/-- The `", "`-separated rendering of tuple components (the loops inside
Go `Parameter.String` and `Signature.String`). -/
def renderTuple : List Parameter → List Char
  | [] => []
  | [p] => renderParameter p
  | p :: ps => renderParameter p ++ ", ".data ++ renderTuple ps

end

/-- The `" "`-separated rendering of modifiers in Go `Signature.String`. -/
def renderModifiers : List (List Char) → List Char
  | [] => []
  | [m] => m
  | m :: ms => m ++ ' ' :: renderModifiers ms

/-- Go `Signature.String`: kind keyword and name, parenthesised inputs,
modifiers, and a `returns` clause when outputs are present. -/
def renderSignature (s : Signature) : List Char :=
  (match s.kind with
   | .function => "function ".data ++ s.name
   | .constructor => "constructor".data
   | .fallback => "fallback".data
   | .receive => "receive".data
   | .event => "event ".data ++ s.name
   | .error => "error ".data ++ s.name
   | .unknown => s.name) ++
  ('(' :: (renderTuple s.inputs ++ [')'])) ++
  (if s.modifiers.isEmpty then [] else ' ' :: renderModifiers s.modifiers) ++
  (if s.outputs.isEmpty then []
   else " returns (".data ++ (renderTuple s.outputs ++ [')']))

/-- The struct attempt inside Go `Kind`. -/
def Kind.tryStruct (s s1 : List Char) : InputKind :=
  match parseStructF (entryFuel s) s1 with
  | .ok (_, r) =>
    if onlyWhitespaceOrDelimiterLeft r then .structDefinitionInput
    else .invalidInput
  | .error _ => .invalidInput

/-- The signature and struct attempts inside Go `Kind`. -/
def Kind.trySignature (s s1 : List Char) : InputKind :=
  match parseSignatureF (entryFuel s) .unknown s1 with
  | .ok (sig, r) =>
    if onlyWhitespaceOrDelimiterLeft r then
      match sig.kind with
      | .function | .unknown => .functionSignatureInput
      | .constructor => .constructorSignatureInput
      | .fallback => .fallbackSignatureInput
      | .receive => .receiveSignatureInput
      | .event => .eventSignatureInput
      | .error => .errorSignatureInput
    else Kind.tryStruct s s1
  | .error _ => Kind.tryStruct s s1

/-- Go `Kind`: try the parameter grammar, then the signature grammar, then
the struct grammar, classifying the first that succeeds and leaves only
whitespace or `';'`. -/
def Kind (input : String) : InputKind :=
  let s := input.data
  let s1 := parseWhitespace s
  match parseParameterF (entryFuel s) s1 with
  | .ok (param, r) =>
    if onlyWhitespaceOrDelimiterLeft r then
      if !param.arrays.isEmpty then .arrayInput
      else if !param.tuple.isEmpty then .tupleInput
      else .typeInput
    else Kind.trySignature s s1
  | .error _ => Kind.trySignature s s1

/-! ## Well-formedness of parser-produced values

`wfParameter` collects the invariants every `Parameter` built by the parser
satisfies; they are exactly what is needed to show that re-parsing the
rendered text reproduces the value. -/

/-- First character of an identifier (Go: `isAlpha(b) || isIdentifierSymbol(b)`). -/
def isIdentStart (c : Char) : Bool := isAlpha c || isIdentifierSymbol c

/-- Subsequent character of an identifier
(Go: `isAlpha(b) || isDigit(b) || isIdentifierSymbol(b)`). -/
def isIdentChar (c : Char) : Bool := isAlpha c || isDigit c || isIdentifierSymbol c

/-- A non-empty identifier as scanned by `parseName`. -/
def validIdent : List Char → Bool
  | [] => false
  | c :: r => isIdentStart c && r.all isIdentChar

/-- The four parameter-suffix keywords tried by `parseParameter`. -/
def flagKeywords : List (List Char) :=
  ["indexed".data, "storage".data, "memory".data, "calldata".data]

/-- The six signature-kind keywords tried by `parseSignatureKind`. -/
def kindKeywords : List (List Char) :=
  ["function".data, "constructor".data, "fallback".data,
   "receive".data, "event".data, "error".data]

/-- `l` has none of the listed keywords as a prefix. -/
def noKeywordPrefix (kws : List (List Char)) (l : List Char) : Bool :=
  kws.all (fun kw => !(kw.isPrefixOf l))

mutual

/-- Invariants of parser-produced parameters: an empty type or a valid
identifier type with no tuple fields; well-formed components; dimensions
`-1` or in `1..maxInt`; `indexed` and a data location never together; the
name empty or a valid identifier, and (when no flag was consumed) free of
flag-keyword prefixes. -/
def wfParameter : Parameter → Bool
  | .mk name type tuple arrays indexed loc =>
    (type.isEmpty || (validIdent type && tuple.isEmpty)) &&
    wfParams tuple &&
    arrays.all (fun n => n = -1 || (1 ≤ n && n ≤ (maxInt : Int))) &&
    !(indexed && loc ≠ .unspecified) &&
    (name.isEmpty || validIdent name) &&
    (indexed || loc ≠ .unspecified || noKeywordPrefix flagKeywords name)

/-- `wfParameter` for every element. -/
def wfParams : List Parameter → Bool
  | [] => true
  | p :: ps => wfParameter p && wfParams ps

end

/-- Invariants of parser-produced signatures (under the entry points, whose
inputs have no leading whitespace): an identifier or empty name, free of
kind-keyword prefixes when no keyword was consumed; well-formed parameter
lists; identifier modifiers never starting with `returns`; and a signature
that passes `validateSignature`. -/
def wfSignature (sig : Signature) : Bool :=
  (sig.name.isEmpty || validIdent sig.name) &&
  (!(sig.kind = .unknown) || noKeywordPrefix kindKeywords sig.name) &&
  wfParams sig.inputs &&
  wfParams sig.outputs &&
  sig.modifiers.all (fun m => validIdent m && !("returns".data.isPrefixOf m)) &&
  (validateSignature sig).isOk

mutual

/-- Fuel sufficient for `parseParameterF` to parse the rendering of `p`. -/
def needP : Parameter → Nat
  | .mk _ _ tuple arrays _ _ => 2 + needI tuple + arrays.length

/-- Fuel sufficient for `parseTupleItemsF` on the rendering of a component
list. -/
def needI : List Parameter → Nat
  | [] => 1
  | p :: ps => 1 + needP p + needI ps

end

/-- Admissible continuations after a rendered parameter: nothing, or a
character that cannot extend the parameter (`,` or `)`). -/
def goodCont : List Char → Prop
  | [] => True
  | c :: _ => c = ',' ∨ c = ')'

/-- The shape invariant shared by `parseElementaryType` and
`parseCompositeTypeF` results: no name, no flag, no location yet. -/
def bareParam (v : Parameter) : Prop :=
  v.name = [] ∧ v.indexed = false ∧ v.dataLocation = .unspecified

/-- What `parseStruct` guarantees about each struct field: an elementary
type (possibly empty) with arrays, a mandatory identifier name, and no
tuple, flag or location. -/
def structFieldSound (f : Parameter) : Prop :=
  f.tuple = [] ∧ f.indexed = false ∧ f.dataLocation = .unspecified ∧
  validIdent f.name = true ∧ (f.type = [] ∨ validIdent f.type = true) ∧
  ∀ d ∈ f.arrays, d = -1 ∨ (1 ≤ d ∧ d ≤ (maxInt : Int))

mutual

/-- Mutual exclusivity of `type` and `tuple`, recursively: no parameter in
the tree has both a non-empty type and non-empty tuple fields. -/
def exclusiveP : Parameter → Bool
  | .mk _ t tu _ _ _ => (t.isEmpty || tu.isEmpty) && exclusiveL tu

/-- `exclusiveP` for every element. -/
def exclusiveL : List Parameter → Bool
  | [] => true
  | p :: ps => exclusiveP p && exclusiveL ps

end

/-! ## Basic lemmas about the scanning primitives -/

theorem isWhitespace_elim {c : Char} (h : isWhitespace c = true) :
    c = ' ' ∨ c = '\t' ∨ c = '\n' := by
  simp only [isWhitespace, Bool.or_eq_true, decide_eq_true_eq] at h
  tauto

theorem not_ws_of_identStart {c : Char} (h : isIdentStart c = true) :
    isWhitespace c = false := by
  by_contra hw
  have hw' : isWhitespace c = true := by
    cases hb : isWhitespace c
    · exact absurd hb hw
    · rfl
  rcases isWhitespace_elim hw' with h' | h' | h' <;>
    subst h' <;> simp [isIdentStart, isAlpha, isIdentifierSymbol] at h

theorem identChar_of_identStart {c : Char} (h : isIdentStart c = true) :
    isIdentChar c = true := by
  simp only [isIdentStart, Bool.or_eq_true] at h
  simp only [isIdentChar, Bool.or_eq_true]
  tauto

theorem parseWhitespace_nil : parseWhitespace [] = [] := rfl

theorem parseWhitespace_cons_of_not_ws {c : Char} {s : List Char}
    (h : isWhitespace c = false) : parseWhitespace (c :: s) = c :: s := by
  simp [parseWhitespace, List.dropWhile_cons, h]

theorem parseWhitespace_cons_of_ws {c : Char} {s : List Char}
    (h : isWhitespace c = true) : parseWhitespace (c :: s) = parseWhitespace s := by
  simp [parseWhitespace, List.dropWhile_cons, h]

theorem parseWhitespace_eq_self {s : List Char}
    (h : ∀ c ∈ s.head?, isWhitespace c = false) : parseWhitespace s = s := by
  cases s with
  | nil => rfl
  | cons c r => exact parseWhitespace_cons_of_not_ws (h c rfl)

/-- Splitting a prefix test across an append: the literal either fits inside
the first part or extends exactly past it into the second. -/
theorem isPrefixOf_append_elim {kw l₁ l₂ : List Char}
    (h : kw.isPrefixOf (l₁ ++ l₂) = true) :
    kw.isPrefixOf l₁ = true ∨
      (l₁.isPrefixOf kw = true ∧ (kw.drop l₁.length).isPrefixOf l₂ = true) := by
  induction kw generalizing l₁ with
  | nil => exact Or.inl (by cases l₁ <;> rfl)
  | cons c kw ih =>
    cases l₁ with
    | nil => exact Or.inr ⟨rfl, h⟩
    | cons d l₁ =>
      simp only [List.cons_append, List.isPrefixOf, Bool.and_eq_true, beq_iff_eq] at h ⊢
      obtain ⟨rfl, h2⟩ := h
      rcases ih h2 with h3 | ⟨h3, h4⟩
      · exact Or.inl ⟨rfl, h3⟩
      · exact Or.inr ⟨⟨rfl, h3⟩, h4⟩

/-- A keyword whose characters all satisfy `P` is not a prefix of
`l₁ ++ l₂` when it is not a prefix of `l₁` and the head of `l₂`
fails `P`. -/
theorem isPrefixOf_append_false {kw l₁ l₂ : List Char} (P : Char → Bool)
    (hkw : ∀ c ∈ kw, P c = true)
    (hnk : kw.isPrefixOf l₁ = false)
    (h2 : ∀ c ∈ l₂.head?, P c = false) :
    kw.isPrefixOf (l₁ ++ l₂) = false := by
  induction kw generalizing l₁ with
  | nil => simp [List.isPrefixOf] at hnk
  | cons c kw ih =>
    cases l₁ with
    | nil =>
      cases l₂ with
      | nil => rfl
      | cons d l₂ =>
        have hPd : P d = false := h2 d rfl
        have hPc : P c = true := hkw c (by simp)
        have hne : (c == d) = false := by
          by_contra hcd
          have : c = d := by
            cases hb : c == d
            · exact absurd hb hcd
            · exact beq_iff_eq.mp hb
          subst this; rw [hPc] at hPd; exact Bool.true_eq_false.mp hPd
        simp [List.isPrefixOf, hne]
    | cons d l₁ =>
      simp only [List.cons_append, List.isPrefixOf, Bool.and_eq_false_iff] at hnk ⊢
      rcases hnk with hne | h3
      · exact Or.inl hne
      · cases hb : c == d
        · exact Or.inl rfl
        · exact Or.inr (ih (fun x hx => hkw x (by simp [hx])) h3)

theorem isPrefixOf_append_self (lit k : List Char) :
    lit.isPrefixOf (lit ++ k) = true := by
  rw [List.isPrefixOf_iff_prefix]
  exact List.prefix_append lit k

theorem readBytes_append (lit k : List Char) :
    readBytes lit (lit ++ k) = some k := by
  simp [readBytes, isPrefixOf_append_self, List.drop_left]

theorem readBytes_eq_some {lit s r : List Char}
    (h : readBytes lit s = some r) : s = lit ++ r := by
  simp only [readBytes] at h
  split at h
  · next hp =>
    rw [List.isPrefixOf_iff_prefix] at hp
    obtain ⟨t, rfl⟩ := hp
    simp only [List.drop_left, Option.some.injEq] at h
    rw [h]
  · exact absurd h (by simp)

theorem readBytes_none {lit s : List Char}
    (h : lit.isPrefixOf s = false) : readBytes lit s = none := by
  simp [readBytes, h]

/-- A list containing a character outside `P` is not a prefix of a list all
of whose characters satisfy `P`. -/
theorem isPrefixOf_false_of_forall {kw l : List Char} (P : Char → Bool)
    {c : Char} (hc : c ∈ kw) (hcP : P c = false)
    (hl : ∀ x ∈ l, P x = true) : kw.isPrefixOf l = false := by
  by_contra h
  have h' : kw.isPrefixOf l = true := by
    cases hb : kw.isPrefixOf l
    · exact absurd hb h
    · rfl
  rw [List.isPrefixOf_iff_prefix] at h'
  have := hl c (h'.subset hc)
  rw [hcP] at this
  simp at this

theorem takeWhile_dropWhile_append {P : Char → Bool} {l k : List Char}
    (hl : ∀ c ∈ l, P c = true) (hk : ∀ c ∈ k.head?, P c = false) :
    (l ++ k).takeWhile P = l ∧ (l ++ k).dropWhile P = k := by
  induction l with
  | nil =>
    cases k with
    | nil => exact ⟨rfl, rfl⟩
    | cons d k' =>
      simp [List.takeWhile_cons, List.dropWhile_cons, hk d rfl]
  | cons e l ih =>
    have he : P e = true := hl e (by simp)
    have := ih (fun x hx => hl x (by simp [hx]))
    simp only [List.cons_append, List.takeWhile_cons, List.dropWhile_cons, he, if_true,
      List.cons.injEq, true_and]
    exact this

theorem parseName_append_ident {nm k : List Char}
    (h : validIdent nm = true)
    (hk : ∀ c ∈ k.head?, isIdentChar c = false) :
    parseName (nm ++ k) = (nm, k) := by
  cases nm with
  | nil => simp [validIdent] at h
  | cons c rest =>
    simp only [validIdent, Bool.and_eq_true, List.all_eq_true] at h
    obtain ⟨h1, h2⟩ := h
    obtain ⟨htk, hdk⟩ := takeWhile_dropWhile_append (P := isIdentChar) h2 hk
    have hstart : (isAlpha c || isIdentifierSymbol c) = true := h1
    simp only [List.cons_append, parseName, hstart, if_true]
    rw [show (fun b => isAlpha b || isDigit b || isIdentifierSymbol b) = isIdentChar from rfl]
    rw [htk, hdk]

theorem parseName_of_not_start {s : List Char}
    (h : ∀ c ∈ s.head?, isIdentStart c = false) : parseName s = ([], s) := by
  cases s with
  | nil => rfl
  | cons c rest =>
    have := h c rfl
    simp only [parseName, show (isAlpha c || isIdentifierSymbol c) = isIdentStart c from rfl, this]
    simp

theorem parseName_sound {s nm r : List Char} (h : parseName s = (nm, r)) :
    s = nm ++ r ∧ (nm = [] ∨ validIdent nm = true) := by
  cases s with
  | nil =>
    simp only [parseName, Prod.mk.injEq] at h
    obtain ⟨rfl, rfl⟩ := h
    simp
  | cons c rest =>
    by_cases hc : (isAlpha c || isIdentifierSymbol c) = true
    · simp only [parseName, hc, if_true, Prod.mk.injEq] at h
      obtain ⟨rfl, rfl⟩ := h
      refine ⟨by rw [List.cons_append, List.takeWhile_append_dropWhile], Or.inr ?_⟩
      simp only [validIdent, Bool.and_eq_true, List.all_eq_true]
      exact ⟨hc, fun x hx => List.mem_takeWhile_imp hx⟩
    · simp only [parseName, hc, if_false, Prod.mk.injEq] at h
      obtain ⟨rfl, rfl⟩ := h
      simp

/-! ## Decimal rendering and parsing of array dimensions -/

theorem decDigit_isDigit {d : Nat} (h : d < 10) : isDigit (decDigit d) = true := by
  interval_cases d <;> decide

theorem decDigit_val {d : Nat} (h : d < 10) : (decDigit d).toNat - '0'.toNat = d := by
  interval_cases d <;> decide

theorem digitsToNat_append (l : List Char) (c : Char) :
    digitsToNat (l ++ [c]) = 10 * digitsToNat l + (c.toNat - '0'.toNat) := by
  simp [digitsToNat, List.foldl_append]

theorem natToDecAux_spec : ∀ fuel n, n ≤ fuel →
    digitsToNat (natToDecAux fuel n) = n ∧
      (∀ c ∈ natToDecAux fuel n, isDigit c = true) := by
  intro fuel
  induction fuel with
  | zero =>
    intro n hn
    interval_cases n
    exact ⟨rfl, by simp [natToDecAux]⟩
  | succ fuel ih =>
    intro n hn
    by_cases h0 : n = 0
    · subst h0
      exact ⟨rfl, by simp [natToDecAux]⟩
    · have hdiv : n / 10 ≤ fuel := by
        have : n / 10 < n := Nat.div_lt_self (Nat.pos_of_ne_zero h0) (by omega)
        omega
      obtain ⟨ih1, ih2⟩ := ih (n / 10) hdiv
      constructor
      · simp only [natToDecAux, h0, if_false]
        rw [digitsToNat_append, ih1, decDigit_val (Nat.mod_lt n (by omega))]
        omega
      · simp only [natToDecAux, h0, if_false]
        intro c hc
        rcases List.mem_append.mp hc with hc | hc
        · exact ih2 c hc
        · simp only [List.mem_singleton] at hc
          subst hc
          exact decDigit_isDigit (Nat.mod_lt n (by omega))

theorem natToDecimal_spec (n : Nat) :
    digitsToNat (natToDecimal n) = n ∧
      (∀ c ∈ natToDecimal n, isDigit c = true) ∧ natToDecimal n ≠ [] := by
  by_cases h0 : n = 0
  · subst h0
    exact ⟨rfl, by decide, by decide⟩
  · obtain ⟨h1, h2⟩ := natToDecAux_spec n n le_rfl
    refine ⟨by simpa [natToDecimal, h0] using h1, by simpa [natToDecimal, h0] using h2, ?_⟩
    simp only [natToDecimal, h0, if_false]
    cases hn : natToDecAux n n with
    | nil =>
      rw [hn] at h1
      simp [digitsToNat] at h1
      exact absurd h1.symm h0
    | cons c l => simp

theorem not_isDigit_of_identStart {c : Char} (h : isIdentStart c = true) :
    isDigit c = false := by
  simp only [isIdentStart, isAlpha, isIdentifierSymbol, Bool.or_eq_true, Bool.and_eq_true,
    decide_eq_true_eq] at h
  simp only [isDigit, Bool.and_eq_false_iff, decide_eq_false_iff_not, not_le]
  rcases h with (⟨h1, _⟩ | ⟨h1, _⟩) | h1 | h1
  · right
    exact lt_of_lt_of_le (by decide) h1
  · right
    exact lt_of_lt_of_le (by decide) h1
  · subst h1
    left
    decide
  · subst h1
    right
    decide

/-- `parseNumber` on a rendered positive dimension followed by a non-digit. -/
theorem parseNumber_render {n : Nat} (h2 : n ≤ maxInt) {k : List Char}
    (hk : ∀ c ∈ k.head?, isDigit c = false) :
    parseNumber (natToDecimal n ++ k) = .ok (some (n : Int), k) := by
  obtain ⟨hval, hdig, hne⟩ := natToDecimal_spec n
  obtain ⟨htk, hdk⟩ := takeWhile_dropWhile_append (P := isDigit) hdig hk
  simp only [parseNumber, htk, hdk, hval, List.isEmpty_iff, hne, if_false, gt_iff_lt,
    Nat.not_lt.mpr h2, if_false]

/-- `parseNumber` when the input does not start with a digit. -/
theorem parseNumber_none {s : List Char}
    (h : ∀ c ∈ s.head?, isDigit c = false) :
    parseNumber s = .ok (none, s) := by
  cases s with
  | nil => rfl
  | cons c rest =>
    simp [parseNumber, List.takeWhile_cons, h c rfl]

/-- `parseArrayF` when the input does not start with `[`. -/
theorem parseArrayF_no_bracket {s : List Char} {fuel : Nat}
    (hf : 0 < fuel) (h : s.head? ≠ some '[') :
    parseArrayF fuel s = .ok ([], s) := by
  match fuel, hf with
  | fuel + 1, _ =>
    cases s with
    | nil => rfl
    | cons c rest =>
      have hc : ¬c = '[' := fun hcc => h (by rw [hcc]; rfl)
      simp only [parseArrayF]
      split
      · next heq => exact absurd (List.head_eq_of_cons_eq heq) hc
      · rfl

/-- `parseArrayF` on a rendered dimension list followed by anything not
starting with `[`. -/
theorem parseArrayF_render : ∀ (dims : List Int) (k : List Char) (fuel : Nat),
    (∀ d ∈ dims, d = -1 ∨ (1 ≤ d ∧ d ≤ (maxInt : Int))) →
    dims.length + 1 ≤ fuel →
    k.head? ≠ some '[' →
    parseArrayF fuel (renderArrays dims ++ k) = .ok (dims, k) := by
  intro dims
  induction dims with
  | nil =>
    intro k fuel _ hf hk
    exact parseArrayF_no_bracket (by omega) hk
  | cons d dims ih =>
    intro k fuel hwf hf hk
    match fuel, hf with
    | fuel + 1, hf =>
      have hrest : ∀ x ∈ dims, x = -1 ∨ (1 ≤ x ∧ x ≤ (maxInt : Int)) :=
        fun x hx => hwf x (by simp [hx])
      have hfl : dims.length + 1 ≤ fuel := by
        simp only [List.length_cons] at hf
        omega
      rcases hwf d (by simp) with hd | ⟨hd1, hd2⟩
      · subst hd
        have hsh : renderArrays (-1 :: dims) ++ k =
            '[' :: ']' :: (renderArrays dims ++ k) := by
          simp [renderArrays]
        rw [hsh]
        have hnum : parseNumber (']' :: (renderArrays dims ++ k)) =
            .ok (none, ']' :: (renderArrays dims ++ k)) :=
          parseNumber_none (by intro c hc; simp at hc; subst hc; decide)
        simp only [parseArrayF, hnum, ih k fuel hrest hfl hk]
      · have hd0 : ¬d < 0 := by omega
        have hsh : renderArrays (d :: dims) ++ k =
            '[' :: (natToDecimal d.toNat ++ (']' :: (renderArrays dims ++ k))) := by
          simp only [renderArrays, List.cons_append, List.append_assoc]
          have hne : d ≠ -1 := by omega
          simp [hne, intToDecimal, hd0]
        rw [hsh]
        have htn : (d.toNat : Int) = d := Int.toNat_of_nonneg (by omega)
        have hmax : d.toNat ≤ maxInt := by omega
        have hnum := parseNumber_render (n := d.toNat) hmax
          (k := ']' :: (renderArrays dims ++ k)) (by intro c hc; simp at hc; subst hc; decide)
        have hdle : ¬d ≤ 0 := by omega
        simp only [parseArrayF, hnum, htn, hdle, if_false, ih k fuel hrest hfl hk]

/-- Bounds on a value returned by `parseNumber`. -/
theorem parseNumber_sound {s r : List Char} {n : Int}
    (h : parseNumber s = .ok (some n, r)) : 0 ≤ n ∧ n ≤ (maxInt : Int) := by
  simp only [parseNumber] at h
  split at h
  · simp at h
  · split at h
    · simp at h
    · next hle =>
      simp only [Except.ok.injEq, Prod.mk.injEq, Option.some.injEq] at h
      obtain ⟨rfl, -⟩ := h
      constructor
      · exact Int.ofNat_nonneg _
      · exact_mod_cast Nat.le_of_not_lt hle

/-- Soundness of `parseArrayF`: produced dimensions are `-1` or in
`1..maxInt`. -/
theorem parseArrayF_sound : ∀ fuel s dims r,
    parseArrayF fuel s = .ok (dims, r) →
    ∀ d ∈ dims, d = -1 ∨ (1 ≤ d ∧ d ≤ (maxInt : Int)) := by
  intro fuel
  induction fuel with
  | zero => intro s dims r h; simp [parseArrayF] at h
  | succ fuel ih =>
    intro s dims r h
    simp only [parseArrayF] at h
    split at h
    · split at h
      · simp at h
      · next heqnum =>
        split at h
        · next n =>
          split at h
          · simp at h
          · next hn0 =>
            split at h
            · simp at h
            · split at h
              · simp at h
              · next harr =>
                simp only [Except.ok.injEq, Prod.mk.injEq] at h
                obtain ⟨h1, _⟩ := h
                intro d hd
                rcases List.mem_cons.mp (h1 ▸ hd) with hd' | hd'
                · subst hd'
                  obtain ⟨hge, hle⟩ := parseNumber_sound heqnum
                  right
                  exact ⟨by omega, hle⟩
                · exact ih _ _ _ harr d hd'
            · simp at h
        · split at h
          · simp at h
          · split at h
            · simp at h
            · next harr =>
              simp only [Except.ok.injEq, Prod.mk.injEq] at h
              obtain ⟨h1, _⟩ := h
              intro d hd
              rcases List.mem_cons.mp (h1 ▸ hd) with hd' | hd'
              · subst hd'
                exact Or.inl rfl
              · exact ih _ _ _ harr d hd'
          · simp at h
    · simp only [Except.ok.injEq, Prod.mk.injEq] at h
      obtain ⟨rfl, rfl⟩ := h
      simp

/-! ## Soundness: parser-produced values are well-formed -/

theorem wfParameter_mk (n t : List Char) (tu : List Parameter) (a : List Int)
    (i : Bool) (d : DataLocation) :
    wfParameter (.mk n t tu a i d) =
      ((t.isEmpty || (validIdent t && tu.isEmpty)) &&
       wfParams tu &&
       a.all (fun x => x = -1 || (1 ≤ x && x ≤ (maxInt : Int))) &&
       !(i && d ≠ .unspecified) &&
       (n.isEmpty || validIdent n) &&
       (i || d ≠ .unspecified || noKeywordPrefix flagKeywords n)) := by
  rw [wfParameter]

theorem wfParams_nil : wfParams [] = true := by rw [wfParams]

theorem wfParams_cons (p : Parameter) (ps : List Parameter) :
    wfParams (p :: ps) = (wfParameter p && wfParams ps) := by rw [wfParams]

theorem wfParams_iff_all (l : List Parameter) :
    wfParams l = true ↔ ∀ p ∈ l, wfParameter p = true := by
  induction l with
  | nil => simp [wfParams_nil]
  | cons p ps ih => simp [wfParams_cons, ih]

theorem wf_setName {arg : Parameter} {nm : List Char}
    (hwf : wfParameter arg = true)
    (hnm : nm = [] ∨ validIdent nm = true)
    (hflag : (arg.indexed || arg.dataLocation ≠ .unspecified ||
      noKeywordPrefix flagKeywords nm) = true) :
    wfParameter (arg.setName nm) = true := by
  obtain ⟨n, t, tu, a, i, d⟩ := arg
  simp only [Parameter.setName, Parameter.indexed, Parameter.dataLocation] at hflag ⊢
  rw [wfParameter_mk] at hwf ⊢
  simp only [Bool.and_eq_true] at hwf ⊢
  obtain ⟨⟨⟨⟨⟨h1, h2⟩, h3⟩, h4⟩, _⟩, _⟩ := hwf
  refine ⟨⟨⟨⟨⟨h1, h2⟩, h3⟩, h4⟩, ?_⟩, hflag⟩
  rcases hnm with rfl | hv
  · simp
  · simp [hv]

theorem wf_setIndexed {arg : Parameter}
    (hwf : wfParameter arg = true)
    (hbare : bareParam arg) :
    wfParameter arg.setIndexed = true := by
  obtain ⟨n, t, tu, a, i, d⟩ := arg
  obtain ⟨hn, hi, hd⟩ := hbare
  simp only [Parameter.name, Parameter.indexed, Parameter.dataLocation] at hn hi hd
  subst hn hi hd
  simp only [Parameter.setIndexed]
  rw [wfParameter_mk] at hwf ⊢
  simp only [Bool.and_eq_true] at hwf ⊢
  obtain ⟨⟨⟨⟨⟨h1, h2⟩, h3⟩, _⟩, h5⟩, _⟩ := hwf
  refine ⟨⟨⟨⟨⟨h1, h2⟩, h3⟩, by simp⟩, h5⟩, by simp⟩

theorem wf_setDataLocation {arg : Parameter} {loc : DataLocation}
    (hwf : wfParameter arg = true)
    (hbare : bareParam arg) :
    wfParameter (arg.setDataLocation loc) = true := by
  obtain ⟨n, t, tu, a, i, d⟩ := arg
  obtain ⟨hn, hi, hd⟩ := hbare
  simp only [Parameter.name, Parameter.indexed, Parameter.dataLocation] at hn hi hd
  subst hn hi hd
  simp only [Parameter.setDataLocation]
  rw [wfParameter_mk] at hwf ⊢
  simp only [Bool.and_eq_true] at hwf ⊢
  obtain ⟨⟨⟨⟨⟨h1, h2⟩, h3⟩, _⟩, h5⟩, _⟩ := hwf
  refine ⟨⟨⟨⟨⟨h1, h2⟩, h3⟩, by simp⟩, h5⟩, ?_⟩
  cases loc <;> decide

theorem afterFlag_sound {arg : Parameter} {r : List Char} {v : Parameter}
    {r' : List Char}
    (hwf : wfParameter arg = true)
    (hflag : (arg.indexed || arg.dataLocation ≠ .unspecified) = true)
    (h : afterFlag arg r = (v, r')) :
    wfParameter v = true := by
  cases r with
  | nil =>
    simp only [afterFlag, Prod.mk.injEq] at h
    obtain ⟨rfl, rfl⟩ := h
    exact hwf
  | cons c tail =>
    simp only [afterFlag] at h
    by_cases hws : isWhitespace c = true
    · rw [if_pos hws] at h
      cases hpn : parseName (parseWhitespace (c :: tail)) with
      | mk nm r2 =>
        rw [hpn] at h
        simp only [Prod.mk.injEq] at h
        obtain ⟨rfl, rfl⟩ := h
        refine wf_setName hwf (parseName_sound hpn).2 ?_
        simp only [Bool.or_eq_true] at hflag ⊢
        tauto
    · rw [if_neg hws] at h
      simp only [Prod.mk.injEq] at h
      obtain ⟨rfl, rfl⟩ := h
      exact hwf

theorem parseParamSuffix_sound {arg : Parameter} {r : List Char} {v : Parameter}
    {r' : List Char}
    (hwf : wfParameter arg = true)
    (hbare : bareParam arg)
    (h : parseParamSuffix arg r = (v, r')) :
    wfParameter v = true := by
  have hidx : arg.setIndexed.indexed = true := by
    obtain ⟨n, t, tu, a, i, d⟩ := arg
    rfl
  have hloc : ∀ loc : DataLocation, (arg.setDataLocation loc).dataLocation = loc := by
    intro loc
    obtain ⟨n, t, tu, a, i, d⟩ := arg
    rfl
  cases r with
  | nil =>
    simp only [parseParamSuffix, Prod.mk.injEq] at h
    obtain ⟨rfl, rfl⟩ := h
    exact hwf
  | cons c tail =>
    simp only [parseParamSuffix] at h
    by_cases hws : isWhitespace c = true
    · rw [if_pos hws] at h
      cases hk1 : readBytes "indexed".data (parseWhitespace (c :: tail)) with
      | some r2 =>
        rw [hk1] at h
        exact afterFlag_sound (wf_setIndexed hwf hbare) (by simp [hidx]) h
      | none =>
        rw [hk1] at h
        cases hk2 : readBytes "storage".data (parseWhitespace (c :: tail)) with
        | some r2 =>
          rw [hk2] at h
          exact afterFlag_sound (wf_setDataLocation hwf hbare)
            (by simp [hloc]) h
        | none =>
          rw [hk2] at h
          cases hk3 : readBytes "memory".data (parseWhitespace (c :: tail)) with
          | some r2 =>
            rw [hk3] at h
            exact afterFlag_sound (wf_setDataLocation hwf hbare)
              (by simp [hloc]) h
          | none =>
            rw [hk3] at h
            cases hk4 : readBytes "calldata".data (parseWhitespace (c :: tail)) with
            | some r2 =>
              rw [hk4] at h
              exact afterFlag_sound (wf_setDataLocation hwf hbare)
                (by simp [hloc]) h
            | none =>
              rw [hk4] at h
              cases hpn : parseName (parseWhitespace (c :: tail)) with
              | mk nm r2 =>
                rw [hpn] at h
                simp only [Prod.mk.injEq] at h
                obtain ⟨rfl, rfl⟩ := h
                refine wf_setName hwf (parseName_sound hpn).2 ?_
                obtain ⟨hs, _⟩ := parseName_sound hpn
                have hpre : ∀ kw : List Char,
                    readBytes kw (parseWhitespace (c :: tail)) = none →
                    kw.isPrefixOf nm = false := by
                  intro kw hnone
                  by_contra hp
                  have hp' : kw.isPrefixOf nm = true := by
                    cases hb : kw.isPrefixOf nm
                    · exact absurd hb hp
                    · rfl
                  rw [List.isPrefixOf_iff_prefix] at hp'
                  have hpw : kw.isPrefixOf (parseWhitespace (c :: tail)) = true := by
                    rw [List.isPrefixOf_iff_prefix, hs]
                    exact hp'.trans (List.prefix_append nm r2)
                  simp [readBytes, hpw] at hnone
                simp only [Bool.or_eq_true]
                right
                simp only [noKeywordPrefix, flagKeywords, List.all_cons, List.all_nil,
                  Bool.and_eq_true, Bool.and_true, Bool.not_eq_true',
                  Bool.not_eq_eq_eq_not, Bool.not_true]
                exact ⟨hpre _ hk1, hpre _ hk2, hpre _ hk3, hpre _ hk4⟩
    · rw [if_neg hws] at h
      simp only [Prod.mk.injEq] at h
      obtain ⟨rfl, rfl⟩ := h
      exact hwf

theorem parseElementaryType_sound {fuel : Nat} {s : List Char} {v : Parameter}
    {r : List Char} (h : parseElementaryType fuel s = .ok (v, r)) :
    wfParameter v = true ∧ bareParam v ∧ v.tuple = [] := by
  have hwf : ∀ (ty : List Char) (dims : List Int), (ty = [] ∨ validIdent ty = true) →
      (∀ d ∈ dims, d = -1 ∨ (1 ≤ d ∧ d ≤ (maxInt : Int))) →
      wfParameter (.mk [] ty [] dims false .unspecified) = true := by
    intro ty dims hty hdims
    rw [wfParameter_mk]
    simp only [Bool.and_eq_true]
    refine ⟨⟨⟨⟨⟨?_, by rw [wfParams_nil]⟩, ?_⟩, by simp⟩, by simp⟩, by decide⟩
    · rcases hty with rfl | hv
      · simp
      · simp [hv]
    · simp only [List.all_eq_true, Bool.or_eq_true, Bool.and_eq_true,
        decide_eq_true_eq]
      intro d hd
      rcases hdims d hd with h' | ⟨h1, h2⟩
      · exact Or.inl h'
      · exact Or.inr ⟨h1, h2⟩
  rcases hps : parseName s with ⟨ty, r0⟩
  have hty := (parseName_sound hps).2
  simp only [parseElementaryType, hps] at h
  split at h
  · split at h
    · exact absurd h (by simp)
    · next harr =>
      simp only [Except.ok.injEq, Prod.mk.injEq] at h
      obtain ⟨rfl, rfl⟩ := h
      exact ⟨hwf ty _ hty (parseArrayF_sound _ _ _ _ harr), ⟨rfl, rfl, rfl⟩, rfl⟩
  · simp only [Except.ok.injEq, Prod.mk.injEq] at h
    obtain ⟨rfl, rfl⟩ := h
    exact ⟨hwf ty [] hty (by simp), ⟨rfl, rfl, rfl⟩, rfl⟩

/-- Soundness of the parameter grammar: every parameter a successful parse
produces is well-formed, and composite results additionally carry no name,
type, flag or location of their own. -/
theorem parseGrammar_sound : ∀ fuel : Nat,
    (∀ s v r, parseParameterF fuel s = .ok (v, r) → wfParameter v = true) ∧
    (∀ s v r, parseCompositeTypeF fuel s = .ok (v, r) →
      wfParameter v = true ∧ bareParam v ∧ v.type = []) ∧
    (∀ s l r, parseTupleItemsF fuel s = .ok (l, r) → wfParams l = true) := by
  intro fuel
  induction fuel with
  | zero =>
    refine ⟨?_, ?_, ?_⟩ <;> intro s v r h <;> simp [parseParameterF,
      parseCompositeTypeF, parseTupleItemsF] at h
  | succ fuel ih =>
    obtain ⟨ihP, ihC, ihI⟩ := ih
    have hwfC : ∀ (tu : List Parameter) (dims : List Int), wfParams tu = true →
        (∀ d ∈ dims, d = -1 ∨ (1 ≤ d ∧ d ≤ (maxInt : Int))) →
        wfParameter (.mk [] [] tu dims false .unspecified) = true := by
      intro tu dims htu hdims
      rw [wfParameter_mk]
      simp only [Bool.and_eq_true]
      refine ⟨⟨⟨⟨⟨by simp, htu⟩, ?_⟩, by simp⟩, by simp⟩, by decide⟩
      simp only [List.all_eq_true, Bool.or_eq_true, Bool.and_eq_true,
        decide_eq_true_eq]
      intro d hd
      rcases hdims d hd with h' | ⟨h1, h2⟩
      · exact Or.inl h'
      · exact Or.inr ⟨h1, h2⟩
    refine ⟨?_, ?_, ?_⟩
    · -- parseParameterF
      intro s v r h
      cases s with
      | nil => simp [parseParameterF] at h
      | cons c tail =>
        simp only [parseParameterF] at h
        split at h
        · exact absurd h (by simp)
        · next arg r0 heq =>
          simp only [Except.ok.injEq] at h
          have hsuf : parseParamSuffix arg r0 = (v, r) := by
            cases hs : parseParamSuffix arg r0 with
            | mk v' r' =>
              rw [hs] at h
              simp only [Prod.mk.injEq] at h
              simp [h.1, h.2]
          split at heq
          · obtain ⟨hwf0, hbare0, _⟩ := ihC _ _ _ heq
            exact parseParamSuffix_sound hwf0 hbare0 hsuf
          · split at heq
            · obtain ⟨hwf0, hbare0, _⟩ := parseElementaryType_sound heq
              exact parseParamSuffix_sound hwf0 hbare0 hsuf
            · exact absurd heq (by simp)
    · -- parseCompositeTypeF
      intro s v r h
      simp only [parseCompositeTypeF] at h
      split at h
      · exact absurd h (by simp)
      · next rest heqOpen =>
        split at h
        · exact absurd h (by simp)
        · next tu s2 heqComps =>
          have htu : wfParams tu = true := by
            split at heqComps
            · simp only [Except.ok.injEq, Prod.mk.injEq] at heqComps
              obtain ⟨rfl, _⟩ := heqComps
              rw [wfParams_nil]
            · exact ihI _ _ _ heqComps
          split at h
          · split at h
            · exact absurd h (by simp)
            · next harr =>
              simp only [Except.ok.injEq, Prod.mk.injEq] at h
              obtain ⟨rfl, rfl⟩ := h
              exact ⟨hwfC tu _ htu (parseArrayF_sound _ _ _ _ harr),
                ⟨rfl, rfl, rfl⟩, rfl⟩
          · simp only [Except.ok.injEq, Prod.mk.injEq] at h
            obtain ⟨rfl, rfl⟩ := h
            exact ⟨hwfC tu [] htu (by simp), ⟨rfl, rfl, rfl⟩, rfl⟩
    · -- parseTupleItemsF
      intro s l r h
      simp only [parseTupleItemsF] at h
      split at h
      · exact absurd h (by simp)
      · next comp r0 hcomp =>
        have hp := ihP _ _ _ hcomp
        split at h
        · split at h
          · exact absurd h (by simp)
          · next comps r3 hitems =>
            simp only [Except.ok.injEq, Prod.mk.injEq] at h
            obtain ⟨rfl, rfl⟩ := h
            rw [wfParams_cons]
            simp [hp, ihI _ _ _ hitems]
        · simp only [Except.ok.injEq, Prod.mk.injEq] at h
          obtain ⟨rfl, rfl⟩ := h
          rw [wfParams_cons]
          simp [hp, wfParams_nil]
        · exact absurd h (by simp)
        · exact absurd h (by simp)

theorem wfParameter_tuple {v : Parameter} (h : wfParameter v = true) :
    wfParams v.tuple = true := by
  obtain ⟨n, t, tu, a, i, d⟩ := v
  rw [wfParameter_mk] at h
  simp only [Bool.and_eq_true] at h
  exact h.1.1.1.1.2

theorem parseModifiersF_sound : ∀ (fuel : Nat) (s : List Char)
    (mods : List (List Char)) (r : List Char),
    parseModifiersF fuel s = (mods, r) →
    ∀ m ∈ mods, validIdent m = true ∧ "returns".data.isPrefixOf m = false := by
  intro fuel
  induction fuel with
  | zero =>
    intro s mods r h
    simp only [parseModifiersF, Prod.mk.injEq] at h
    obtain ⟨rfl, rfl⟩ := h
    simp
  | succ fuel ih =>
    intro s mods r h
    cases s with
    | nil =>
      simp only [parseModifiersF, Prod.mk.injEq] at h
      obtain ⟨rfl, rfl⟩ := h
      simp
    | cons c tail =>
      simp only [parseModifiersF] at h
      split at h
      · simp only [Prod.mk.injEq] at h
        obtain ⟨rfl, rfl⟩ := h
        simp
      · next hstop =>
        have hret : peekBytes "returns".data (c :: tail) = false := by
          simp only [Bool.or_eq_true, not_or] at hstop
          cases hb : peekBytes "returns".data (c :: tail)
          · rfl
          · exact absurd hb (by simpa using hstop.2)
        rcases hnm : parseName (c :: tail) with ⟨mod, r1⟩
        rw [hnm] at h
        cases mod with
        | nil =>
          simp only [Prod.mk.injEq] at h
          obtain ⟨rfl, rfl⟩ := h
          simp
        | cons m0 mrest =>
          have hmods := parseName_sound hnm
          have hmodv : validIdent (m0 :: mrest) = true := by
            rcases hmods.2 with h' | hv
            · exact absurd h' (by simp)
            · exact hv
          have hmodp : "returns".data.isPrefixOf (m0 :: mrest) = false := by
            by_contra hp
            have hp' : "returns".data.isPrefixOf (m0 :: mrest) = true := by
              cases hb : "returns".data.isPrefixOf (m0 :: mrest)
              · exact absurd hb hp
              · rfl
            rw [List.isPrefixOf_iff_prefix] at hp'
            have hret2 : "returns".data.isPrefixOf (c :: tail) = true := by
              rw [List.isPrefixOf_iff_prefix, hmods.1]
              exact hp'.trans (List.prefix_append (m0 :: mrest) r1)
            rw [peekBytes] at hret
            rw [hret2] at hret
            exact absurd hret (by simp)
          simp only at h
          split at h
          · split at h
            · rename_i c2 rest2 hws2
              rcases hrec : parseModifiersF fuel (parseWhitespace (c2 :: rest2)) with ⟨mods', r'⟩
              rw [hrec] at h
              simp only [Prod.mk.injEq] at h
              obtain ⟨rfl, rfl⟩ := h
              intro m hm
              rcases List.mem_cons.mp hm with rfl | hm'
              · exact ⟨hmodv, hmodp⟩
              · exact ih _ _ _ hrec m hm'
            · simp only [Prod.mk.injEq] at h
              obtain ⟨rfl, rfl⟩ := h
              intro m hm
              rcases List.mem_cons.mp hm with rfl | hm'
              · exact ⟨hmodv, hmodp⟩
              · simp at hm'
          · simp only [Prod.mk.injEq] at h
            obtain ⟨rfl, rfl⟩ := h
            intro m hm
            rcases List.mem_cons.mp hm with rfl | hm'
            · exact ⟨hmodv, hmodp⟩
            · simp at hm'

theorem parseInputsF_sound {fuel : Nat} {s : List Char} {l : List Parameter}
    {r : List Char} (h : parseInputsF fuel s = .ok (l, r)) :
    wfParams l = true := by
  simp only [parseInputsF] at h
  split at h
  · split at h
    · exact absurd h (by simp)
    · next args r0 hc =>
      split at h
      · simp only [Except.ok.injEq, Prod.mk.injEq] at h
        obtain ⟨rfl, _⟩ := h
        exact wfParameter_tuple ((parseGrammar_sound fuel).2.1 _ _ _ hc).1
      · exact absurd h (by simp)
  · simp only [Except.ok.injEq, Prod.mk.injEq] at h
    obtain ⟨rfl, _⟩ := h
    rw [wfParams_nil]

theorem parseOutputsF_sound {fuel : Nat} {s : List Char} {l : List Parameter}
    {r : List Char} (h : parseOutputsF fuel s = .ok (l, r)) :
    wfParams l = true := by
  simp only [parseOutputsF] at h
  split at h
  · split at h
    · split at h
      · exact absurd h (by simp)
      · next args r0 hc =>
        split at h
        · simp only [Except.ok.injEq, Prod.mk.injEq] at h
          obtain ⟨rfl, _⟩ := h
          exact wfParameter_tuple ((parseGrammar_sound fuel).2.1 _ _ _ hc).1
        · exact absurd h (by simp)
    · exact absurd h (by simp)
    · exact absurd h (by simp)
  · split at h
    · split at h
      · exact absurd h (by simp)
      · next args r0 hc =>
        split at h
        · simp only [Except.ok.injEq, Prod.mk.injEq] at h
          obtain ⟨rfl, _⟩ := h
          exact wfParameter_tuple ((parseGrammar_sound fuel).2.1 _ _ _ hc).1
        · exact absurd h (by simp)
    · simp only [Except.ok.injEq, Prod.mk.injEq] at h
      obtain ⟨rfl, _⟩ := h
      rw [wfParams_nil]

/-- If `parseSignatureKind` finds no keyword it consumes nothing. -/
theorem parseSignatureKind_unknown {s : List Char}
    (h : (parseSignatureKind s).1 = .unknown) : parseSignatureKind s = (.unknown, s) := by
  simp only [parseSignatureKind] at h ⊢
  split at h
  · simp at h
  · split at h
    · simp at h
    · split at h
      · simp at h
      · split at h
        · simp at h
        · split at h
          · simp at h
          · split at h
            · simp at h
            · rfl

/-- If `parseSignatureKind` finds no keyword, none of the kind keywords is a
prefix of the input. -/
theorem parseSignatureKind_unknown_no_prefix {s : List Char}
    (h : (parseSignatureKind s).1 = .unknown) :
    ∀ kw ∈ kindKeywords, kw.isPrefixOf s = false := by
  have hby : ∀ kw : List Char, readBytes kw s = none → kw.isPrefixOf s = false := by
    intro kw hnone
    cases hb : kw.isPrefixOf s
    · rfl
    · simp [readBytes, hb] at hnone
  cases h1 : readBytes "function".data s with
  | some r => simp [parseSignatureKind, h1] at h
  | none =>
  cases h2 : readBytes "constructor".data s with
  | some r => simp [parseSignatureKind, h1, h2] at h
  | none =>
  cases h3 : readBytes "fallback".data s with
  | some r => simp [parseSignatureKind, h1, h2, h3] at h
  | none =>
  cases h4 : readBytes "receive".data s with
  | some r => simp [parseSignatureKind, h1, h2, h3, h4] at h
  | none =>
  cases h5 : readBytes "event".data s with
  | some r => simp [parseSignatureKind, h1, h2, h3, h4, h5] at h
  | none =>
  cases h6 : readBytes "error".data s with
  | some r => simp [parseSignatureKind, h1, h2, h3, h4, h5, h6] at h
  | none =>
  intro kw hkw
  simp only [kindKeywords, List.mem_cons, List.mem_singleton] at hkw
  rcases hkw with rfl | rfl | rfl | rfl | rfl | rfl | hfalse
  · exact hby _ h1
  · exact hby _ h2
  · exact hby _ h3
  · exact hby _ h4
  · exact hby _ h5
  · exact hby _ h6
  · simp at hfalse

/-- Soundness of the signature grammar: under the entry points (no leading
whitespace), every parsed signature is well-formed. -/
theorem parseSignatureF_sound {fuel : Nat} {kind : SignatureKind} {s : List Char}
    {sig : Signature} {r : List Char}
    (hws : ∀ c ∈ s.head?, isWhitespace c = false)
    (h : parseSignatureF fuel kind s = .ok (sig, r)) :
    wfSignature sig = true := by
  rcases hk : parseSignatureKind s with ⟨k0, s1⟩
  rcases hnm : parseName (parseWhitespace s1) with ⟨nm, s3⟩
  simp only [parseSignatureF, hk, hnm] at h
  generalize hgen : (if k0 = SignatureKind.unknown then kind else k0) = kindP at h
  split at h
  · exact absurd h (by simp)
  · next hkm =>
    split at h
    · exact absurd h (by simp)
    · next ins s5 hins =>
      rcases hmods : parseModifiersF fuel (parseWhitespace s5) with ⟨mods, s7⟩
      rw [hmods] at h
      simp only at h
      split at h
      · exact absurd h (by simp)
      · next outs s9 houts =>
        split at h
        · exact absurd h (by simp)
        · next hval =>
          simp only [Except.ok.injEq, Prod.mk.injEq] at h
          obtain ⟨rfl, rfl⟩ := h
          simp only [wfSignature, Bool.and_eq_true]
          refine ⟨⟨⟨⟨⟨?_, ?_⟩, parseInputsF_sound hins⟩, parseOutputsF_sound houts⟩,
            ?_⟩, ?_⟩
          · rcases (parseName_sound hnm).2 with rfl | hv
            · simp
            · simp [hv]
          · -- kind-keyword prefixes when the kind is unknown
            cases hku : kindP with
            | unknown =>
              simp only [Bool.or_eq_true]
              right
              have hk0 : k0 = .unknown := by
                by_cases h0 : k0 = .unknown
                · exact h0
                · rw [if_neg h0] at hgen
                  rw [hgen] at h0
                  exact absurd hku h0
              have hkeep : parseSignatureKind s = (.unknown, s) :=
                parseSignatureKind_unknown (by rw [hk, hk0])
              have hs1 : s1 = s := by
                rw [hk] at hkeep
                exact (Prod.mk.injEq _ _ _ _ ▸ hkeep).2
              subst hs1
              have hsws : parseWhitespace s1 = s1 := parseWhitespace_eq_self hws
              rw [hsws] at hnm
              have hsplit := (parseName_sound hnm).1
              simp only [noKeywordPrefix, List.all_eq_true]
              intro kw hkw
              have hnp := parseSignatureKind_unknown_no_prefix
                (by rw [hk, hk0]) kw hkw
              simp only [Bool.not_eq_true', Bool.not_eq_eq_eq_not, Bool.not_true]
              by_contra hp
              have hp' : kw.isPrefixOf nm = true := by
                cases hb : kw.isPrefixOf nm
                · exact absurd hb (by simpa using hp)
                · rfl
              rw [List.isPrefixOf_iff_prefix] at hp'
              have : kw.isPrefixOf s1 = true := by
                rw [List.isPrefixOf_iff_prefix, hsplit]
                exact hp'.trans (List.prefix_append nm s3)
              rw [this] at hnp
              exact absurd hnp (by simp)
            | function => simp [hku]
            | constructor => simp [hku]
            | fallback => simp [hku]
            | receive => simp [hku]
            | event => simp [hku]
            | error => simp [hku]
          · simp only [List.all_eq_true, Bool.and_eq_true]
            intro m hm
            obtain ⟨h1, h2⟩ := parseModifiersF_sound _ _ _ _ hmods m hm
            exact ⟨h1, by simp [h2]⟩
          · simp [hval, Except.isOk, Except.toBool]

theorem parseStructFieldsF_sound : ∀ (fuel : Nat) (s : List Char)
    (fields : List Parameter) (r : List Char),
    parseStructFieldsF fuel s = .ok (fields, r) →
    ∀ f ∈ fields, structFieldSound f := by
  intro fuel
  induction fuel with
  | zero => intro s fields r h; simp [parseStructFieldsF] at h
  | succ fuel ih =>
    intro s fields r h
    simp only [parseStructFieldsF] at h
    split at h
    · simp only [Except.ok.injEq, Prod.mk.injEq] at h
      obtain ⟨rfl, rfl⟩ := h
      simp
    · split at h
      · exact absurd h (by simp)
      · next field r0 hel =>
        rcases hfn : parseName (parseWhitespace r0) with ⟨fname, r2⟩
        rw [hfn] at h
        simp only at h
        split at h
        · exact absurd h (by simp)
        · next hfne =>
          split at h
          · split at h
            · exact absurd h (by simp)
            · next fields' r5 hrec =>
              simp only [Except.ok.injEq, Prod.mk.injEq] at h
              obtain ⟨rfl, rfl⟩ := h
              intro f hf
              rcases List.mem_cons.mp hf with rfl | hf'
              · obtain ⟨hwf0, hbare0, htup0⟩ := parseElementaryType_sound hel
                obtain ⟨hn0, hi0, hd0⟩ := hbare0
                have hfv : validIdent fname = true := by
                  rcases (parseName_sound hfn).2 with rfl | hv
                  · simp at hfne
                  · exact hv
                obtain ⟨n0, t0, tu0, a0, i0, d0⟩ := field
                simp only [Parameter.name, Parameter.indexed, Parameter.dataLocation,
                  Parameter.tuple] at hn0 hi0 hd0 htup0
                subst hn0 hi0 hd0 htup0
                rw [wfParameter_mk] at hwf0
                simp only [Bool.and_eq_true] at hwf0
                refine ⟨rfl, rfl, rfl, hfv, ?_, ?_⟩
                · rcases Bool.or_eq_true_iff.mp hwf0.1.1.1.1.1 with h' | h'
                  · exact Or.inl (by simpa [List.isEmpty_iff] using h')
                  · exact Or.inr (Bool.and_eq_true_iff.mp h').1
                · intro d hd
                  have := hwf0.1.1.1.2
                  simp only [List.all_eq_true, Bool.or_eq_true, Bool.and_eq_true,
                    decide_eq_true_eq] at this
                  rcases this d hd with h' | ⟨h1, h2⟩
                  · exact Or.inl h'
                  · exact Or.inr ⟨h1, h2⟩
              · exact ih _ _ _ hrec f hf'
          · exact absurd h (by simp)
          · exact absurd h (by simp)

theorem parseStructF_sound {fuel : Nat} {s : List Char} {v : Parameter}
    {r : List Char} (h : parseStructF fuel s = .ok (v, r)) :
    v.type = [] ∧ v.arrays = [] ∧ v.indexed = false ∧
      v.dataLocation = .unspecified ∧ (v.name = [] ∨ validIdent v.name = true) ∧
      ∀ f ∈ v.tuple, structFieldSound f := by
  simp only [parseStructF] at h
  split at h
  · split at h
    · exact absurd h (by simp)
    · exact absurd h (by simp)
  · next s1 hrb =>
    rcases hnm : parseName (parseWhitespace s1) with ⟨nm, s3⟩
    rw [hnm] at h
    simp only at h
    split at h
    · split at h
      · exact absurd h (by simp)
      · next fields r0 hfs =>
        simp only [Except.ok.injEq, Prod.mk.injEq] at h
        obtain ⟨rfl, rfl⟩ := h
        exact ⟨rfl, rfl, rfl, rfl, (parseName_sound hnm).2,
          fun f hf => parseStructFieldsF_sound _ _ _ _ hfs f hf⟩
    · exact absurd h (by simp)
    · exact absurd h (by simp)

/-! ## Entry-point soundness and the type/tuple exclusivity invariant -/

theorem head_dropWhile_not {p : Char → Bool} :
    ∀ (l : List Char), ∀ c ∈ (l.dropWhile p).head?, p c = false := by
  intro l
  induction l with
  | nil => intro c hc; simp at hc
  | cons d rest ih =>
    intro c hc
    by_cases hd : p d = true
    · rw [List.dropWhile_cons, if_pos hd] at hc
      exact ih c hc
    · rw [List.dropWhile_cons, if_neg hd] at hc
      simp only [List.head?_cons, Option.mem_def, Option.some.injEq] at hc
      subst hc
      simp only [Bool.not_eq_true] at hd
      exact hd

theorem ParseParameter_wf {s : String} {v : Parameter}
    (h : ParseParameter s = .ok v) : wfParameter v = true := by
  simp only [ParseParameter] at h
  split at h
  · exact absurd h (by simp)
  · next v' r hp =>
    split at h
    · simp only [Except.ok.injEq] at h
      subst h
      exact (parseGrammar_sound _).1 _ _ _ hp
    · exact absurd h (by simp)

theorem ParseSignatureAs_wf {kind : SignatureKind} {s : String} {sig : Signature}
    (h : ParseSignatureAs kind s = .ok sig) : wfSignature sig = true := by
  simp only [ParseSignatureAs] at h
  split at h
  · exact absurd h (by simp)
  · next sig' r hp =>
    split at h
    · simp only [Except.ok.injEq] at h
      subst h
      exact parseSignatureF_sound (head_dropWhile_not s.data) hp
    · exact absurd h (by simp)

theorem ParseSignature_wf {s : String} {sig : Signature}
    (h : ParseSignature s = .ok sig) : wfSignature sig = true :=
  ParseSignatureAs_wf h

theorem ParseStruct_shape {s : String} {v : Parameter}
    (h : ParseStruct s = .ok v) :
    v.type = [] ∧ v.arrays = [] ∧ v.indexed = false ∧
      v.dataLocation = .unspecified ∧ (v.name = [] ∨ validIdent v.name = true) ∧
      ∀ f ∈ v.tuple, structFieldSound f := by
  simp only [ParseStruct] at h
  split at h
  · exact absurd h (by simp)
  · next v' r hp =>
    split at h
    · simp only [Except.ok.injEq] at h
      subst h
      exact parseStructF_sound hp
    · exact absurd h (by simp)

theorem exclusiveP_mk (n t : List Char) (tu : List Parameter) (a : List Int)
    (i : Bool) (d : DataLocation) :
    exclusiveP (.mk n t tu a i d) = ((t.isEmpty || tu.isEmpty) && exclusiveL tu) := by
  rw [exclusiveP]

theorem exclusiveL_iff_all (l : List Parameter) :
    exclusiveL l = true ↔ ∀ p ∈ l, exclusiveP p = true := by
  induction l with
  | nil => rw [exclusiveL]; simp
  | cons p ps ih => rw [exclusiveL]; simp [ih]

theorem wf_exclusive : ∀ n : Nat,
    (∀ v : Parameter, sizeOf v ≤ n → wfParameter v = true → exclusiveP v = true) ∧
    (∀ l : List Parameter, sizeOf l ≤ n → wfParams l = true → exclusiveL l = true) := by
  intro n
  induction n with
  | zero =>
    constructor
    · intro v hsz _
      obtain ⟨a, b, c, d, e, f⟩ := v
      simp only [Parameter.mk.sizeOf_spec] at hsz
      omega
    · intro l hsz _
      cases l with
      | nil => rw [exclusiveL]
      | cons p ps =>
        simp only [List.cons.sizeOf_spec] at hsz
        omega
  | succ n ih =>
    constructor
    · intro v hsz hwf
      obtain ⟨nm, t, tu, a, i, d⟩ := v
      rw [wfParameter_mk] at hwf
      simp only [Bool.and_eq_true] at hwf
      rw [exclusiveP_mk]
      simp only [Bool.and_eq_true]
      constructor
      · rcases Bool.or_eq_true_iff.mp hwf.1.1.1.1.1 with h' | h'
        · simp [h']
        · simp [(Bool.and_eq_true_iff.mp h').2]
      · refine ih.2 tu ?_ hwf.1.1.1.1.2
        simp only [Parameter.mk.sizeOf_spec] at hsz
        omega
    · intro l hsz hl
      cases l with
      | nil => rw [exclusiveL]
      | cons p ps =>
        rw [wfParams_cons] at hl
        simp only [Bool.and_eq_true] at hl
        rw [exclusiveL]
        simp only [Bool.and_eq_true]
        simp only [List.cons.sizeOf_spec] at hsz
        exact ⟨ih.1 p (by omega) hl.1, ih.2 ps (by omega) hl.2⟩

theorem exclusiveP_of_wf {v : Parameter} (h : wfParameter v = true) :
    exclusiveP v = true :=
  (wf_exclusive (sizeOf v)).1 v le_rfl h

theorem exclusiveP_of_structField {f : Parameter} (h : structFieldSound f) :
    exclusiveP f = true := by
  obtain ⟨nm, t, tu, a, i, d⟩ := f
  obtain ⟨htu, -, -, -, -, -⟩ := h
  simp only [Parameter.tuple] at htu
  subst htu
  rw [exclusiveP_mk, exclusiveL]
  simp

theorem wfSignature_parts {sig : Signature} (h : wfSignature sig = true) :
    wfParams sig.inputs = true ∧ wfParams sig.outputs = true ∧
      (validateSignature sig).isOk = true := by
  simp only [wfSignature, Bool.and_eq_true] at h
  exact ⟨h.1.1.1.2, h.1.1.2, h.2⟩

/-! ## Claim C2: type/tuple mutual exclusivity of parsed parameters -/

/-- **C2.** For every `Parameter` anywhere in a value produced by a
successful `ParseSignature`, `ParseParameter` or `ParseStruct` (including
nested tuple fields and every element of `Inputs` and `Outputs`), the
`type` and `tuple` fields are never both non-empty: no parser-produced
parameter is simultaneously elementary and a tuple.  (`exclusiveP` states
this recursively for a parameter and all its descendants.) -/
theorem C2_type_tuple_exclusive :
    (∀ (s : String) (sig : Signature), ParseSignature s = .ok sig →
      ∀ p ∈ sig.inputs ++ sig.outputs, exclusiveP p = true) ∧
    (∀ (s : String) (v : Parameter), ParseParameter s = .ok v →
      exclusiveP v = true) ∧
    (∀ (s : String) (v : Parameter), ParseStruct s = .ok v →
      exclusiveP v = true) := by
  refine ⟨?_, ?_, ?_⟩
  · intro s sig h p hp
    obtain ⟨hin, hout, -⟩ := wfSignature_parts (ParseSignature_wf h)
    rcases List.mem_append.mp hp with hp' | hp'
    · exact exclusiveP_of_wf ((wfParams_iff_all _).mp hin p hp')
    · exact exclusiveP_of_wf ((wfParams_iff_all _).mp hout p hp')
  · intro s v h
    exact exclusiveP_of_wf (ParseParameter_wf h)
  · intro s v h
    obtain ⟨hty, -, -, -, -, hfields⟩ := ParseStruct_shape h
    obtain ⟨nm, t, tu, a, i, d⟩ := v
    simp only [Parameter.type] at hty
    subst hty
    rw [exclusiveP_mk]
    simp only [Bool.and_eq_true]
    refine ⟨by simp, ?_⟩
    rw [exclusiveL_iff_all]
    intro p hp
    exact exclusiveP_of_structField (hfields p hp)

/-- Witness for C2: the exclusivity invariant, instantiated at the value
parsed from `"(uint256 a)"` and at the value parsed from a struct
definition. -/
theorem C2_type_tuple_exclusive_witness :
    exclusiveP (.mk [] []
      [.mk "a".data "uint256".data [] [] false .unspecified] [] false .unspecified) = true ∧
    exclusiveP (.mk "F".data []
      [.mk "x".data "int".data [] [] false .unspecified] [] false .unspecified) = true :=
  ⟨C2_type_tuple_exclusive.2.1 "(uint256 a)" _ (by rfl),
   C2_type_tuple_exclusive.2.2 "struct F \x7b int x; \x7d" _ (by rfl)⟩

/-! ## Claims C3-C5: kind-specific validation -/

theorem anonymous_mods_iff (mods : List (List Char)) :
    (mods.isEmpty ||
      (decide (mods.length = 1) && decide (mods.headD [] = "anonymous".data))) = true ↔
      (mods = [] ∨ mods = ["anonymous".data]) := by
  cases mods with
  | nil => simp
  | cons m ms =>
    cases ms with
    | nil => simp [List.headD]
    | cons m2 ms2 => simp

theorem validateSignature_event_iff (sig : Signature) (hk : sig.kind = .event) :
    validateSignature sig = .ok () ↔
      (sig.inputs ≠ [] ∧ sig.outputs = [] ∧
       (sig.modifiers = [] ∨ sig.modifiers = ["anonymous".data]) ∧
       ∀ p ∈ sig.inputs, p.dataLocation = .unspecified) := by
  obtain ⟨k, nm, ins, outs, mods⟩ := sig
  simp only at hk
  subst hk
  constructor
  · intro h
    simp only [validateSignature] at h
    split at h
    · exact absurd h (by simp)
    · next hkc =>
      split at hkc
      · exact absurd hkc (by simp)
      · next c1 =>
        split at hkc
        · exact absurd hkc (by simp)
        · next c2 =>
          split at hkc
          · exact absurd hkc (by simp)
          · next c3 =>
            split at hkc
            · exact absurd hkc (by simp)
            · next c4 =>
              refine ⟨?_, ?_, ?_, ?_⟩
              · intro hnil
                subst hnil
                exact c1 rfl
              · have houts : outs.isEmpty = true := by
                  cases hb : outs.isEmpty
                  · exact absurd (by rw [hb]; rfl) c2
                  · rfl
                exact List.isEmpty_iff.mp houts
              · apply (anonymous_mods_iff mods).mp
                cases hb : (mods.isEmpty ||
                    (decide (mods.length = 1) && decide (mods.headD [] = "anonymous".data)))
                · exact absurd (by rw [hb]; rfl) c3
                · rfl
              · intro p hp
                have hany : (ins.any fun i =>
                    decide (i.dataLocation ≠ DataLocation.unspecified)) = false := by
                  cases hb : (ins.any fun i => decide (i.dataLocation ≠ DataLocation.unspecified))
                  · rfl
                  · exact absurd hb c4
                have := List.any_eq_false.mp hany p hp
                simpa using this
  · rintro ⟨hne, rfl, hmods, hloc⟩
    simp only at hne hloc
    rcases hmods with hm | hm <;> simp only at hm <;> subst hm <;>
      simp [validateSignature, hne, hloc] <;>
      rw [if_neg (by push_neg; exact hloc)]

theorem ParseSignature_validate {s : String} {sig : Signature}
    (h : ParseSignature s = .ok sig) : validateSignature sig = .ok () := by
  have hOk := (wfSignature_parts (ParseSignature_wf h)).2.2
  cases hv : validateSignature sig with
  | error e => rw [hv] at hOk; simp [Except.isOk, Except.toBool] at hOk
  | ok u => cases u; rfl

/-- **C5.** A parsed signature of kind event is accepted if and only if its
inputs are non-empty, its outputs empty, its modifiers empty or exactly
`["anonymous"]`, and no input carries a data location; in particular
`event foo()` fails with a semantic error. -/
theorem C5_event_validation :
    (∀ sig : Signature, sig.kind = .event →
      (validateSignature sig = .ok () ↔
        (sig.inputs ≠ [] ∧ sig.outputs = [] ∧
         (sig.modifiers = [] ∨ sig.modifiers = ["anonymous".data]) ∧
         ∀ p ∈ sig.inputs, p.dataLocation = .unspecified))) ∧
    (∀ (s : String) (sig : Signature), ParseSignature s = .ok sig →
      sig.kind = .event →
      sig.inputs ≠ [] ∧ sig.outputs = [] ∧
        (sig.modifiers = [] ∨ sig.modifiers = ["anonymous".data]) ∧
        ∀ p ∈ sig.inputs, p.dataLocation = .unspecified) ∧
    ParseSignature "event foo()" = .error (.semantic "event must have inputs") ∧
    ParseSignature "event foo(uint256) anonymous" =
      .ok ⟨.event, "foo".data, [.mk [] "uint256".data [] [] false .unspecified], [],
        ["anonymous".data]⟩ ∧
    ParseSignature "event foo(int memory a)" =
      .error (.semantic "unexpected event input data location") := by
  refine ⟨validateSignature_event_iff, ?_, by rfl, by rfl, by rfl⟩
  intro s sig h hk
  exact (validateSignature_event_iff sig hk).mp (ParseSignature_validate h)

/-- Witness for C5: the acceptance conditions, instantiated at the
signature parsed from `"event foo(uint256) anonymous"`. -/
theorem C5_event_validation_witness :
    (([.mk [] "uint256".data [] [] false .unspecified] : List Parameter) ≠ [] ∧
     ([] : List Parameter) = [] ∧
     ((["anonymous".data] : List (List Char)) = [] ∨
       (["anonymous".data] : List (List Char)) = ["anonymous".data]) ∧
     ∀ p ∈ [Parameter.mk [] "uint256".data [] [] false .unspecified],
       p.dataLocation = .unspecified) :=
  C5_event_validation.2.1 "event foo(uint256) anonymous"
    ⟨.event, "foo".data, [.mk [] "uint256".data [] [] false .unspecified], [],
      ["anonymous".data]⟩ (by rfl) rfl

/-- Accepted signatures have no indexed outputs; and no indexed inputs when
the kind is neither unknown nor event. -/
theorem validate_ok_no_indexed {sig : Signature}
    (h : validateSignature sig = .ok ()) :
    (∀ p ∈ sig.outputs, p.indexed = false) ∧
    (sig.kind ≠ .unknown → sig.kind ≠ .event → ∀ p ∈ sig.inputs, p.indexed = false) := by
  simp only [validateSignature] at h
  split at h
  · simp at h
  · split at h
    · simp at h
    · next cA =>
      split at h
      · simp at h
      · next cB =>
        constructor
        · intro p hp
          have hout : (sig.outputs.any fun x => x.indexed) = false := by
            cases hb : (sig.outputs.any fun x => x.indexed)
            · rfl
            · exact absurd hb cB
          exact List.any_eq_false.mp hout p hp |> fun hx => by
            simpa using hx
        · intro hk1 hk2 p hp
          have hin : (sig.inputs.any fun x => x.indexed) = false := by
            cases hb : (sig.inputs.any fun x => x.indexed)
            · rfl
            · exfalso
              apply cA
              simp [hk1, hk2, hb]
          exact List.any_eq_false.mp hin p hp |> fun hx => by
            simpa using hx

/-- Validation always rejects a signature with an indexed output. -/
theorem validate_error_of_output_indexed {sig : Signature}
    (h : ∃ p ∈ sig.outputs, p.indexed = true) :
    ∃ e, validateSignature sig = .error e := by
  simp only [validateSignature]
  split
  · exact ⟨_, rfl⟩
  · split
    · exact ⟨_, rfl⟩
    · split
      · exact ⟨_, rfl⟩
      · next cB =>
        exfalso
        apply cB
        obtain ⟨p, hp, hpi⟩ := h
        simp only [List.any_eq_true]
        exact ⟨p, hp, hpi⟩

/-- Validation always rejects an indexed input when the kind is neither
unknown nor event. -/
theorem validate_error_of_input_indexed {sig : Signature}
    (hk1 : sig.kind ≠ .unknown) (hk2 : sig.kind ≠ .event)
    (h : ∃ p ∈ sig.inputs, p.indexed = true) :
    ∃ e, validateSignature sig = .error e := by
  simp only [validateSignature]
  split
  · exact ⟨_, rfl⟩
  · split
    · exact ⟨_, rfl⟩
    · next cA =>
      exfalso
      apply cA
      obtain ⟨p, hp, hpi⟩ := h
      simp only [List.any_eq_true, Bool.and_eq_true, decide_eq_true_eq]
      exact ⟨⟨hk1, hk2⟩, p, hp, hpi⟩

theorem ParseSignatureAs_validate {kind : SignatureKind} {s : String}
    {sig : Signature} (h : ParseSignatureAs kind s = .ok sig) :
    validateSignature sig = .ok () := by
  have hOk := (wfSignature_parts (ParseSignatureAs_wf h)).2.2
  cases hv : validateSignature sig with
  | error e => rw [hv] at hOk; simp [Except.isOk, Except.toBool] at hOk
  | ok u => cases u; rfl

/-- **C3 (corrected).** Counterexample to the claim as stated: the code
exempts `UnknownKind` as well as `EventKind` from the indexed-input check,
so `foo(uint256 indexed a)` parses successfully although its kind
(unknown) is not event and its input is indexed. -/
theorem C3_counterexample :
    ParseSignature "foo(uint256 indexed a)" =
      .ok ⟨.unknown, "foo".data,
        [.mk "a".data "uint256".data [] [] true .unspecified], [], []⟩ ∧
    SignatureKind.unknown ≠ SignatureKind.event := ⟨by rfl, by decide⟩

/-- **C3 (amended).** Every accepted signature has `indexed = false` on all
outputs regardless of kind, and on all inputs whenever the kind is neither
event nor unknown; conversely validation fails whenever an output is
indexed, or an input is indexed under a kind other than event and unknown. -/
theorem C3_indexed_validation :
    (∀ (kind : SignatureKind) (s : String) (sig : Signature),
      ParseSignatureAs kind s = .ok sig →
      ∀ p ∈ sig.outputs, p.indexed = false) ∧
    (∀ (kind : SignatureKind) (s : String) (sig : Signature),
      ParseSignatureAs kind s = .ok sig →
      sig.kind ≠ .unknown → sig.kind ≠ .event →
      ∀ p ∈ sig.inputs, p.indexed = false) ∧
    (∀ sig : Signature, (∃ p ∈ sig.outputs, p.indexed = true) →
      ∃ e, validateSignature sig = .error e) ∧
    (∀ sig : Signature, sig.kind ≠ .unknown → sig.kind ≠ .event →
      (∃ p ∈ sig.inputs, p.indexed = true) →
      ∃ e, validateSignature sig = .error e) ∧
    ParseSignature "foo()(int indexed a)" = .error (.semantic "unexpected indexed flag") ∧
    ParseSignature "function foo(int indexed a)" =
      .error (.semantic "unexpected indexed flag") := by
  refine ⟨?_, ?_, fun sig h => validate_error_of_output_indexed h,
    fun sig h1 h2 h => validate_error_of_input_indexed h1 h2 h, by rfl, by rfl⟩
  · intro kind s sig h p hp
    exact (validate_ok_no_indexed (ParseSignatureAs_validate h)).1 p hp
  · intro kind s sig h hk1 hk2 p hp
    exact (validate_ok_no_indexed (ParseSignatureAs_validate h)).2 hk1 hk2 p hp

/-- Witness for C3: instantiated at `"error foo(uint256)"`, whose kind is
neither unknown nor event. -/
theorem C3_indexed_validation_witness :
    ∀ p ∈ [Parameter.mk [] "uint256".data [] [] false .unspecified],
      p.indexed = false :=
  C3_indexed_validation.2.1 .unknown "error foo(uint256)"
    ⟨.error, "foo".data, [.mk [] "uint256".data [] [] false .unspecified], [], []⟩
    (by rfl) (by decide) (by decide)

theorem validateSignature_fallback_iff (sig : Signature) (hk : sig.kind = .fallback) :
    validateSignature sig = .ok () ↔
      (sig.name = [] ∧
       ((sig.inputs = [] ∧ sig.outputs = []) ∨
        (∃ pin pout, sig.inputs = [pin] ∧ sig.outputs = [pout] ∧
          pin.type = "bytes".data ∧ pout.type = "bytes".data ∧
          pin.indexed = false ∧ pout.indexed = false))) := by
  obtain ⟨k, nm, ins, outs, mods⟩ := sig
  simp only at hk
  subst hk
  constructor
  · intro h
    simp only [validateSignature] at h
    split at h
    · exact absurd h (by simp)
    · next hkc =>
      split at h
      · exact absurd h (by simp)
      · next cA =>
        split at h
        · exact absurd h (by simp)
        · next cB =>
          split at hkc
          · exact absurd hkc (by simp)
          · next c1 =>
            split at hkc
            · exact absurd hkc (by simp)
            · next c2 =>
              split at hkc
              · exact absurd hkc (by simp)
              · next c3 =>
                have hnm : nm = [] := by
                  have : nm.isEmpty = true := by
                    cases hb : nm.isEmpty
                    · exact absurd (by rw [hb]; rfl) c1
                    · rfl
                  exact List.isEmpty_iff.mp this
                refine ⟨hnm, ?_⟩
                have hinid : (ins.any fun x => x.indexed) = false := by
                  cases hb : (ins.any fun x => x.indexed)
                  · rfl
                  · exact absurd (by simp [hb]) cA
                have houtid : (outs.any fun x => x.indexed) = false := by
                  cases hb : (outs.any fun x => x.indexed)
                  · rfl
                  · exact absurd hb cB
                by_cases hvio : (decide (ins.length = 1) &&
                    decide ((ins.headD (.mk [] [] [] [] false .unspecified)).type =
                      "bytes".data) &&
                    decide (outs.length = 1) &&
                    decide ((outs.headD (.mk [] [] [] [] false .unspecified)).type =
                      "bytes".data)) = true
                · right
                  simp only [Bool.and_eq_true, decide_eq_true_eq] at hvio
                  obtain ⟨⟨⟨hl1, ht1⟩, hl2⟩, ht2⟩ := hvio
                  obtain ⟨pin, hin⟩ : ∃ pin, ins = [pin] := by
                    cases ins with
                    | nil => simp at hl1
                    | cons p ps =>
                      cases ps with
                      | nil => exact ⟨p, rfl⟩
                      | cons q qs => simp at hl1
                  obtain ⟨pout, hout⟩ : ∃ pout, outs = [pout] := by
                    cases outs with
                    | nil => simp at hl2
                    | cons p ps =>
                      cases ps with
                      | nil => exact ⟨p, rfl⟩
                      | cons q qs => simp at hl2
                  subst hin hout
                  refine ⟨pin, pout, rfl, rfl, by simpa [List.headD] using ht1,
                    by simpa [List.headD] using ht2, ?_, ?_⟩
                  · simpa using List.any_eq_false.mp hinid pin (by simp)
                  · simpa using List.any_eq_false.mp houtid pout (by simp)
                · left
                  rw [Bool.not_eq_true] at hvio
                  constructor
                  · have : ins.isEmpty = true := by
                      cases hb : ins.isEmpty
                      · exact absurd (by rw [hvio, hb]; rfl) c2
                      · rfl
                    exact List.isEmpty_iff.mp this
                  · have : outs.isEmpty = true := by
                      cases hb : outs.isEmpty
                      · exact absurd (by rw [hvio, hb]; rfl) c3
                      · rfl
                    exact List.isEmpty_iff.mp this
  · rintro ⟨rfl, hshape⟩
    rcases hshape with ⟨rfl, rfl⟩ | ⟨pin, pout, rfl, rfl, ht1, ht2, hi1, hi2⟩
    · simp [validateSignature]
    · simp [validateSignature, List.headD, ht1, ht2, hi1, hi2]

/-- **C4 (corrected).** Counterexample to the claim as stated: the
grammar-level value for `fallback(bytes indexed) returns (bytes)` has an
empty name and exactly the one-`bytes`-input / one-`bytes`-output shape the
claim declares sufficient, yet the parse is rejected (by the cross-cutting
indexed check). -/
theorem C4_counterexample :
    (let sig : Signature :=
      ⟨.fallback, [], [.mk [] "bytes".data [] [] true .unspecified],
        [.mk [] "bytes".data [] [] false .unspecified], []⟩
     sig.name = [] ∧ sig.inputs.length = 1 ∧ sig.outputs.length = 1 ∧
       (sig.inputs.headD (.mk [] [] [] [] false .unspecified)).type = "bytes".data ∧
       (sig.outputs.headD (.mk [] [] [] [] false .unspecified)).type = "bytes".data ∧
       validateSignature sig = .error (.semantic "unexpected indexed flag")) ∧
    ParseSignature "fallback(bytes indexed) returns (bytes)" =
      .error (.semantic "unexpected indexed flag") :=
  ⟨⟨rfl, rfl, rfl, rfl, rfl, by rfl⟩, by rfl⟩

/-- **C4 (amended).** A parsed signature of kind fallback is accepted if
and only if its name is empty and either both parameter lists are empty, or
the inputs are exactly one `bytes`-typed parameter and the outputs exactly
one `bytes`-typed parameter with neither marked indexed; `fallback(uint256)`
and a lone `fallback(bytes)` fail, `fallback(bytes) returns (bytes)`
succeeds, and modifiers are unrestricted. -/
theorem C4_fallback_validation :
    (∀ sig : Signature, sig.kind = .fallback →
      (validateSignature sig = .ok () ↔
        (sig.name = [] ∧
         ((sig.inputs = [] ∧ sig.outputs = []) ∨
          (∃ pin pout, sig.inputs = [pin] ∧ sig.outputs = [pout] ∧
            pin.type = "bytes".data ∧ pout.type = "bytes".data ∧
            pin.indexed = false ∧ pout.indexed = false))))) ∧
    ParseSignature "fallback(uint256)" = .error (.semantic "unexpected fallback inputs") ∧
    ParseSignature "fallback(bytes)" = .error (.semantic "unexpected fallback inputs") ∧
    ParseSignature "fallback(bytes) returns (bytes)" =
      .ok ⟨.fallback, [], [.mk [] "bytes".data [] [] false .unspecified],
        [.mk [] "bytes".data [] [] false .unspecified], []⟩ ∧
    ParseSignature "fallback() external payable whatever" =
      .ok ⟨.fallback, [], [], [], ["external".data, "payable".data, "whatever".data]⟩ :=
  ⟨validateSignature_fallback_iff, by rfl, by rfl, by rfl, by rfl⟩

/-- Witness for C4: the acceptance equivalence, instantiated at the
signature parsed from `"fallback(bytes) returns (bytes)"`. -/
theorem C4_fallback_validation_witness :
    validateSignature
      ⟨.fallback, [], [.mk [] "bytes".data [] [] false .unspecified],
        [.mk [] "bytes".data [] [] false .unspecified], []⟩ = .ok () :=
  (C4_fallback_validation.1
      ⟨.fallback, [], [.mk [] "bytes".data [] [] false .unspecified],
        [.mk [] "bytes".data [] [] false .unspecified], []⟩ rfl).mpr
    ⟨rfl, Or.inr ⟨_, _, rfl, rfl, rfl, rfl, rfl, rfl⟩⟩

/-! ## Claim C7: array-dimension parsing -/

/-- **C7.** In array-suffix parsing: a bracketed decimal whose value is `0`
fails with the array-size semantic error; digits overflowing `int64` fail
with the number-format error; a `[` followed by a character that is neither
a digit nor `]` fails with a syntax error (before any range check); a
dimension with no digits yields the `-1` sentinel; and `ParseSignature`
rejects `foo(int[0])`, `foo(int[-1])` and
`foo(int[18446744073709551616])`. -/
theorem C7_array_dimensions :
    (∀ (fuel : Nat) (ds rest : List Char), 0 < fuel → ds ≠ [] →
      (∀ c ∈ ds, isDigit c = true) → (∀ c ∈ rest.head?, isDigit c = false) →
      digitsToNat ds = 0 →
      parseArrayF fuel ('[' :: (ds ++ rest)) = .error (.invalidArraySize 0)) ∧
    (∀ (fuel : Nat) (ds rest : List Char), 0 < fuel → ds ≠ [] →
      (∀ c ∈ ds, isDigit c = true) → (∀ c ∈ rest.head?, isDigit c = false) →
      digitsToNat ds > maxInt →
      parseArrayF fuel ('[' :: (ds ++ rest)) = .error .numberFormat) ∧
    (∀ (fuel : Nat) (c : Char) (rest : List Char), 0 < fuel →
      isDigit c = false → c ≠ ']' →
      parseArrayF fuel ('[' :: c :: rest) = .error (.unexpectedChar c "']'")) ∧
    ParseParameter "int[]" = .ok (.mk [] "int".data [] [-1] false .unspecified) ∧
    ParseSignature "foo(int[0])" = .error (.invalidArraySize 0) ∧
    ParseSignature "foo(int[-1])" = .error (.unexpectedChar '-' "']'") ∧
    ParseSignature "foo(int[18446744073709551616])" = .error .numberFormat := by
  have hnum : ∀ (ds rest : List Char), ds ≠ [] → (∀ c ∈ ds, isDigit c = true) →
      (∀ c ∈ rest.head?, isDigit c = false) →
      (ds ++ rest).takeWhile isDigit = ds ∧ (ds ++ rest).dropWhile isDigit = rest :=
    fun ds rest _ hds hrest => takeWhile_dropWhile_append hds hrest
  refine ⟨?_, ?_, ?_, by rfl, by rfl, by rfl, by rfl⟩
  · intro fuel ds rest hf hne hds hrest hval
    obtain ⟨htk, hdk⟩ := hnum ds rest hne hds hrest
    match fuel, hf with
    | fuel + 1, _ =>
      have hpn : parseNumber (ds ++ rest) = .ok (some 0, rest) := by
        simp only [parseNumber, htk, hdk, hval]
        simp [List.isEmpty_iff, hne, maxInt]
      simp [parseArrayF, hpn]
  · intro fuel ds rest hf hne hds hrest hval
    obtain ⟨htk, hdk⟩ := hnum ds rest hne hds hrest
    match fuel, hf with
    | fuel + 1, _ =>
      have hpn : parseNumber (ds ++ rest) = .error .numberFormat := by
        simp only [parseNumber, htk, hdk]
        simp [List.isEmpty_iff, hne, hval]
      simp [parseArrayF, hpn]
  · intro fuel c rest hf hdig hne
    match fuel, hf with
    | fuel + 1, _ =>
      have hpn : parseNumber (c :: rest) = .ok (none, c :: rest) :=
        parseNumber_none (by intro x hx; simp only [List.head?_cons,
          Option.mem_def, Option.some.injEq] at hx; subst hx; exact hdig)
      simp only [parseArrayF, hpn]

/-- Witness for C7: the three failure modes at concrete inputs. -/
theorem C7_array_dimensions_witness :
    parseArrayF 5 ('[' :: ("0".data ++ "]".data)) = .error (.invalidArraySize 0) ∧
    parseArrayF 5 ('[' :: ("18446744073709551616".data ++ "]".data)) =
      .error .numberFormat ∧
    parseArrayF 5 ('[' :: 'x' :: "]".data) = .error (.unexpectedChar 'x' "']'") :=
  ⟨C7_array_dimensions.1 5 "0".data "]".data (by decide) (by decide) (by decide)
      (by decide) (by decide),
   C7_array_dimensions.2.1 5 "18446744073709551616".data "]".data (by decide)
      (by decide) (by decide) (by decide) (by decide),
   C7_array_dimensions.2.2.1 5 'x' "]".data (by decide) (by decide) (by decide)⟩

/-! ## Claim C8: trailing-input handling of the entry points -/

/-- **C8.** Each entry point returns an error exactly when, after the inner
grammar parse succeeds, some unconsumed character other than space, tab,
newline or `;` remains; trailing runs of whitespace and semicolons are
accepted.  (`onlyWhitespaceOrDelimiterLeft` is the gate, characterised
below.) -/
theorem C8_trailing_input :
    (∀ l : List Char, onlyWhitespaceOrDelimiterLeft l = true ↔
      ∀ c ∈ l, c = ' ' ∨ c = '\t' ∨ c = '\n' ∨ c = ';') ∧
    (∀ (kind : SignatureKind) (s : String) (sig : Signature) (r : List Char),
      parseSignatureF (entryFuel s.data) kind (parseWhitespace s.data) = .ok (sig, r) →
      (onlyWhitespaceOrDelimiterLeft r = true → ParseSignatureAs kind s = .ok sig) ∧
      (onlyWhitespaceOrDelimiterLeft r = false →
        ParseSignatureAs kind s = .error (.trailing (r.headD ' ')))) ∧
    (∀ (s : String) (v : Parameter) (r : List Char),
      parseParameterF (entryFuel s.data) (parseWhitespace s.data) = .ok (v, r) →
      (onlyWhitespaceOrDelimiterLeft r = true → ParseParameter s = .ok v) ∧
      (onlyWhitespaceOrDelimiterLeft r = false →
        ParseParameter s = .error (.trailing (r.headD ' ')))) ∧
    (∀ (s : String) (v : Parameter) (r : List Char),
      parseStructF (entryFuel s.data) (parseWhitespace s.data) = .ok (v, r) →
      (onlyWhitespaceOrDelimiterLeft r = true → ParseStruct s = .ok v) ∧
      (onlyWhitespaceOrDelimiterLeft r = false →
        ParseStruct s = .error (.trailing (r.headD ' ')))) ∧
    ParseSignature "foo()()a" = .error (.trailing 'a') ∧
    ParseSignature "foo() ; \t\n ;;" = .ok ⟨.unknown, "foo".data, [], [], []⟩ := by
  refine ⟨?_, ?_, ?_, ?_, by rfl, by rfl⟩
  · intro l
    simp only [onlyWhitespaceOrDelimiterLeft, List.all_eq_true, Bool.or_eq_true,
      decide_eq_true_eq, isWhitespace]
    constructor <;> intro h c hc <;> have := h c hc <;> tauto
  · intro kind s sig r h
    constructor
    · intro hw
      simp only [ParseSignatureAs, h, hw, if_true]
    · intro hw
      simp only [ParseSignatureAs, h, hw, Bool.false_eq_true, if_false]
  · intro s v r h
    constructor
    · intro hw
      simp only [ParseParameter, h, hw, if_true]
    · intro hw
      simp only [ParseParameter, h, hw, Bool.false_eq_true, if_false]
  · intro s v r h
    constructor
    · intro hw
      simp only [ParseStruct, h, hw, if_true]
    · intro hw
      simp only [ParseStruct, h, hw, Bool.false_eq_true, if_false]

/-- Witness for C8: the two directions at concrete inputs. -/
theorem C8_trailing_input_witness :
    ParseSignature "foo ;" = .ok ⟨.unknown, "foo".data, [], [], []⟩ ∧
    ParseParameter "int[]x" = .error (.trailing 'x') :=
  ⟨(C8_trailing_input.2.1 .unknown "foo ;" ⟨.unknown, "foo".data, [], [], []⟩
      (';' :: []) (by rfl)).1 (by decide),
   (C8_trailing_input.2.2.1 "int[]x" (.mk [] "int".data [] [-1] false .unspecified)
      ('x' :: []) (by rfl)).2 (by decide)⟩

/-! ## Claim C9: kind keywords are raw byte prefixes -/

theorem cons_not_prefixOf {a b : Char} {l1 l2 : List Char} (h : (a == b) = false) :
    (a :: l1).isPrefixOf (b :: l2) = false := by
  simp only [List.isPrefixOf, h, Bool.false_and]

/-- **C9.** Kind keywords are matched as raw prefixes with no word-boundary
check: `error` followed by anything parses as the error kind (and likewise
`function`), so `ParseSignature "errors(uint256)"` yields kind `error` with
name `"s"`, and `ParseSignature "functions()"` yields kind `function` with
name `"s"`. -/
theorem C9_keyword_prefix_matching :
    (∀ rest : List Char, parseSignatureKind ("error".data ++ rest) = (.error, rest)) ∧
    (∀ rest : List Char, parseSignatureKind ("function".data ++ rest) = (.function, rest)) ∧
    ParseSignature "errors(uint256)" =
      .ok ⟨.error, "s".data, [.mk [] "uint256".data [] [] false .unspecified], [], []⟩ ∧
    ParseSignature "functions()" = .ok ⟨.function, "s".data, [], [], []⟩ := by
  refine ⟨?_, ?_, by rfl, by rfl⟩
  · intro rest
    have h1 : readBytes "function".data ("error".data ++ rest) = none :=
      readBytes_none (cons_not_prefixOf (by decide))
    have h2 : readBytes "constructor".data ("error".data ++ rest) = none :=
      readBytes_none (cons_not_prefixOf (by decide))
    have h3 : readBytes "fallback".data ("error".data ++ rest) = none :=
      readBytes_none (cons_not_prefixOf (by decide))
    have h4 : readBytes "receive".data ("error".data ++ rest) = none :=
      readBytes_none (cons_not_prefixOf (by decide))
    have h5 : readBytes "event".data ("error".data ++ rest) = none := by
      apply readBytes_none
      show (['e', 'v', 'e', 'n', 't'] : List Char).isPrefixOf
        ('e' :: 'r' :: ('r' :: 'o' :: 'r' :: rest)) = false
      simp only [List.isPrefixOf]
      rw [show (('v' == 'r') : Bool) = false from by decide]
      simp
    have h6 : readBytes "error".data ("error".data ++ rest) = some rest :=
      readBytes_append _ _
    simp only [parseSignatureKind, h1, h2, h3, h4, h5, h6]
  · intro rest
    have h1 : readBytes "function".data ("function".data ++ rest) = some rest :=
      readBytes_append _ _
    simp only [parseSignatureKind, h1]

/-- Witness for C9: the raw-prefix lemma applied at the remainder
`"s(uint256)"`. -/
theorem C9_keyword_prefix_matching_witness :
    parseSignatureKind ("error".data ++ "s(uint256)".data) =
      (.error, "s(uint256)".data) :=
  C9_keyword_prefix_matching.1 "s(uint256)".data

/-! ## Claim C10: whitespace/semicolon-only inputs parse to the empty
unknown-kind signature -/

/-- `parseSignatureF` on an empty or `;`-headed remainder returns the
all-empty unknown-kind signature without consuming anything. -/
theorem parseSignatureF_trivial (F : Nat) (s1 : List Char) (hF : 0 < F)
    (hs : s1 = [] ∨ ∃ t, s1 = ';' :: t) :
    parseSignatureF F .unknown s1 = .ok (⟨.unknown, [], [], [], []⟩, s1) := by
  have hkind : parseSignatureKind s1 = (.unknown, s1) := by
    rcases hs with rfl | ⟨t, rfl⟩
    · rfl
    · have h1 : readBytes "function".data (';' :: t) = none :=
        readBytes_none (cons_not_prefixOf (by decide))
      have h2 : readBytes "constructor".data (';' :: t) = none :=
        readBytes_none (cons_not_prefixOf (by decide))
      have h3 : readBytes "fallback".data (';' :: t) = none :=
        readBytes_none (cons_not_prefixOf (by decide))
      have h4 : readBytes "receive".data (';' :: t) = none :=
        readBytes_none (cons_not_prefixOf (by decide))
      have h5 : readBytes "event".data (';' :: t) = none :=
        readBytes_none (cons_not_prefixOf (by decide))
      have h6 : readBytes "error".data (';' :: t) = none :=
        readBytes_none (cons_not_prefixOf (by decide))
      simp only [parseSignatureKind, h1, h2, h3, h4, h5, h6]
  have hws : parseWhitespace s1 = s1 := by
    apply parseWhitespace_eq_self
    rcases hs with rfl | ⟨t, rfl⟩
    · intro c hc; simp at hc
    · intro c hc
      simp only [List.head?_cons, Option.mem_def, Option.some.injEq] at hc
      subst hc; rfl
  have hnm : parseName s1 = ([], s1) := by
    apply parseName_of_not_start
    rcases hs with rfl | ⟨t, rfl⟩
    · intro c hc; simp at hc
    · intro c hc
      simp only [List.head?_cons, Option.mem_def, Option.some.injEq] at hc
      subst hc; rfl
  have hins : parseInputsF F s1 = .ok ([], s1) := by
    rcases hs with rfl | ⟨t, rfl⟩ <;> rfl
  have hmods : parseModifiersF F s1 = ([], s1) := by
    match F, hF with
    | F + 1, _ =>
      rcases hs with rfl | ⟨t, rfl⟩
      · rfl
      · simp only [parseModifiersF]
        rw [if_neg]
        · rw [hnm]
        · simp only [Bool.or_eq_true, not_or]
          constructor
          · simp
          · rw [peekBytes, cons_not_prefixOf (by decide)]
            simp
  have houts : parseOutputsF F s1 = .ok ([], s1) := by
    simp only [parseOutputsF, hws]
    rcases hs with rfl | ⟨t, rfl⟩
    · rfl
    · have h1 : readBytes "returns".data (';' :: t) = none :=
        readBytes_none (cons_not_prefixOf (by decide))
      rw [h1]
      rfl
  simp only [parseSignatureF, hkind, hws, hnm, hins, hmods, houts]
  rfl

/-- **C10.** `ParseSignature` on the empty string, or on any input of only
whitespace and semicolons, succeeds with the all-empty unknown-kind
signature. -/
theorem C10_inert_input :
    (∀ s : String, (∀ c ∈ s.data, isWhitespace c = true ∨ c = ';') →
      ParseSignature s = .ok ⟨.unknown, [], [], [], []⟩) ∧
    ParseSignature "" = .ok ⟨.unknown, [], [], [], []⟩ ∧
    ParseSignature " ; \t\n;; " = .ok ⟨.unknown, [], [], [], []⟩ := by
  refine ⟨?_, by rfl, by rfl⟩
  intro s hall
  have hsub : ∀ c ∈ parseWhitespace s.data, c ∈ s.data :=
    fun c hc => (List.dropWhile_sublist _).subset hc
  have hs1 : parseWhitespace s.data = [] ∨ ∃ t, parseWhitespace s.data = ';' :: t := by
    cases hh : (parseWhitespace s.data).head? with
    | none => exact Or.inl (List.head?_eq_none_iff.mp hh)
    | some c =>
      right
      have hcne : isWhitespace c = false := head_dropWhile_not _ c hh
      have hcmem : c ∈ parseWhitespace s.data := by
        cases hpw : parseWhitespace s.data with
        | nil => rw [hpw] at hh; simp at hh
        | cons d t => rw [hpw] at hh; simp at hh; simp [hpw, hh]
      rcases hall c (hsub c hcmem) with h' | h'
      · rw [h'] at hcne; exact absurd hcne (by simp)
      · subst h'
        cases hpw : parseWhitespace s.data with
        | nil => rw [hpw] at hh; simp at hh
        | cons d t =>
          rw [hpw] at hh
          simp only [List.head?_cons, Option.some.injEq] at hh
          exact ⟨t, by rw [hh]⟩
  have htriv := parseSignatureF_trivial (entryFuel s.data) (parseWhitespace s.data)
    (by simp only [entryFuel]; omega) hs1
  have honly : onlyWhitespaceOrDelimiterLeft (parseWhitespace s.data) = true := by
    simp only [onlyWhitespaceOrDelimiterLeft, List.all_eq_true, Bool.or_eq_true,
      decide_eq_true_eq]
    intro c hc
    rcases hall c (hsub c hc) with h' | h'
    · exact Or.inl h'
    · exact Or.inr h'
  simp only [ParseSignature, ParseSignatureAs, htriv, honly, if_true]

/-- Witness for C10: the universal statement applied at `";; \t"`. -/
theorem C10_inert_input_witness :
    ParseSignature ";; \t" = .ok ⟨.unknown, [], [], [], []⟩ :=
  C10_inert_input.1 ";; \t" (by decide)

/-! ## Claim C6: `Kind` is total and tries the grammars in a fixed order -/

/-- **C6.** `Kind` never fails: it classifies the parameter grammar first
(arrays, then tuple, then plain type), falls through to the signature
grammar when the parameter attempt does not match up to trailing
whitespace/semicolons, then to the struct grammar, and returns
`invalidInput` when nothing matches; consequently a bare name such as
`"foo"`, which both the parameter and the signature grammar accept in
full, is classified as `typeInput`. -/
theorem C6_kind_total_order :
    (∀ (input : String) (param : Parameter) (r : List Char),
      parseParameterF (entryFuel input.data) (parseWhitespace input.data) = .ok (param, r) →
      onlyWhitespaceOrDelimiterLeft r = true →
      Kind input = if !param.arrays.isEmpty then .arrayInput
        else if !param.tuple.isEmpty then .tupleInput else .typeInput) ∧
    (∀ (input : String),
      (∀ (param : Parameter) (r : List Char),
        parseParameterF (entryFuel input.data) (parseWhitespace input.data) = .ok (param, r) →
        onlyWhitespaceOrDelimiterLeft r = false) →
      Kind input = Kind.trySignature input.data (parseWhitespace input.data)) ∧
    (∀ (s s1 : List Char) (sig : Signature) (r : List Char),
      parseSignatureF (entryFuel s) .unknown s1 = .ok (sig, r) →
      onlyWhitespaceOrDelimiterLeft r = true →
      Kind.trySignature s s1 = match sig.kind with
        | .function | .unknown => .functionSignatureInput
        | .constructor => .constructorSignatureInput
        | .fallback => .fallbackSignatureInput
        | .receive => .receiveSignatureInput
        | .event => .eventSignatureInput
        | .error => .errorSignatureInput) ∧
    (∀ (s s1 : List Char),
      (∀ (sig : Signature) (r : List Char),
        parseSignatureF (entryFuel s) .unknown s1 = .ok (sig, r) →
        onlyWhitespaceOrDelimiterLeft r = false) →
      Kind.trySignature s s1 = Kind.tryStruct s s1) ∧
    (∀ (s s1 : List Char) (v : Parameter) (r : List Char),
      parseStructF (entryFuel s) s1 = .ok (v, r) →
      onlyWhitespaceOrDelimiterLeft r = true →
      Kind.tryStruct s s1 = .structDefinitionInput) ∧
    (∀ (s s1 : List Char),
      (∀ (v : Parameter) (r : List Char),
        parseStructF (entryFuel s) s1 = .ok (v, r) →
        onlyWhitespaceOrDelimiterLeft r = false) →
      Kind.tryStruct s s1 = .invalidInput) ∧
    Kind "foo" = .typeInput ∧
    Kind.trySignature "foo".data "foo".data = .functionSignatureInput ∧
    Kind "function foo" = .typeInput ∧
    Kind "function foo()" = .functionSignatureInput ∧
    Kind "%" = .invalidInput := by
  refine ⟨?_, ?_, ?_, ?_, ?_, ?_, by rfl, by rfl, by rfl, by rfl, by rfl⟩
  · intro input param r h hw
    simp only [Kind, h, hw, if_true]
  · intro input hfail
    cases hp : parseParameterF (entryFuel input.data) (parseWhitespace input.data) with
    | error e => simp only [Kind, hp]
    | ok pr =>
      rcases pr with ⟨param, r⟩
      have hr := hfail param r hp
      simp only [Kind, hp, hr, Bool.false_eq_true, if_false]
  · intro s s1 sig r h hw
    simp only [Kind.trySignature, h, hw, if_true]
  · intro s s1 hfail
    cases hp : parseSignatureF (entryFuel s) .unknown s1 with
    | error e => simp only [Kind.trySignature, hp]
    | ok pr =>
      rcases pr with ⟨sig, r⟩
      have hr := hfail sig r hp
      simp only [Kind.trySignature, hp, hr, Bool.false_eq_true, if_false]
  · intro s s1 v r h hw
    simp only [Kind.tryStruct, h, hw, if_true]
  · intro s s1 hfail
    cases hp : parseStructF (entryFuel s) s1 with
    | error e => simp only [Kind.tryStruct, hp]
    | ok pr =>
      rcases pr with ⟨v, r⟩
      have hr := hfail v r hp
      simp only [Kind.tryStruct, hp, hr, Bool.false_eq_true, if_false]

/-- Witness for C6: the parameter, signature and struct branches applied at
concrete inputs. -/
theorem C6_kind_total_order_witness :
    Kind "int" = .typeInput ∧
    Kind.trySignature "foo()".data "foo()".data = .functionSignatureInput ∧
    Kind.tryStruct "struct A \x7b int x; \x7d".data "struct A \x7b int x; \x7d".data =
      .structDefinitionInput :=
  ⟨C6_kind_total_order.1 "int" (.mk [] "int".data [] [] false .unspecified) []
      (by rfl) (by rfl),
   C6_kind_total_order.2.2.1 "foo()".data "foo()".data
      ⟨.unknown, "foo".data, [], [], []⟩ [] (by rfl) (by rfl),
   C6_kind_total_order.2.2.2.2.1 "struct A \x7b int x; \x7d".data
      "struct A \x7b int x; \x7d".data
      (.mk "A".data [] [.mk "x".data "int".data [] [] false .unspecified] [] false .unspecified)
      [] (by rfl) (by rfl)⟩

/-! ## Claim C1: re-parsing a rendered value (round trip)

The development below proves that parsing the rendering of a well-formed
value reproduces the value, by induction on the fuel, and exhibits the
struct-field counterexample that limits the law for `ParseStruct`. -/

/-- An identifier word followed by `'('` is not a prefix of `ty ++ rest`
when `ty` is all identifier characters and `rest` starts with neither an
identifier character nor `'('`. -/
theorem identword_paren_not_prefix : ∀ (w ty rest : List Char),
    (∀ c ∈ w, isIdentChar c = true) →
    (∀ c ∈ ty, isIdentChar c = true) →
    (∀ c ∈ rest.head?, isIdentChar c = false ∧ c ≠ '(') →
    (w ++ ['(']).isPrefixOf (ty ++ rest) = false := by
  intro w
  induction w with
  | nil =>
    intro ty rest _ hty hrest
    cases ty with
    | nil =>
      cases rest with
      | nil => rfl
      | cons c r =>
        have hc := hrest c rfl
        have hne : ('(' == c) = false := by
          cases hb : ('(' == c)
          · rfl
          · exact absurd (beq_iff_eq.mp hb).symm hc.2
        simp [List.isPrefixOf, hne]
    | cons c0 ty1 =>
      have hc0 : isIdentChar c0 = true := hty c0 (by simp)
      have hne : ('(' == c0) = false := by
        cases hb : ('(' == c0)
        · rfl
        · rw [← beq_iff_eq.mp hb] at hc0
          exact absurd hc0 (by decide)
      simp [List.isPrefixOf, hne]
  | cons a w1 ih =>
    intro ty rest hw hty hrest
    have ha : isIdentChar a = true := hw a (by simp)
    cases ty with
    | nil =>
      cases rest with
      | nil => rfl
      | cons c r =>
        have hcI : isIdentChar c = false := (hrest c rfl).1
        have hne : (a == c) = false := by
          cases hb : (a == c)
          · rfl
          · rw [beq_iff_eq.mp hb] at ha
            rw [ha] at hcI
            exact absurd hcI (by simp)
        simp [List.isPrefixOf, hne]
    | cons c0 ty1 =>
      cases hb : (a == c0) with
      | false => simp [List.isPrefixOf, hb]
      | true =>
        have hrec := ih ty1 rest (fun c hc => hw c (by simp [hc]))
          (fun c hc => hty c (by simp [hc])) hrest
        simp [List.isPrefixOf, hb, hrec]

/-- A well-formed parameter renders to a non-empty string starting with an
identifier character or `'('`. -/
theorem renderParameter_head (v : Parameter) (hwf : wfParameter v = true) :
    ∃ c t, renderParameter v = c :: t ∧ (isIdentStart c = true ∨ c = '(') := by
  obtain ⟨n, ty, tu, a, i, d⟩ := v
  rw [wfParameter_mk] at hwf
  simp only [Bool.and_eq_true] at hwf
  rw [renderParameter]
  cases ty with
  | nil =>
    refine ⟨'(', renderTuple tu ++ [')'] ++ (renderArrays a ++
      ((if i = true then " indexed".data else []) ++ (renderLocation d ++
        (if n.isEmpty = true then [] else ' ' :: n)))), ?_, Or.inr rfl⟩
    simp
  | cons c0 ty1 =>
    have hv : validIdent (c0 :: ty1) = true := by
      rcases Bool.or_eq_true_iff.mp hwf.1.1.1.1.1 with h' | h'
      · exact absurd h' (by simp [List.isEmpty])
      · exact (Bool.and_eq_true_iff.mp h').1
    have hstart : isIdentStart c0 = true := by
      simp only [validIdent, Bool.and_eq_true] at hv
      exact hv.1
    refine ⟨c0, ty1 ++ (renderArrays a ++
      ((if i = true then " indexed".data else []) ++ (renderLocation d ++
        (if n.isEmpty = true then [] else ' ' :: n)))), ?_, Or.inl hstart⟩
    simp

/-- The rendering of a non-empty component list starts like its first
parameter. -/
theorem renderTuple_head (p : Parameter) (ps : List Parameter)
    (hwf : wfParameter p = true) :
    ∃ c t, renderTuple (p :: ps) = c :: t ∧ (isIdentStart c = true ∨ c = '(') := by
  obtain ⟨c, t, hr, hc⟩ := renderParameter_head p hwf
  cases ps with
  | nil => exact ⟨c, t, by simp only [renderTuple, hr], hc⟩
  | cons q qs =>
    refine ⟨c, t ++ (", ".data ++ renderTuple (q :: qs)), ?_, hc⟩
    simp only [renderTuple, hr]
    simp

/-- A head that is an identifier start or `'('` is not whitespace. -/
theorem head_not_ws_of_start {c : Char}
    (h : isIdentStart c = true ∨ c = '(') : isWhitespace c = false := by
  rcases h with h | h
  · exact not_ws_of_identStart h
  · subst h; rfl

/-- Each rendered dimension contributes at least two characters. -/
theorem renderArrays_two_le : ∀ a : List Int,
    2 * a.length ≤ (renderArrays a).length := by
  intro a
  induction a with
  | nil => simp [renderArrays]
  | cons d rest ih =>
    by_cases hd : d = -1
    · subst hd
      have hshape : renderArrays ((-1 : Int) :: rest) = '[' :: ']' :: renderArrays rest := by
        simp [renderArrays]
      rw [hshape]
      simp only [List.length_cons]
      omega
    · have hshape : renderArrays (d :: rest) =
          ('[' :: (intToDecimal d ++ [']'])) ++ renderArrays rest := by
        simp [renderArrays, hd]
      rw [hshape]
      simp only [List.length_append, List.length_cons]
      omega

/-- The fuel estimate `needP`/`needI` is dominated by the length of the
rendering, with room to spare for the entry points. -/
theorem need_le_render : ∀ n : Nat,
    (∀ v : Parameter, sizeOf v ≤ n → wfParameter v = true →
      needP v ≤ 3 * (renderParameter v).length + 3) ∧
    (∀ l : List Parameter, sizeOf l ≤ n → wfParams l = true →
      needI l ≤ 3 * (renderTuple l).length + 5) := by
  intro n
  induction n with
  | zero =>
    constructor
    · intro v hsz _
      obtain ⟨a, b, c, d, e, f⟩ := v
      simp only [Parameter.mk.sizeOf_spec] at hsz
      omega
    · intro l hsz _
      cases l with
      | nil => rw [needI]; rw [renderTuple]; simp
      | cons p ps =>
        simp only [List.cons.sizeOf_spec] at hsz
        omega
  | succ n ih =>
    constructor
    · intro v hsz hwf
      obtain ⟨nm, ty, tu, a, i, d⟩ := v
      rw [wfParameter_mk] at hwf
      simp only [Bool.and_eq_true] at hwf
      rw [needP, renderParameter]
      simp only [Parameter.mk.sizeOf_spec] at hsz
      have harr := renderArrays_two_le a
      cases ty with
      | nil =>
        have htu := ih.2 tu (by omega) hwf.1.1.1.1.2
        rw [if_pos (by rfl : (List.isEmpty ([] : List Char)) = true)]
        simp only [List.length_append, List.length_cons]
        omega
      | cons c0 ty1 =>
        have htu0 : tu = [] := by
          rcases Bool.or_eq_true_iff.mp hwf.1.1.1.1.1 with h' | h'
          · exact absurd h' (by simp [List.isEmpty])
          · have := (Bool.and_eq_true_iff.mp h').2
            simpa using this
        subst htu0
        rw [needI]
        simp only [List.isEmpty_cons, if_neg (by simp : ¬((c0 :: ty1).isEmpty = true))]
        simp only [List.length_append, List.length_cons]
        omega
    · intro l hsz hl
      cases l with
      | nil => rw [needI]; rw [renderTuple]; simp
      | cons p ps =>
        rw [wfParams_cons] at hl
        simp only [Bool.and_eq_true] at hl
        simp only [List.cons.sizeOf_spec] at hsz
        have hp := ih.1 p (by omega) hl.1
        rw [needI]
        cases ps with
        | nil =>
          rw [needI]
          simp only [renderTuple]
          omega
        | cons q qs =>
          have hps := ih.2 (q :: qs) (by omega) hl.2
          simp only [renderTuple, List.length_append, List.length_cons, List.length_nil]
          omega

/-- Heads admissible after a rendered parameter are inert for every scanner
involved. -/
theorem goodCont_head_facts {k : List Char} (hk : goodCont k) :
    ∀ c ∈ k.head?, isIdentChar c = false ∧ isWhitespace c = false ∧
      c ≠ '(' ∧ c ≠ '[' := by
  cases k with
  | nil => intro c hc; simp at hc
  | cons c t =>
    intro c' hc'
    simp only [List.head?_cons, Option.mem_def, Option.some.injEq] at hc'
    subst hc'
    have hk' : c = ',' ∨ c = ')' := hk
    rcases hk' with rfl | rfl <;> exact ⟨by rfl, by rfl, by decide, by decide⟩

theorem noKeywordPrefix_flag_elim {n : List Char}
    (h : noKeywordPrefix flagKeywords n = true) :
    "indexed".data.isPrefixOf n = false ∧ "storage".data.isPrefixOf n = false ∧
      "memory".data.isPrefixOf n = false ∧ "calldata".data.isPrefixOf n = false := by
  simp only [noKeywordPrefix, flagKeywords, List.all_cons, List.all_nil,
    Bool.and_eq_true, Bool.not_eq_true'] at h
  exact ⟨h.1, h.2.1, h.2.2.1, h.2.2.2.1⟩

/-- `afterFlag` on the rendered optional name followed by an admissible
continuation returns the named parameter and the continuation. -/
theorem afterFlag_render (arg : Parameter) (n k : List Char)
    (harg : arg.name = [])
    (hn : n = [] ∨ validIdent n = true)
    (hk : goodCont k) :
    afterFlag arg ((if n.isEmpty then [] else ' ' :: n) ++ k) = (arg.setName n, k) := by
  have hsetnil : arg.setName [] = arg := by
    obtain ⟨nm, t, tu, a, i, d⟩ := arg
    simp only [Parameter.name] at harg
    subst harg
    rfl
  rcases hn with rfl | hv
  · simp only [List.isEmpty_nil, if_pos rfl, List.nil_append]
    cases k with
    | nil => simp [afterFlag, hsetnil]
    | cons c t =>
      have hcw : isWhitespace c = false := ((goodCont_head_facts hk) c rfl).2.1
      simp [afterFlag, hcw, hsetnil]
  · cases n with
    | nil => simp [validIdent] at hv
    | cons c0 n1 =>
      have hstart : isIdentStart c0 = true := by
        simp only [validIdent, Bool.and_eq_true] at hv
        exact hv.1
      have hpw : parseWhitespace (' ' :: (c0 :: (n1 ++ k))) = c0 :: (n1 ++ k) := by
        rw [parseWhitespace_cons_of_ws (by rfl)]
        apply parseWhitespace_eq_self
        intro c hc
        simp only [List.head?_cons, Option.mem_def, Option.some.injEq] at hc
        subst hc
        exact not_ws_of_identStart hstart
      have hpn : parseName (c0 :: (n1 ++ k)) = (c0 :: n1, k) := by
        rw [← List.cons_append]
        exact parseName_append_ident hv (fun c hc => ((goodCont_head_facts hk) c hc).1)
      simp only [List.isEmpty_cons, Bool.false_eq_true, if_false, List.cons_append]
      simp only [afterFlag, show isWhitespace ' ' = true from rfl, if_true]
      rw [hpw, hpn]

/-- `parseWhitespace` drops exactly one leading space ahead of a
non-whitespace head. -/
theorem parseWhitespace_space (X : List Char) {c : Char}
    (hh : X.head? = some c) (hc : isWhitespace c = false) :
    parseWhitespace (' ' :: X) = X := by
  rw [parseWhitespace_cons_of_ws (by rfl)]
  apply parseWhitespace_eq_self
  intro d hd
  rw [hh] at hd
  simp only [Option.mem_def, Option.some.injEq] at hd
  subst hd
  exact hc

/-- The flag/location/name block of `parseParameter` on its own rendering:
starting from a bare parameter it reinstates exactly the rendered flag,
location and name. -/
theorem parseParamSuffix_render (ty : List Char) (tu : List Parameter)
    (a : List Int) (n : List Char) (i : Bool) (loc : DataLocation) (k : List Char)
    (hn : n = [] ∨ validIdent n = true)
    (hil : i = true → loc = .unspecified)
    (hkw : i = false → loc = .unspecified → noKeywordPrefix flagKeywords n = true)
    (hk : goodCont k) :
    parseParamSuffix (.mk [] ty tu a false .unspecified)
      ((if i then " indexed".data else []) ++ (renderLocation loc ++
        ((if n.isEmpty then [] else ' ' :: n) ++ k)))
    = (.mk n ty tu a i loc, k) := by
  cases i with
  | true =>
    have hloc : loc = .unspecified := hil rfl
    subst hloc
    rw [show (if (true : Bool) then " indexed".data else []) ++ (renderLocation .unspecified ++
        ((if n.isEmpty then [] else ' ' :: n) ++ k)) =
      ' ' :: ("indexed".data ++ ((if n.isEmpty then [] else ' ' :: n) ++ k)) from by
        simp [renderLocation]]
    simp only [parseParamSuffix, show isWhitespace ' ' = true from rfl, if_true]
    rw [parseWhitespace_space _ (by rfl) (by rfl), readBytes_append]
    exact afterFlag_render (.mk [] ty tu a true .unspecified) n k (by rfl) hn hk
  | false =>
    simp only [Bool.false_eq_true, if_false, List.nil_append]
    cases loc with
    | unspecified =>
      have hpre := noKeywordPrefix_flag_elim (hkw rfl rfl)
      simp only [renderLocation, List.nil_append]
      rcases hn with rfl | hv
      · simp only [List.isEmpty_nil, if_pos rfl, List.nil_append]
        cases k with
        | nil => simp [parseParamSuffix]
        | cons c t =>
          have hcw : isWhitespace c = false := ((goodCont_head_facts hk) c rfl).2.1
          simp [parseParamSuffix, hcw]
      · cases n with
        | nil => simp [validIdent] at hv
        | cons c0 n1 =>
          have hstart : isIdentStart c0 = true := by
            simp only [validIdent, Bool.and_eq_true] at hv
            exact hv.1
          have hkhead : ∀ c ∈ k.head?, isIdentChar c = false :=
            fun c hc => ((goodCont_head_facts hk) c hc).1
          simp only [List.isEmpty_cons, Bool.false_eq_true, if_false]
          rw [show ((' ' :: (c0 :: n1) : List Char)) ++ k =
            ' ' :: ((c0 :: n1) ++ k) from by simp]
          simp only [parseParamSuffix, show isWhitespace ' ' = true from rfl, if_true]
          rw [parseWhitespace_space _ (by rfl : ((c0 :: n1) ++ k).head? = some c0)
            (not_ws_of_identStart hstart)]
          have hkw1 : readBytes "indexed".data ((c0 :: n1) ++ k) = none :=
            readBytes_none (isPrefixOf_append_false isIdentChar (by decide)
              hpre.1 hkhead)
          have hkw2 : readBytes "storage".data ((c0 :: n1) ++ k) = none :=
            readBytes_none (isPrefixOf_append_false isIdentChar (by decide)
              hpre.2.1 hkhead)
          have hkw3 : readBytes "memory".data ((c0 :: n1) ++ k) = none :=
            readBytes_none (isPrefixOf_append_false isIdentChar (by decide)
              hpre.2.2.1 hkhead)
          have hkw4 : readBytes "calldata".data ((c0 :: n1) ++ k) = none :=
            readBytes_none (isPrefixOf_append_false isIdentChar (by decide)
              hpre.2.2.2 hkhead)
          simp only [hkw1, hkw2, hkw3, hkw4, parseName_append_ident hv hkhead]
          rfl
    | storage =>
      simp only [renderLocation]
      rw [show (" storage".data : List Char) ++ ((if n.isEmpty then [] else ' ' :: n) ++ k) =
        ' ' :: ("storage".data ++ ((if n.isEmpty then [] else ' ' :: n) ++ k)) from by simp]
      simp only [parseParamSuffix, show isWhitespace ' ' = true from rfl, if_true]
      rw [parseWhitespace_space _ (by rfl) (by rfl)]
      rw [show readBytes ['i','n','d','e','x','e','d']
          (['s','t','o','r','a','g','e'] ++ ((if n.isEmpty then [] else ' ' :: n) ++ k)) =
          none from readBytes_none (by rfl)]
      rw [readBytes_append]
      exact afterFlag_render (.mk [] ty tu a false .storage) n k (by rfl) hn hk
    | memory =>
      simp only [renderLocation]
      rw [show (" memory".data : List Char) ++ ((if n.isEmpty then [] else ' ' :: n) ++ k) =
        ' ' :: ("memory".data ++ ((if n.isEmpty then [] else ' ' :: n) ++ k)) from by simp]
      simp only [parseParamSuffix, show isWhitespace ' ' = true from rfl, if_true]
      rw [parseWhitespace_space _ (by rfl) (by rfl)]
      rw [show readBytes ['i','n','d','e','x','e','d']
          (['m','e','m','o','r','y'] ++ ((if n.isEmpty then [] else ' ' :: n) ++ k)) =
          none from readBytes_none (by rfl)]
      rw [show readBytes ['s','t','o','r','a','g','e']
          (['m','e','m','o','r','y'] ++ ((if n.isEmpty then [] else ' ' :: n) ++ k)) =
          none from readBytes_none (by rfl)]
      rw [readBytes_append]
      exact afterFlag_render (.mk [] ty tu a false .memory) n k (by rfl) hn hk
    | calldata =>
      simp only [renderLocation]
      rw [show (" calldata".data : List Char) ++ ((if n.isEmpty then [] else ' ' :: n) ++ k) =
        ' ' :: ("calldata".data ++ ((if n.isEmpty then [] else ' ' :: n) ++ k)) from by simp]
      simp only [parseParamSuffix, show isWhitespace ' ' = true from rfl, if_true]
      rw [parseWhitespace_space _ (by rfl) (by rfl)]
      rw [show readBytes ['i','n','d','e','x','e','d']
          (['c','a','l','l','d','a','t','a'] ++ ((if n.isEmpty then [] else ' ' :: n) ++ k)) =
          none from readBytes_none (by rfl)]
      rw [show readBytes ['s','t','o','r','a','g','e']
          (['c','a','l','l','d','a','t','a'] ++ ((if n.isEmpty then [] else ' ' :: n) ++ k)) =
          none from readBytes_none (by rfl)]
      rw [show readBytes ['m','e','m','o','r','y']
          (['c','a','l','l','d','a','t','a'] ++ ((if n.isEmpty then [] else ' ' :: n) ++ k)) =
          none from readBytes_none (by rfl)]
      rw [readBytes_append]
      exact afterFlag_render (.mk [] ty tu a false .calldata) n k (by rfl) hn hk

theorem needI_pos : ∀ l : List Parameter, 1 ≤ needI l := by
  intro l
  cases l with
  | nil => rw [needI]
  | cons p ps => rw [needI]; omega

theorem needP_pos : ∀ v : Parameter, 3 ≤ needP v := by
  intro v
  obtain ⟨n, t, tu, a, i, d⟩ := v
  rw [needP]
  have := needI_pos tu
  omega

theorem renderArrays_cons_shape (d : Int) (ds : List Int) :
    ∃ t, renderArrays (d :: ds) = '[' :: t := by
  by_cases hd : d = -1
  · subst hd
    exact ⟨']' :: renderArrays ds, by simp [renderArrays]⟩
  · exact ⟨(intToDecimal d ++ [']']) ++ renderArrays ds, by simp [renderArrays, hd]⟩

/-- The rendered flag/location/name suffix is empty (the continuation) or
starts with a space. -/
theorem suffix_shape (n : List Char) (i : Bool) (loc : DataLocation) (k : List Char) :
    (if i then " indexed".data else []) ++ (renderLocation loc ++
      ((if n.isEmpty then [] else ' ' :: n) ++ k)) = k ∨
    ∃ t, (if i then " indexed".data else []) ++ (renderLocation loc ++
      ((if n.isEmpty then [] else ' ' :: n) ++ k)) = ' ' :: t := by
  cases i with
  | true =>
    right
    exact ⟨"indexed".data ++ (renderLocation loc ++
      ((if n.isEmpty then [] else ' ' :: n) ++ k)), by simp⟩
  | false =>
    cases loc with
    | unspecified =>
      cases n with
      | nil => left; simp [renderLocation]
      | cons c0 n1 =>
        right
        exact ⟨(c0 :: n1) ++ k, by simp [renderLocation]⟩
    | storage =>
      right
      exact ⟨"storage".data ++ ((if n.isEmpty then [] else ' ' :: n) ++ k),
        by simp [renderLocation]⟩
    | memory =>
      right
      exact ⟨"memory".data ++ ((if n.isEmpty then [] else ' ' :: n) ++ k),
        by simp [renderLocation]⟩
    | calldata =>
      right
      exact ⟨"calldata".data ++ ((if n.isEmpty then [] else ' ' :: n) ++ k),
        by simp [renderLocation]⟩

theorem suffix_head_pack (n : List Char) (i : Bool) (loc : DataLocation)
    (k : List Char) (hk : goodCont k) :
    ∀ c ∈ ((if i then " indexed".data else []) ++ (renderLocation loc ++
      ((if n.isEmpty then [] else ' ' :: n) ++ k))).head?,
      isIdentChar c = false ∧ c ≠ '(' ∧ c ≠ '[' := by
  rcases suffix_shape n i loc k with he | ⟨t, he⟩ <;> rw [he]
  · intro c hc
    have := goodCont_head_facts hk c hc
    exact ⟨this.1, this.2.2.1, this.2.2.2⟩
  · intro c hc
    simp only [List.head?_cons, Option.mem_def, Option.some.injEq] at hc
    subst hc
    exact ⟨by rfl, by decide, by decide⟩

theorem arrays_suffix_head (a : List Int) (suf : List Char)
    (hsuf : ∀ c ∈ suf.head?, isIdentChar c = false ∧ c ≠ '(' ∧ c ≠ '[') :
    ∀ c ∈ (renderArrays a ++ suf).head?, isIdentChar c = false ∧ c ≠ '(' := by
  cases a with
  | nil =>
    simp only [renderArrays, List.nil_append]
    exact fun c hc => ⟨(hsuf c hc).1, (hsuf c hc).2.1⟩
  | cons d ds =>
    obtain ⟨t, ht⟩ := renderArrays_cons_shape d ds
    rw [ht]
    intro c hc
    simp only [List.cons_append, List.head?_cons, Option.mem_def,
      Option.some.injEq] at hc
    subst hc
    exact ⟨by rfl, by decide⟩

/-- `parseElementaryType` on a rendered elementary type with array suffix
and an inert continuation. -/
theorem parseElementaryType_render (F : Nat) (ty : List Char) (a : List Int)
    (suf : List Char)
    (hv : validIdent ty = true)
    (hdims : ∀ d ∈ a, d = -1 ∨ (1 ≤ d ∧ d ≤ (maxInt : Int)))
    (hF : a.length + 1 ≤ F)
    (hsuf : ∀ c ∈ suf.head?, isIdentChar c = false ∧ c ≠ '(' ∧ c ≠ '[') :
    parseElementaryType F (ty ++ (renderArrays a ++ suf)) =
      .ok (.mk [] ty [] a false .unspecified, suf) := by
  have hpn : parseName (ty ++ (renderArrays a ++ suf)) = (ty, renderArrays a ++ suf) :=
    parseName_append_ident hv
      (fun c hc => (arrays_suffix_head a suf hsuf c hc).1)
  simp only [parseElementaryType, hpn]
  cases a with
  | nil =>
    simp only [renderArrays, List.nil_append]
    cases suf with
    | nil => rfl
    | cons c t =>
      have hcb : c ≠ '[' := (hsuf c rfl).2.2
      split
      · next heq =>
        rw [List.cons.injEq] at heq
        exact absurd heq.1 hcb
      · rfl
  | cons d ds =>
    obtain ⟨t, ht⟩ := renderArrays_cons_shape d ds
    have hsufnb : suf.head? ≠ some '[' := by
      intro heq
      exact (hsuf '[' (by rw [heq]; rfl)).2.2 rfl
    have harr : parseArrayF F (renderArrays (d :: ds) ++ suf) = .ok (d :: ds, suf) :=
      parseArrayF_render (d :: ds) suf F hdims hF hsufnb
    rw [show renderArrays (d :: ds) ++ suf = '[' :: (t ++ suf) from by rw [ht]; simp]
    rw [show parseArrayF F ('[' :: (t ++ suf)) = .ok (d :: ds, suf) from by
      rw [show ('[' :: (t ++ suf) : List Char) = renderArrays (d :: ds) ++ suf from by
        rw [ht]; simp]
      exact harr]
    rfl

/-- Completeness of the parameter grammar on renderings: with enough fuel,
parsing `renderParameter v ++ k` yields exactly `(v, k)`; similarly for the
composite form and the component loop. -/
theorem renderGrammar_parse : ∀ fuel : Nat,
    (∀ (v : Parameter) (k : List Char), wfParameter v = true → goodCont k →
      needP v ≤ fuel →
      parseParameterF fuel (renderParameter v ++ k) = .ok (v, k)) ∧
    (∀ (tup : List Parameter) (dims : List Int) (rest : List Char),
      wfParams tup = true →
      (∀ d ∈ dims, d = -1 ∨ (1 ≤ d ∧ d ≤ (maxInt : Int))) →
      (∀ c ∈ rest.head?, isIdentChar c = false ∧ c ≠ '(' ∧ c ≠ '[') →
      needI tup + dims.length + 1 ≤ fuel →
      parseCompositeTypeF fuel
        ('(' :: (renderTuple tup ++ (')' :: (renderArrays dims ++ rest)))) =
        .ok (.mk [] [] tup dims false .unspecified, rest)) ∧
    (∀ (l : List Parameter) (s k : List Char), wfParams l = true → l ≠ [] →
      parseWhitespace s = renderTuple l ++ (')' :: k) →
      needI l ≤ fuel →
      parseTupleItemsF fuel s = .ok (l, k)) := by
  intro fuel
  induction fuel with
  | zero =>
    refine ⟨?_, ?_, ?_⟩
    · intro v k _ _ hfl
      have := needP_pos v
      omega
    · intro tup dims rest _ _ _ hfl
      omega
    · intro l s k _ _ _ hfl
      have := needI_pos l
      omega
  | succ fuel ih =>
    refine ⟨?_, ?_, ?_⟩
    · -- the parameter grammar
      intro v k hwf hk hfl
      obtain ⟨n, ty, tu, a, i, loc⟩ := v
      rw [needP] at hfl
      rw [wfParameter_mk] at hwf
      simp only [Bool.and_eq_true] at hwf
      have hdims : ∀ d ∈ a, d = -1 ∨ (1 ≤ d ∧ d ≤ (maxInt : Int)) := by
        have h3 := hwf.1.1.1.2
        simp only [List.all_eq_true, Bool.or_eq_true, Bool.and_eq_true,
          decide_eq_true_eq] at h3
        exact h3
      have hn : n = [] ∨ validIdent n = true := by
        rcases Bool.or_eq_true_iff.mp hwf.1.2 with h' | h'
        · exact Or.inl (by simpa using h')
        · exact Or.inr h'
      have hil : i = true → loc = .unspecified := by
        intro hi
        have h4 := hwf.1.1.2
        rw [hi] at h4
        simp only [Bool.not_eq_true', Bool.true_and, decide_eq_false_iff_not,
          ne_eq, not_not] at h4
        exact h4
      have hkw : i = false → loc = .unspecified →
          noKeywordPrefix flagKeywords n = true := by
        intro hi hl
        have h6 := hwf.2
        rw [hi, hl] at h6
        simpa using h6
      have hsufpack := suffix_head_pack n i loc k hk
      cases ty with
      | cons c0 ty1 =>
        have hvt : validIdent (c0 :: ty1) = true ∧ tu = [] := by
          rcases Bool.or_eq_true_iff.mp hwf.1.1.1.1.1 with h' | h'
          · exact absurd h' (by simp)
          · have h2 := Bool.and_eq_true_iff.mp h'
            exact ⟨h2.1, by simpa using h2.2⟩
        obtain ⟨hv, rfl⟩ := hvt
        have hstart : isIdentStart c0 = true := by
          simp only [validIdent, Bool.and_eq_true] at hv
          exact hv.1
        have htyAll : ∀ c ∈ (c0 :: ty1), isIdentChar c = true := by
          intro c hc
          simp only [validIdent, Bool.and_eq_true, List.all_eq_true] at hv
          rcases List.mem_cons.mp hc with rfl | hc'
          · exact identChar_of_identStart hstart
          · exact hv.2 c hc'
        have hps := parseParamSuffix_render (c0 :: ty1) [] a n i loc k hn hil hkw hk
        have hshape : renderParameter (.mk n (c0 :: ty1) [] a i loc) ++ k =
            c0 :: (ty1 ++ (renderArrays a ++ ((if i then " indexed".data else []) ++
              (renderLocation loc ++ ((if n.isEmpty then [] else ' ' :: n) ++ k))))) := by
          rw [renderParameter]
          simp
        rw [hshape]
        generalize hS : ((if i then " indexed".data else []) ++
          (renderLocation loc ++ ((if n.isEmpty then [] else ' ' :: n) ++ k))) = S
        rw [hS] at hsufpack hps
        have hne0 : decide (c0 = '(') = false :=
          decide_eq_false (by intro h; subst h; exact absurd hstart (by decide))
        have hpeek : peekBytes "tuple(".data (c0 :: (ty1 ++ (renderArrays a ++ S))) = false := by
          rw [peekBytes, ← List.cons_append]
          rw [show ("tuple(".data : List Char) = "tuple".data ++ ['('] from rfl]
          exact identword_paren_not_prefix "tuple".data (c0 :: ty1) _ (by decide) htyAll
            (arrays_suffix_head a S hsufpack)
        simp only [parseParameterF]
        rw [if_neg (show ¬((decide (c0 = '(') ||
            peekBytes "tuple(".data (c0 :: (ty1 ++ (renderArrays a ++ S)))) = true) from by
          simp [hne0, hpeek])]
        rw [if_pos (show (isAlpha c0 || isIdentifierSymbol c0) = true from hstart)]
        rw [show (c0 :: (ty1 ++ (renderArrays a ++ S)) : List Char) =
          (c0 :: ty1) ++ (renderArrays a ++ S) from by simp]
        rw [parseElementaryType_render (fuel + 1) (c0 :: ty1) a S hv hdims
          (by simp only [needI] at hfl; omega) hsufpack]
        exact congrArg Except.ok hps
      | nil =>
        have hps := parseParamSuffix_render [] tu a n i loc k hn hil hkw hk
        have hshape : renderParameter (.mk n [] tu a i loc) ++ k =
            '(' :: (renderTuple tu ++ (')' :: (renderArrays a ++
              ((if i then " indexed".data else []) ++ (renderLocation loc ++
                ((if n.isEmpty then [] else ' ' :: n) ++ k)))))) := by
          rw [renderParameter]
          simp
        rw [hshape]
        generalize hS : ((if i then " indexed".data else []) ++
          (renderLocation loc ++ ((if n.isEmpty then [] else ' ' :: n) ++ k))) = S
        rw [hS] at hsufpack hps
        have hcomp := ih.2.1 tu a S hwf.1.1.1.1.2 hdims
          (fun c hc => hsufpack c hc) (by omega)
        simp only [parseParameterF]
        rw [hcomp]
        exact congrArg Except.ok hps
    · -- the composite form
      intro tup dims rest hwf hdims hrest hfl
      have hrestnb : ∀ c ∈ rest.head?, c ≠ '[' := fun c hc => (hrest c hc).2.2
      cases tup with
      | nil =>
        rw [show renderTuple ([] : List Parameter) ++ (')' :: (renderArrays dims ++ rest)) =
          ')' :: (renderArrays dims ++ rest) from by simp only [renderTuple]; simp]
        cases dims with
        | nil =>
          rw [show (')' :: (renderArrays ([] : List Int) ++ rest) : List Char) =
            ')' :: rest from by simp [renderArrays]]
          have hws2 : parseWhitespace (')' :: rest) = ')' :: rest :=
            parseWhitespace_eq_self (by
              intro c hc
              simp only [List.head?_cons, Option.mem_def, Option.some.injEq] at hc
              subst hc; rfl)
          simp only [parseCompositeTypeF, hws2]
          cases rest with
          | nil => rfl
          | cons c t =>
            have hcb : c ≠ '[' := (hrest c rfl).2.2
            split
            · next heq =>
              rw [List.cons.injEq] at heq
              exact absurd heq.1 hcb
            · rfl
        | cons d ds =>
          obtain ⟨t, ht⟩ := renderArrays_cons_shape d ds
          have hsufnb : rest.head? ≠ some '[' := by
            intro heq
            exact (hrest '[' (by rw [heq]; rfl)).2.2 rfl
          have harr2 : parseArrayF (fuel + 1) ('[' :: (t ++ rest)) = .ok (d :: ds, rest) := by
            rw [show ('[' :: (t ++ rest) : List Char) = renderArrays (d :: ds) ++ rest from by
              rw [ht]; simp]
            exact parseArrayF_render (d :: ds) rest (fuel + 1) hdims (by
              simp only [needI] at hfl
              simp only [List.length_cons] at hfl ⊢
              omega) hsufnb
          rw [show (')' :: (renderArrays (d :: ds) ++ rest) : List Char) =
            ')' :: ('[' :: (t ++ rest)) from by rw [ht]; simp]
          have hws2 : parseWhitespace (')' :: ('[' :: (t ++ rest))) =
              ')' :: ('[' :: (t ++ rest)) :=
            parseWhitespace_eq_self (by
              intro c hc
              simp only [List.head?_cons, Option.mem_def, Option.some.injEq] at hc
              subst hc; rfl)
          simp only [parseCompositeTypeF, hws2, harr2]
      | cons p ps =>
        have hwfp : wfParameter p = true := by
          rw [wfParams_cons] at hwf
          exact (Bool.and_eq_true_iff.mp hwf).1
        obtain ⟨c1, t1, hrt, hc1⟩ := renderTuple_head p ps hwfp
        have hnotws : isWhitespace c1 = false := head_not_ws_of_start hc1
        have hnerp : c1 ≠ ')' := by
          rcases hc1 with h | h
          · intro he; subst he; exact absurd h (by decide)
          · subst h; decide
        have hitems := ih.2.2 (p :: ps)
          (c1 :: (t1 ++ (')' :: (renderArrays dims ++ rest))))
          (renderArrays dims ++ rest) hwf (by simp)
          (by
            rw [show parseWhitespace (c1 :: (t1 ++ (')' :: (renderArrays dims ++ rest)))) =
              c1 :: (t1 ++ (')' :: (renderArrays dims ++ rest))) from
              parseWhitespace_eq_self (by
                intro c hc
                simp only [List.head?_cons, Option.mem_def, Option.some.injEq] at hc
                subst hc; exact hnotws)]
            rw [hrt]
            simp)
          (by omega)
        rw [show renderTuple (p :: ps) ++ (')' :: (renderArrays dims ++ rest)) =
          c1 :: (t1 ++ (')' :: (renderArrays dims ++ rest))) from by rw [hrt]; simp]
        simp only [parseCompositeTypeF]
        rw [show parseWhitespace (c1 :: (t1 ++ (')' :: (renderArrays dims ++ rest)))) =
          c1 :: (t1 ++ (')' :: (renderArrays dims ++ rest))) from
          parseWhitespace_eq_self (by
            intro c hc
            simp only [List.head?_cons, Option.mem_def, Option.some.injEq] at hc
            subst hc; exact hnotws)]
        split
        · next heq =>
          split at heq
          · next heq2 =>
            rw [List.cons.injEq] at heq2
            exact absurd heq2.1 hnerp
          · next =>
            rw [hitems] at heq
            exact absurd heq (by simp)
        · next tup2 s2 heq =>
          split at heq
          · next heq2 =>
            rw [List.cons.injEq] at heq2
            exact absurd heq2.1 hnerp
          · next =>
            rw [hitems] at heq
            simp only [Except.ok.injEq, Prod.mk.injEq] at heq
            obtain ⟨rfl, rfl⟩ := heq
            cases dims with
            | nil =>
              simp only [renderArrays, List.nil_append]
              cases rest with
              | nil => rfl
              | cons c t =>
                have hcb : c ≠ '[' := (hrest c rfl).2.2
                split
                · next heq3 =>
                  rw [List.cons.injEq] at heq3
                  exact absurd heq3.1 hcb
                · rfl
            | cons d ds =>
              obtain ⟨t, ht⟩ := renderArrays_cons_shape d ds
              have hsufnb : rest.head? ≠ some '[' := by
                intro heq3
                exact (hrest '[' (by rw [heq3]; rfl)).2.2 rfl
              have hnI := needI_pos (p :: ps)
              have harr : parseArrayF (fuel + 1) (renderArrays (d :: ds) ++ rest) =
                  .ok (d :: ds, rest) :=
                parseArrayF_render (d :: ds) rest (fuel + 1) hdims (by
                  simp only [List.length_cons] at hfl ⊢
                  omega) hsufnb
              rw [show renderArrays (d :: ds) ++ rest = '[' :: (t ++ rest) from by
                rw [ht]; simp]
              rw [show parseArrayF (fuel + 1) ('[' :: (t ++ rest)) =
                  .ok (d :: ds, rest) from by
                rw [show ('[' :: (t ++ rest) : List Char) =
                    renderArrays (d :: ds) ++ rest from by rw [ht]; simp]
                exact harr]
              rfl
    · -- the component loop
      intro l s k hwf hne hws hfl
      cases l with
      | nil => exact absurd rfl hne
      | cons p ps =>
        rw [wfParams_cons] at hwf
        simp only [Bool.and_eq_true] at hwf
        cases ps with
        | nil =>
          have h1 := ih.1 p (')' :: k) hwf.1 (Or.inr rfl)
            (by simp only [needI] at hfl; omega)
          have h2 : parseWhitespace (')' :: k) = ')' :: k :=
            parseWhitespace_eq_self (by
              intro c hc
              simp only [List.head?_cons, Option.mem_def, Option.some.injEq] at hc
              subst hc; rfl)
          have hshape2 : renderTuple [p] ++ (')' :: k) = renderParameter p ++ (')' :: k) := by
            simp only [renderTuple]
          simp only [parseTupleItemsF, hws, hshape2, h1, h2]
        | cons q qs =>
          have hwfq : wfParameter q = true := by
            rw [wfParams_cons] at hwf
            exact (Bool.and_eq_true_iff.mp hwf.2).1
          obtain ⟨c2, t2, hrt2, hc2⟩ := renderTuple_head q qs hwfq
          have h1 := ih.1 p (',' :: (' ' :: (renderTuple (q :: qs) ++ (')' :: k))))
            hwf.1 (Or.inl rfl)
            (by
              simp only [needI] at hfl
              have := needI_pos qs
              omega)
          have h2 : parseWhitespace (',' :: (' ' :: (renderTuple (q :: qs) ++ (')' :: k)))) =
              ',' :: (' ' :: (renderTuple (q :: qs) ++ (')' :: k))) :=
            parseWhitespace_eq_self (by
              intro c hc
              simp only [List.head?_cons, Option.mem_def, Option.some.injEq] at hc
              subst hc; rfl)
          have h3 : parseWhitespace (' ' :: (renderTuple (q :: qs) ++ (')' :: k))) =
              renderTuple (q :: qs) ++ (')' :: k) := by
            rw [show (renderTuple (q :: qs) ++ (')' :: k) : List Char) =
              c2 :: (t2 ++ (')' :: k)) from by rw [hrt2]; simp]
            exact parseWhitespace_space _ rfl (head_not_ws_of_start hc2)
          have h4 := ih.2.2 (q :: qs) (' ' :: (renderTuple (q :: qs) ++ (')' :: k))) k
            hwf.2 (by simp) h3
            (by simp only [needI] at hfl ⊢; have := needP_pos p; omega)
          have hshape2 : renderTuple (p :: q :: qs) ++ (')' :: k) =
              renderParameter p ++ (',' :: (' ' :: (renderTuple (q :: qs) ++ (')' :: k)))) := by
            simp only [renderTuple]
            simp
          simp only [parseTupleItemsF, hws, hshape2, h1, h2, h4]

/-- Entry-level round trip for parameters: `ParseParameter` on the rendering
of a well-formed parameter returns the parameter. -/
theorem ParseParameter_render {v : Parameter} (hwf : wfParameter v = true) :
    ParseParameter (String.mk (renderParameter v)) = .ok v := by
  obtain ⟨c, t, hr, hc⟩ := renderParameter_head v hwf
  have hws : parseWhitespace (renderParameter v) = renderParameter v :=
    parseWhitespace_eq_self (by
      intro d hd
      rw [hr] at hd
      simp only [List.head?_cons, Option.mem_def, Option.some.injEq] at hd
      subst hd
      exact head_not_ws_of_start hc)
  have hneed : needP v ≤ entryFuel (renderParameter v) := by
    have := (need_le_render (sizeOf v)).1 v le_rfl hwf
    simp only [entryFuel]
    omega
  have hparse := (renderGrammar_parse (entryFuel (renderParameter v))).1 v [] hwf
    trivial hneed
  rw [List.append_nil] at hparse
  simp only [ParseParameter]
  rw [hws, hparse]
  rfl

/-- `parseModifiers` stops immediately at the `returns` keyword. -/
theorem parseModifiersF_returns_stop : ∀ (fuel : Nat) (X : List Char),
    parseModifiersF fuel ("returns (".data ++ X) = ([], "returns (".data ++ X) := by
  intro fuel X
  cases fuel with
  | zero => rfl
  | succ f => rfl

/-- `parseModifiers` on the rendering of a non-empty identifier modifier
list followed by nothing or by a rendered `returns` clause. -/
theorem parseModifiersF_render : ∀ (mods : List (List Char)) (fuel : Nat) (rest : List Char),
    mods.all (fun m => validIdent m && !("returns".data.isPrefixOf m)) = true →
    mods ≠ [] →
    mods.length ≤ fuel →
    (rest = [] ∨ ∃ t, rest = " returns (".data ++ t) →
    parseModifiersF fuel (renderModifiers mods ++ rest) = (mods, parseWhitespace rest) := by
  intro mods
  induction mods with
  | nil => intro fuel rest _ hne _ _; exact absurd rfl hne
  | cons m ms ihm =>
    intro fuel rest hall hne hfl hrest
    have hm : validIdent m = true ∧ "returns".data.isPrefixOf m = false := by
      simp only [List.all_cons, Bool.and_eq_true, Bool.not_eq_true'] at hall
      exact ⟨hall.1.1, hall.1.2⟩
    have hallms : ms.all (fun x => validIdent x && !("returns".data.isPrefixOf x)) = true := by
      simp only [List.all_cons, Bool.and_eq_true] at hall
      exact hall.2
    match fuel, hfl with
    | fuel + 1, hfl =>
      cases m with
      | nil => exact absurd hm.1 (by simp [validIdent])
      | cons c0 m1 =>
        have hstart : isIdentStart c0 = true := by
          simp only [validIdent, Bool.and_eq_true] at hm
          exact hm.1.1
        have hne0 : decide (c0 = '(') = false :=
          decide_eq_false (by intro h; subst h; exact absurd hstart (by decide))
        cases ms with
        | nil =>
          rcases hrest with rfl | ⟨t, rfl⟩
          · have hpn : parseName (c0 :: m1) = (c0 :: m1, []) := by
              have h0 : parseName ((c0 :: m1) ++ ([] : List Char)) = (c0 :: m1, []) :=
                parseName_append_ident hm.1 (by intro c hc; simp at hc)
              simpa using h0
            have hpeek2 : peekBytes "returns".data (c0 :: m1) = false := by
              rw [peekBytes]; exact hm.2
            rw [show renderModifiers [c0 :: m1] ++ ([] : List Char) = c0 :: m1 from by
              simp only [renderModifiers]; simp]
            simp only [parseModifiersF]
            rw [if_neg (show ¬((decide (c0 = '(') ||
                peekBytes "returns".data (c0 :: m1)) = true) from by
              intro hcontra
              rw [hne0, hpeek2] at hcontra
              simp at hcontra)]
            simp only [hpn]
            rfl
          · rw [show (" returns (".data ++ t : List Char) =
              ' ' :: ("returns (".data ++ t) from by simp]
            have hpn : parseName (c0 :: (m1 ++ (' ' :: ("returns (".data ++ t)))) =
                (c0 :: m1, ' ' :: ("returns (".data ++ t)) := by
              rw [← List.cons_append]
              exact parseName_append_ident hm.1 (by
                intro c hc
                simp only [List.head?_cons, Option.mem_def, Option.some.injEq] at hc
                subst hc; rfl)
            have hpeek : peekBytes "returns".data
                (c0 :: (m1 ++ (' ' :: ("returns (".data ++ t)))) = false := by
              rw [peekBytes, ← List.cons_append]
              exact isPrefixOf_append_false isIdentChar (by decide) hm.2 (by
                intro c hc
                simp only [List.head?_cons, Option.mem_def, Option.some.injEq] at hc
                subst hc; rfl)
            have hpw : parseWhitespace (' ' :: ("returns (".data ++ t)) =
                "returns (".data ++ t :=
              parseWhitespace_space _ rfl rfl
            rw [show renderModifiers [c0 :: m1] ++ (' ' :: ("returns (".data ++ t)) =
              c0 :: (m1 ++ (' ' :: ("returns (".data ++ t))) from by
              simp only [renderModifiers]; simp]
            simp only [parseModifiersF]
            rw [if_neg (show ¬((decide (c0 = '(') ||
                peekBytes "returns".data
                  (c0 :: (m1 ++ (' ' :: ("returns (".data ++ t))))) = true) from by
              intro hcontra
              rw [hne0, hpeek] at hcontra
              simp at hcontra)]
            simp only [hpn, show isWhitespace ' ' = true from rfl, if_true, hpw,
              parseModifiersF_returns_stop fuel t]
        | cons q qs =>
          have hq : validIdent q = true := by
            simp only [List.all_cons, Bool.and_eq_true] at hallms
            exact hallms.1.1
          have hqsh : ∃ d0 u, renderModifiers (q :: qs) = d0 :: u ∧ isIdentStart d0 = true := by
            cases q with
            | nil => exact absurd hq (by simp [validIdent])
            | cons d0 q1 =>
              have hd0 : isIdentStart d0 = true := by
                simp only [validIdent, Bool.and_eq_true] at hq
                exact hq.1
              cases qs with
              | nil => exact ⟨d0, q1, by simp only [renderModifiers], hd0⟩
              | cons r rs =>
                exact ⟨d0, q1 ++ ' ' :: renderModifiers (r :: rs), by
                  simp only [renderModifiers]; simp, hd0⟩
          obtain ⟨d0, u, hrm, hd0⟩ := hqsh
          have hpn : parseName (c0 :: (m1 ++ (' ' :: (renderModifiers (q :: qs) ++ rest)))) =
              (c0 :: m1, ' ' :: (renderModifiers (q :: qs) ++ rest)) := by
            rw [← List.cons_append]
            exact parseName_append_ident hm.1 (by
              intro c hc
              simp only [List.head?_cons, Option.mem_def, Option.some.injEq] at hc
              subst hc; rfl)
          have hpeek : peekBytes "returns".data
              (c0 :: (m1 ++ (' ' :: (renderModifiers (q :: qs) ++ rest)))) = false := by
            rw [peekBytes, ← List.cons_append]
            exact isPrefixOf_append_false isIdentChar (by decide) hm.2 (by
              intro c hc
              simp only [List.head?_cons, Option.mem_def, Option.some.injEq] at hc
              subst hc; rfl)
          have hpw : parseWhitespace (' ' :: (renderModifiers (q :: qs) ++ rest)) =
              renderModifiers (q :: qs) ++ rest := by
            apply parseWhitespace_space _ (show (renderModifiers (q :: qs) ++ rest).head? =
              some d0 from by rw [hrm]; rfl)
            exact not_ws_of_identStart hd0
          have hrec := ihm fuel rest hallms (by simp) (by
            simp only [List.length_cons] at hfl ⊢
            omega) hrest
          rw [show renderModifiers ((c0 :: m1) :: q :: qs) ++ rest =
            c0 :: (m1 ++ (' ' :: (renderModifiers (q :: qs) ++ rest))) from by
            simp only [renderModifiers]; simp]
          simp only [parseModifiersF]
          rw [if_neg (show ¬((decide (c0 = '(') ||
              peekBytes "returns".data
                (c0 :: (m1 ++ (' ' :: (renderModifiers (q :: qs) ++ rest))))) = true) from by
            intro hcontra
            rw [hne0, hpeek] at hcontra
            simp at hcontra)]
          simp only [hpn, show isWhitespace ' ' = true from rfl, if_true, hpw, hrec]

theorem noKeywordPrefix_kind_elim {n : List Char}
    (h : noKeywordPrefix kindKeywords n = true) :
    "function".data.isPrefixOf n = false ∧ "constructor".data.isPrefixOf n = false ∧
      "fallback".data.isPrefixOf n = false ∧ "receive".data.isPrefixOf n = false ∧
      "event".data.isPrefixOf n = false ∧ "error".data.isPrefixOf n = false := by
  simp only [noKeywordPrefix, kindKeywords, List.all_cons, List.all_nil,
    Bool.and_eq_true, Bool.not_eq_true'] at h
  exact ⟨h.1, h.2.1, h.2.2.1, h.2.2.2.1, h.2.2.2.2.1, h.2.2.2.2.2.1⟩

/-- All components of `wfSignature`, unpacked. -/
theorem wfSignature_all {sig : Signature} (h : wfSignature sig = true) :
    (sig.name = [] ∨ validIdent sig.name = true) ∧
      (sig.kind = .unknown → noKeywordPrefix kindKeywords sig.name = true) ∧
      wfParams sig.inputs = true ∧ wfParams sig.outputs = true ∧
      sig.modifiers.all (fun m => validIdent m && !("returns".data.isPrefixOf m)) = true ∧
      (validateSignature sig).isOk = true := by
  simp only [wfSignature, Bool.and_eq_true] at h
  refine ⟨?_, ?_, h.1.1.1.2, h.1.1.2, h.1.2, h.2⟩
  · rcases Bool.or_eq_true_iff.mp h.1.1.1.1.1 with h' | h'
    · exact Or.inl (by simpa using h')
    · exact Or.inr h'
  · intro hk
    have h2 := h.1.1.1.1.2
    rw [hk] at h2
    simpa using h2

/-- A signature accepted by the validator has an empty name when its kind is
constructor, fallback or receive. -/
theorem validate_ok_name_empty {sig : Signature}
    (hk : sig.kind = .constructor ∨ sig.kind = .fallback ∨ sig.kind = .receive)
    (h : (validateSignature sig).isOk = true) : sig.name = [] := by
  by_cases hn : sig.name.isEmpty = true
  · simpa using hn
  · exfalso
    have hb : (!sig.name.isEmpty) = true := by
      cases hni : sig.name.isEmpty
      · rfl
      · exact absurd hni hn
    rcases hk with hk | hk | hk <;>
      simp [validateSignature, hk, hb, Except.isOk, Except.toBool] at h

theorem validate_ok_eq {sig : Signature} (h : (validateSignature sig).isOk = true) :
    validateSignature sig = .ok () := by
  cases hv : validateSignature sig with
  | ok u => cases u; rfl
  | error e =>
    rw [hv] at h
    exact absurd h (by simp [Except.isOk, Except.toBool])

theorem parseWhitespace_idem (s : List Char) :
    parseWhitespace (parseWhitespace s) = parseWhitespace s :=
  parseWhitespace_eq_self (head_dropWhile_not s)

theorem renderModifiers_length : ∀ (mods : List (List Char)),
    (∀ m ∈ mods, 1 ≤ m.length) → mods.length ≤ (renderModifiers mods).length := by
  intro mods
  induction mods with
  | nil => intro _; simp [renderModifiers]
  | cons m ms ih =>
    intro h
    cases ms with
    | nil =>
      have := h m (by simp)
      simp only [renderModifiers, List.length_cons, List.length_nil]
      omega
    | cons q qs =>
      have hih := ih (fun x hx => h x (by simp [hx]))
      have := h m (by simp)
      simp only [renderModifiers, List.length_append, List.length_cons] at hih ⊢
      omega

/-- The body of `parseSignature` after the kind keyword, on a rendered
name, inputs, modifiers and outputs. -/
theorem parseSignatureF_render_body (F : Nat) (kind0 kindP : SignatureKind)
    (s s1 : List Char) (name : List Char) (ins outs : List Parameter)
    (mods : List (List Char))
    (hkind : parseSignatureKind s = (kind0, s1))
    (hkP : (if kind0 = .unknown then SignatureKind.unknown else kind0) = kindP)
    (hs2 : parseWhitespace s1 = name ++
      (('(' :: (renderTuple ins ++ [')'])) ++
        ((if mods.isEmpty then [] else ' ' :: renderModifiers mods) ++
          (if outs.isEmpty then [] else " returns (".data ++ (renderTuple outs ++ [')'])))))
    (hname : name = [] ∨ validIdent name = true)
    (hins : wfParams ins = true)
    (houts : wfParams outs = true)
    (hmods : mods.all (fun m => validIdent m && !("returns".data.isPrefixOf m)) = true)
    (hvalid : validateSignature ⟨kindP, name, ins, outs, mods⟩ = .ok ())
    (hFins : needI ins + 1 ≤ F)
    (hFouts : needI outs + 1 ≤ F)
    (hFmods : mods.length ≤ F) :
    parseSignatureF F .unknown s = .ok (⟨kindP, name, ins, outs, mods⟩, []) := by
  have hCDhead : ∀ c ∈ ((if mods.isEmpty then [] else ' ' :: renderModifiers mods) ++
      (if outs.isEmpty then [] else " returns (".data ++ (renderTuple outs ++ [')']))).head?,
      isIdentChar c = false ∧ c ≠ '(' ∧ c ≠ '[' := by
    cases mods with
    | cons m ms =>
      intro c hc
      have hcs : c = ' ' := by have := hc; simp at this; exact this.symm
      subst hcs
      exact ⟨by rfl, by decide, by decide⟩
    | nil =>
      cases outs with
      | nil => intro c hc; simp at hc
      | cons o os =>
        intro c hc
        have hcs : c = ' ' := by have := hc; simp at this; exact this.symm
        subst hcs
        exact ⟨by rfl, by decide, by decide⟩
  have hnm : parseName (name ++ (('(' :: (renderTuple ins ++ [')'])) ++
      ((if mods.isEmpty then [] else ' ' :: renderModifiers mods) ++
        (if outs.isEmpty then [] else " returns (".data ++ (renderTuple outs ++ [')']))))) =
      (name, ('(' :: (renderTuple ins ++ [')'])) ++
        ((if mods.isEmpty then [] else ' ' :: renderModifiers mods) ++
          (if outs.isEmpty then [] else " returns (".data ++ (renderTuple outs ++ [')'])))) := by
    rcases hname with rfl | hv
    · rw [List.nil_append]
      apply parseName_of_not_start
      intro c hc
      have hcs : c = '(' := by have := hc; simp at this; exact this.symm
      subst hcs
      decide
    · apply parseName_append_ident hv
      intro c hc
      have hcs : c = '(' := by have := hc; simp at this; exact this.symm
      subst hcs
      decide
  have hws4 : parseWhitespace (('(' :: (renderTuple ins ++ [')'])) ++
      ((if mods.isEmpty then [] else ' ' :: renderModifiers mods) ++
        (if outs.isEmpty then [] else " returns (".data ++ (renderTuple outs ++ [')'])))) =
      ('(' :: (renderTuple ins ++ [')'])) ++
        ((if mods.isEmpty then [] else ' ' :: renderModifiers mods) ++
          (if outs.isEmpty then [] else " returns (".data ++ (renderTuple outs ++ [')']))) := by
    apply parseWhitespace_eq_self
    intro c hc
    have hcs : c = '(' := by have := hc; simp at this; exact this.symm
    subst hcs
    rfl
  have hcomp := (renderGrammar_parse F).2.1 ins []
    ((if mods.isEmpty then [] else ' ' :: renderModifiers mods) ++
      (if outs.isEmpty then [] else " returns (".data ++ (renderTuple outs ++ [')'])))
    hins (by simp) hCDhead (by simpa using hFins)
  have hinsF : parseInputsF F (('(' :: (renderTuple ins ++ [')'])) ++
      ((if mods.isEmpty then [] else ' ' :: renderModifiers mods) ++
        (if outs.isEmpty then [] else " returns (".data ++ (renderTuple outs ++ [')'])))) =
      .ok (ins, (if mods.isEmpty then [] else ' ' :: renderModifiers mods) ++
        (if outs.isEmpty then [] else " returns (".data ++ (renderTuple outs ++ [')']))) := by
    rw [show (('(' :: (renderTuple ins ++ [')'])) ++
        ((if mods.isEmpty then [] else ' ' :: renderModifiers mods) ++
          (if outs.isEmpty then [] else " returns (".data ++ (renderTuple outs ++ [')']))) :
        List Char) =
      '(' :: (renderTuple ins ++ (')' :: (renderArrays ([] : List Int) ++
        ((if mods.isEmpty then [] else ' ' :: renderModifiers mods) ++
          (if outs.isEmpty then [] else " returns (".data ++ (renderTuple outs ++ [')'])))))) from by
      simp [renderArrays]]
    simp only [parseInputsF]
    rw [hcomp]
    rfl
  have hmodsF : parseModifiersF F (parseWhitespace
      ((if mods.isEmpty then [] else ' ' :: renderModifiers mods) ++
        (if outs.isEmpty then [] else " returns (".data ++ (renderTuple outs ++ [')'])))) =
      (mods, parseWhitespace
        (if outs.isEmpty then [] else " returns (".data ++ (renderTuple outs ++ [')']))) := by
    cases mods with
    | nil =>
      show parseModifiersF F (parseWhitespace (([] : List Char) ++
        (if outs.isEmpty then [] else " returns (".data ++ (renderTuple outs ++ [')'])))) = _
      rw [List.nil_append]
      cases outs with
      | nil =>
        show parseModifiersF F (parseWhitespace ([] : List Char)) =
          ([], parseWhitespace ([] : List Char))
        cases F <;> rfl
      | cons o os =>
        show parseModifiersF F (parseWhitespace (" returns (".data ++
          (renderTuple (o :: os) ++ [')']))) =
          ([], "returns (".data ++ (renderTuple (o :: os) ++ [')']))
        rw [show (" returns (".data ++ (renderTuple (o :: os) ++ [')']) : List Char) =
          ' ' :: ("returns (".data ++ (renderTuple (o :: os) ++ [')'])) from by simp]
        rw [show parseWhitespace (' ' :: ("returns (".data ++
            (renderTuple (o :: os) ++ [')']))) =
          "returns (".data ++ (renderTuple (o :: os) ++ [')']) from
          parseWhitespace_space _ rfl rfl]
        exact parseModifiersF_returns_stop F _
    | cons m ms =>
      have hmhead : ∃ d0 u, renderModifiers (m :: ms) = d0 :: u ∧ isIdentStart d0 = true := by
        have hm1 : validIdent m = true := by
          simp only [List.all_cons, Bool.and_eq_true] at hmods
          exact hmods.1.1
        cases m with
        | nil => exact absurd hm1 (by simp [validIdent])
        | cons d0 m1 =>
          have hd0 : isIdentStart d0 = true := by
            simp only [validIdent, Bool.and_eq_true] at hm1
            exact hm1.1
          cases ms with
          | nil => exact ⟨d0, m1, by simp only [renderModifiers], hd0⟩
          | cons r rs =>
            exact ⟨d0, m1 ++ ' ' :: renderModifiers (r :: rs), by
              simp only [renderModifiers]; simp, hd0⟩
      obtain ⟨d0, u, hrm, hd0⟩ := hmhead
      show parseModifiersF F (parseWhitespace ((' ' :: renderModifiers (m :: ms)) ++
        (if outs.isEmpty then [] else " returns (".data ++ (renderTuple outs ++ [')'])))) = _
      rw [show ((' ' :: renderModifiers (m :: ms)) ++
          (if outs.isEmpty then [] else " returns (".data ++ (renderTuple outs ++ [')'])) :
          List Char) =
        ' ' :: (renderModifiers (m :: ms) ++
          (if outs.isEmpty then [] else " returns (".data ++ (renderTuple outs ++ [')']))) from by
        simp]
      rw [parseWhitespace_space _ (show (renderModifiers (m :: ms) ++
        (if outs.isEmpty then [] else " returns (".data ++ (renderTuple outs ++ [')']))).head? =
        some d0 from by rw [hrm]; rfl) (not_ws_of_identStart hd0)]
      apply parseModifiersF_render (m :: ms) F _ hmods (by simp) hFmods
      cases outs with
      | nil => exact Or.inl rfl
      | cons o os => exact Or.inr ⟨renderTuple (o :: os) ++ [')'], rfl⟩
  have houtsF : parseOutputsF F (parseWhitespace
      (if outs.isEmpty then [] else " returns (".data ++ (renderTuple outs ++ [')']))) =
      .ok (outs, []) := by
    cases outs with
    | nil => rfl
    | cons o os =>
      show parseOutputsF F (parseWhitespace (" returns (".data ++
        (renderTuple (o :: os) ++ [')']))) = _
      rw [show (" returns (".data ++ (renderTuple (o :: os) ++ [')']) : List Char) =
        ' ' :: ("returns (".data ++ (renderTuple (o :: os) ++ [')'])) from by simp]
      rw [show parseWhitespace (' ' :: ("returns (".data ++
          (renderTuple (o :: os) ++ [')']))) =
        "returns (".data ++ (renderTuple (o :: os) ++ [')']) from
        parseWhitespace_space _ rfl rfl]
      have hcomp2 := (renderGrammar_parse F).2.1 (o :: os) [] [] houts (by simp)
        (by intro c hc; simp at hc) (by simpa using hFouts)
      have hpw1 : parseWhitespace ("returns (".data ++ (renderTuple (o :: os) ++ [')'])) =
          "returns (".data ++ (renderTuple (o :: os) ++ [')']) :=
        parseWhitespace_eq_self (by
          intro c hc
          have hcs : c = 'r' := by have := hc; simp at this; exact this.symm
          subst hcs; rfl)
      have hrb : readBytes "returns".data
          ("returns (".data ++ (renderTuple (o :: os) ++ [')'])) =
          some (' ' :: ('(' :: (renderTuple (o :: os) ++ [')']))) := by
        rw [show ("returns (".data ++ (renderTuple (o :: os) ++ [')']) : List Char) =
          "returns".data ++ (' ' :: ('(' :: (renderTuple (o :: os) ++ [')']))) from by simp]
        exact readBytes_append _ _
      have hpw2 : parseWhitespace (' ' :: ('(' :: (renderTuple (o :: os) ++ [')']))) =
          '(' :: (renderTuple (o :: os) ++ [')']) :=
        parseWhitespace_space _ rfl rfl
      have hcomp3 : parseCompositeTypeF F ('(' :: (renderTuple (o :: os) ++ [')'])) =
          .ok (.mk [] [] (o :: os) [] false .unspecified, []) := by
        rw [show ('(' :: (renderTuple (o :: os) ++ [')']) : List Char) =
          '(' :: (renderTuple (o :: os) ++ (')' :: (renderArrays ([] : List Int) ++ []))) from by
          simp [renderArrays]]
        exact hcomp2
      simp only [parseOutputsF, hpw1, hrb, hpw2, hcomp3]
      rfl
  simp only [parseSignatureF, hkind, hkP, hs2, hnm, hws4, hinsF, hmodsF,
    parseWhitespace_idem, houtsF, hvalid]
  rfl

/-- The name-and-body part of a rendered signature starts with a
non-whitespace character. -/
theorem nameBody_head (name : List Char) (ins outs : List Parameter)
    (mods : List (List Char))
    (hname : name = [] ∨ validIdent name = true) :
    ∃ c, (name ++ (('(' :: (renderTuple ins ++ [')'])) ++
      ((if mods.isEmpty then [] else ' ' :: renderModifiers mods) ++
        (if outs.isEmpty then [] else " returns (".data ++ (renderTuple outs ++ [')']))))).head? = some c ∧ isWhitespace c = false := by
  rcases hname with rfl | hv
  · exact ⟨'(', rfl, rfl⟩
  · cases name with
    | nil => exact ⟨'(', rfl, rfl⟩
    | cons c0 n1 =>
      have hst : isIdentStart c0 = true := by
        simp only [validIdent, Bool.and_eq_true] at hv
        exact hv.1
      exact ⟨c0, rfl, not_ws_of_identStart hst⟩

/-- Per-kind assembly: parsing the full rendering of a well-formed
signature with the `unknown` kind constraint reproduces the signature. -/
theorem parseSignatureF_render (sig : Signature) (hwf : wfSignature sig = true) :
    parseSignatureF (entryFuel (renderSignature sig)) .unknown (renderSignature sig) =
      .ok (sig, []) := by
  obtain ⟨kind, name, ins, outs, mods⟩ := sig
  obtain ⟨hname, hkindname, hIns, hOuts, hMods, hOk⟩ := wfSignature_all hwf
  dsimp only at hname hkindname hIns hOuts hMods hOk
  have hvalid : validateSignature ⟨kind, name, ins, outs, mods⟩ = .ok () :=
    validate_ok_eq hOk
  have hFins : needI ins + 1 ≤ entryFuel (renderSignature ⟨kind, name, ins, outs, mods⟩) := by
    have hb := (need_le_render (sizeOf ins)).2 ins le_rfl hIns
    have hlen : (renderTuple ins).length + 2 ≤
        (renderSignature ⟨kind, name, ins, outs, mods⟩).length := by
      rw [renderSignature]
      simp only [List.length_append, List.length_cons, List.length_nil]
      omega
    simp only [entryFuel]
    omega
  have hFouts : needI outs + 1 ≤ entryFuel (renderSignature ⟨kind, name, ins, outs, mods⟩) := by
    cases outs with
    | nil =>
      simp only [needI, entryFuel]
      omega
    | cons o os =>
      have hb := (need_le_render (sizeOf (o :: os))).2 (o :: os) le_rfl hOuts
      have hlen : (renderTuple (o :: os)).length + 2 ≤
          (renderSignature ⟨kind, name, ins, o :: os, mods⟩).length := by
        rw [renderSignature]
        simp only [List.isEmpty_cons, Bool.false_eq_true, if_false,
          List.length_append, List.length_cons, List.length_nil]
        omega
      simp only [entryFuel]
      omega
  have hFmods : mods.length ≤ entryFuel (renderSignature ⟨kind, name, ins, outs, mods⟩) := by
    cases mods with
    | nil =>
      simp only [List.length_nil, entryFuel]
      omega
    | cons m ms =>
      have hml : ∀ x ∈ m :: ms, 1 ≤ x.length := by
        intro x hx
        simp only [List.all_eq_true, Bool.and_eq_true] at hMods
        have := (hMods x hx).1
        cases x with
        | nil => exact absurd this (by simp [validIdent])
        | cons y ys => simp
      have hrl := renderModifiers_length (m :: ms) hml
      have hlen : (renderModifiers (m :: ms)).length ≤
          (renderSignature ⟨kind, name, ins, outs, m :: ms⟩).length := by
        rw [renderSignature]
        simp only [List.isEmpty_cons, Bool.false_eq_true, if_false,
          List.length_append, List.length_cons, List.length_nil]
        omega
      simp only [entryFuel]
      omega
  cases kind with
  | function =>

    have hshape : renderSignature ⟨.function, name, ins, outs, mods⟩ =
        "function ".data ++ (name ++ (('(' :: (renderTuple ins ++ [')'])) ++
      ((if mods.isEmpty then [] else ' ' :: renderModifiers mods) ++
        (if outs.isEmpty then [] else " returns (".data ++ (renderTuple outs ++ [')']))))) := by
      rw [renderSignature]
      simp
    have hkind : parseSignatureKind (renderSignature ⟨.function, name, ins, outs, mods⟩) =
        (.function, ' ' :: (name ++ (('(' :: (renderTuple ins ++ [')'])) ++
      ((if mods.isEmpty then [] else ' ' :: renderModifiers mods) ++
        (if outs.isEmpty then [] else " returns (".data ++ (renderTuple outs ++ [')'])))))) := by
      rw [hshape]
      rfl
    have hs2 : parseWhitespace (' ' :: (name ++ (('(' :: (renderTuple ins ++ [')'])) ++
      ((if mods.isEmpty then [] else ' ' :: renderModifiers mods) ++
        (if outs.isEmpty then [] else " returns (".data ++ (renderTuple outs ++ [')'])))))) = name ++ (('(' :: (renderTuple ins ++ [')'])) ++
      ((if mods.isEmpty then [] else ' ' :: renderModifiers mods) ++
        (if outs.isEmpty then [] else " returns (".data ++ (renderTuple outs ++ [')'])))) := by
      obtain ⟨c, hh, hcw⟩ := nameBody_head name ins outs mods hname
      exact parseWhitespace_space _ hh hcw
    exact parseSignatureF_render_body _ .function .function _ _ name ins outs mods
      hkind rfl hs2 hname hIns hOuts hMods hvalid hFins hFouts hFmods
  | constructor =>
    have hname0 : name = [] := @validate_ok_name_empty ⟨.constructor, name, ins, outs, mods⟩ (Or.inl rfl) hOk
    subst hname0
    have hshape : renderSignature ⟨.constructor, [], ins, outs, mods⟩ =
        "constructor".data ++ (('(' :: (renderTuple ins ++ [')'])) ++
      ((if mods.isEmpty then [] else ' ' :: renderModifiers mods) ++
        (if outs.isEmpty then [] else " returns (".data ++ (renderTuple outs ++ [')'])))) := by
      rw [renderSignature]
      simp
    have hkind : parseSignatureKind (renderSignature ⟨.constructor, [], ins, outs, mods⟩) =
        (.constructor, (('(' :: (renderTuple ins ++ [')'])) ++
      ((if mods.isEmpty then [] else ' ' :: renderModifiers mods) ++
        (if outs.isEmpty then [] else " returns (".data ++ (renderTuple outs ++ [')']))))) := by
      rw [hshape]
      rfl
    have hs2 : parseWhitespace ((('(' :: (renderTuple ins ++ [')'])) ++
      ((if mods.isEmpty then [] else ' ' :: renderModifiers mods) ++
        (if outs.isEmpty then [] else " returns (".data ++ (renderTuple outs ++ [')']))))) = [] ++ (('(' :: (renderTuple ins ++ [')'])) ++
      ((if mods.isEmpty then [] else ' ' :: renderModifiers mods) ++
        (if outs.isEmpty then [] else " returns (".data ++ (renderTuple outs ++ [')'])))) := by
      rw [List.nil_append]
      apply parseWhitespace_eq_self
      intro c hc
      have hcs : c = '(' := by have := hc; simp at this; exact this.symm
      subst hcs; rfl
    exact parseSignatureF_render_body _ .constructor .constructor _ _ [] ins outs mods
      hkind rfl hs2 (Or.inl rfl) hIns hOuts hMods hvalid hFins hFouts hFmods
  | fallback =>
    have hname0 : name = [] := @validate_ok_name_empty ⟨.fallback, name, ins, outs, mods⟩ (Or.inr (Or.inl rfl)) hOk
    subst hname0
    have hshape : renderSignature ⟨.fallback, [], ins, outs, mods⟩ =
        "fallback".data ++ (('(' :: (renderTuple ins ++ [')'])) ++
      ((if mods.isEmpty then [] else ' ' :: renderModifiers mods) ++
        (if outs.isEmpty then [] else " returns (".data ++ (renderTuple outs ++ [')'])))) := by
      rw [renderSignature]
      simp
    have hkind : parseSignatureKind (renderSignature ⟨.fallback, [], ins, outs, mods⟩) =
        (.fallback, (('(' :: (renderTuple ins ++ [')'])) ++
      ((if mods.isEmpty then [] else ' ' :: renderModifiers mods) ++
        (if outs.isEmpty then [] else " returns (".data ++ (renderTuple outs ++ [')']))))) := by
      rw [hshape]
      rfl
    have hs2 : parseWhitespace ((('(' :: (renderTuple ins ++ [')'])) ++
      ((if mods.isEmpty then [] else ' ' :: renderModifiers mods) ++
        (if outs.isEmpty then [] else " returns (".data ++ (renderTuple outs ++ [')']))))) = [] ++ (('(' :: (renderTuple ins ++ [')'])) ++
      ((if mods.isEmpty then [] else ' ' :: renderModifiers mods) ++
        (if outs.isEmpty then [] else " returns (".data ++ (renderTuple outs ++ [')'])))) := by
      rw [List.nil_append]
      apply parseWhitespace_eq_self
      intro c hc
      have hcs : c = '(' := by have := hc; simp at this; exact this.symm
      subst hcs; rfl
    exact parseSignatureF_render_body _ .fallback .fallback _ _ [] ins outs mods
      hkind rfl hs2 (Or.inl rfl) hIns hOuts hMods hvalid hFins hFouts hFmods
  | receive =>
    have hname0 : name = [] := @validate_ok_name_empty ⟨.receive, name, ins, outs, mods⟩ (Or.inr (Or.inr rfl)) hOk
    subst hname0
    have hshape : renderSignature ⟨.receive, [], ins, outs, mods⟩ =
        "receive".data ++ (('(' :: (renderTuple ins ++ [')'])) ++
      ((if mods.isEmpty then [] else ' ' :: renderModifiers mods) ++
        (if outs.isEmpty then [] else " returns (".data ++ (renderTuple outs ++ [')'])))) := by
      rw [renderSignature]
      simp
    have hkind : parseSignatureKind (renderSignature ⟨.receive, [], ins, outs, mods⟩) =
        (.receive, (('(' :: (renderTuple ins ++ [')'])) ++
      ((if mods.isEmpty then [] else ' ' :: renderModifiers mods) ++
        (if outs.isEmpty then [] else " returns (".data ++ (renderTuple outs ++ [')']))))) := by
      rw [hshape]
      rfl
    have hs2 : parseWhitespace ((('(' :: (renderTuple ins ++ [')'])) ++
      ((if mods.isEmpty then [] else ' ' :: renderModifiers mods) ++
        (if outs.isEmpty then [] else " returns (".data ++ (renderTuple outs ++ [')']))))) = [] ++ (('(' :: (renderTuple ins ++ [')'])) ++
      ((if mods.isEmpty then [] else ' ' :: renderModifiers mods) ++
        (if outs.isEmpty then [] else " returns (".data ++ (renderTuple outs ++ [')'])))) := by
      rw [List.nil_append]
      apply parseWhitespace_eq_self
      intro c hc
      have hcs : c = '(' := by have := hc; simp at this; exact this.symm
      subst hcs; rfl
    exact parseSignatureF_render_body _ .receive .receive _ _ [] ins outs mods
      hkind rfl hs2 (Or.inl rfl) hIns hOuts hMods hvalid hFins hFouts hFmods
  | event =>

    have hshape : renderSignature ⟨.event, name, ins, outs, mods⟩ =
        "event ".data ++ (name ++ (('(' :: (renderTuple ins ++ [')'])) ++
      ((if mods.isEmpty then [] else ' ' :: renderModifiers mods) ++
        (if outs.isEmpty then [] else " returns (".data ++ (renderTuple outs ++ [')']))))) := by
      rw [renderSignature]
      simp
    have hkind : parseSignatureKind (renderSignature ⟨.event, name, ins, outs, mods⟩) =
        (.event, ' ' :: (name ++ (('(' :: (renderTuple ins ++ [')'])) ++
      ((if mods.isEmpty then [] else ' ' :: renderModifiers mods) ++
        (if outs.isEmpty then [] else " returns (".data ++ (renderTuple outs ++ [')'])))))) := by
      rw [hshape]
      rfl
    have hs2 : parseWhitespace (' ' :: (name ++ (('(' :: (renderTuple ins ++ [')'])) ++
      ((if mods.isEmpty then [] else ' ' :: renderModifiers mods) ++
        (if outs.isEmpty then [] else " returns (".data ++ (renderTuple outs ++ [')'])))))) = name ++ (('(' :: (renderTuple ins ++ [')'])) ++
      ((if mods.isEmpty then [] else ' ' :: renderModifiers mods) ++
        (if outs.isEmpty then [] else " returns (".data ++ (renderTuple outs ++ [')'])))) := by
      obtain ⟨c, hh, hcw⟩ := nameBody_head name ins outs mods hname
      exact parseWhitespace_space _ hh hcw
    exact parseSignatureF_render_body _ .event .event _ _ name ins outs mods
      hkind rfl hs2 hname hIns hOuts hMods hvalid hFins hFouts hFmods
  | error =>

    have hshape : renderSignature ⟨.error, name, ins, outs, mods⟩ =
        "error ".data ++ (name ++ (('(' :: (renderTuple ins ++ [')'])) ++
      ((if mods.isEmpty then [] else ' ' :: renderModifiers mods) ++
        (if outs.isEmpty then [] else " returns (".data ++ (renderTuple outs ++ [')']))))) := by
      rw [renderSignature]
      simp
    have hkind : parseSignatureKind (renderSignature ⟨.error, name, ins, outs, mods⟩) =
        (.error, ' ' :: (name ++ (('(' :: (renderTuple ins ++ [')'])) ++
      ((if mods.isEmpty then [] else ' ' :: renderModifiers mods) ++
        (if outs.isEmpty then [] else " returns (".data ++ (renderTuple outs ++ [')'])))))) := by
      rw [hshape]
      rfl
    have hs2 : parseWhitespace (' ' :: (name ++ (('(' :: (renderTuple ins ++ [')'])) ++
      ((if mods.isEmpty then [] else ' ' :: renderModifiers mods) ++
        (if outs.isEmpty then [] else " returns (".data ++ (renderTuple outs ++ [')'])))))) = name ++ (('(' :: (renderTuple ins ++ [')'])) ++
      ((if mods.isEmpty then [] else ' ' :: renderModifiers mods) ++
        (if outs.isEmpty then [] else " returns (".data ++ (renderTuple outs ++ [')'])))) := by
      obtain ⟨c, hh, hcw⟩ := nameBody_head name ins outs mods hname
      exact parseWhitespace_space _ hh hcw
    exact parseSignatureF_render_body _ .error .error _ _ name ins outs mods
      hkind rfl hs2 hname hIns hOuts hMods hvalid hFins hFouts hFmods
  | unknown =>
    have hkp := noKeywordPrefix_kind_elim (hkindname rfl)
    obtain ⟨c, hh, hcw⟩ := nameBody_head name ins outs mods hname
    have hshape : renderSignature ⟨.unknown, name, ins, outs, mods⟩ =
        name ++ (('(' :: (renderTuple ins ++ [')'])) ++
      ((if mods.isEmpty then [] else ' ' :: renderModifiers mods) ++
        (if outs.isEmpty then [] else " returns (".data ++ (renderTuple outs ++ [')'])))) := by
      rw [renderSignature]
      simp
    have hhead2 : ∀ x ∈ ((('(' :: (renderTuple ins ++ [')'])) ++
      ((if mods.isEmpty then [] else ' ' :: renderModifiers mods) ++
        (if outs.isEmpty then [] else " returns (".data ++ (renderTuple outs ++ [')']))))).head?,
        isIdentChar x = false := by
      intro x hx
      have hcs : x = '(' := by have := hx; simp at this; exact this.symm
      subst hcs; rfl
    have h1 : readBytes "function".data (name ++ (('(' :: (renderTuple ins ++ [')'])) ++
      ((if mods.isEmpty then [] else ' ' :: renderModifiers mods) ++
        (if outs.isEmpty then [] else " returns (".data ++ (renderTuple outs ++ [')']))))) = none :=
      readBytes_none (isPrefixOf_append_false isIdentChar (by decide) hkp.1 hhead2)
    have h2 : readBytes "constructor".data (name ++ (('(' :: (renderTuple ins ++ [')'])) ++
      ((if mods.isEmpty then [] else ' ' :: renderModifiers mods) ++
        (if outs.isEmpty then [] else " returns (".data ++ (renderTuple outs ++ [')']))))) = none :=
      readBytes_none (isPrefixOf_append_false isIdentChar (by decide) hkp.2.1 hhead2)
    have h3 : readBytes "fallback".data (name ++ (('(' :: (renderTuple ins ++ [')'])) ++
      ((if mods.isEmpty then [] else ' ' :: renderModifiers mods) ++
        (if outs.isEmpty then [] else " returns (".data ++ (renderTuple outs ++ [')']))))) = none :=
      readBytes_none (isPrefixOf_append_false isIdentChar (by decide) hkp.2.2.1 hhead2)
    have h4 : readBytes "receive".data (name ++ (('(' :: (renderTuple ins ++ [')'])) ++
      ((if mods.isEmpty then [] else ' ' :: renderModifiers mods) ++
        (if outs.isEmpty then [] else " returns (".data ++ (renderTuple outs ++ [')']))))) = none :=
      readBytes_none (isPrefixOf_append_false isIdentChar (by decide) hkp.2.2.2.1 hhead2)
    have h5 : readBytes "event".data (name ++ (('(' :: (renderTuple ins ++ [')'])) ++
      ((if mods.isEmpty then [] else ' ' :: renderModifiers mods) ++
        (if outs.isEmpty then [] else " returns (".data ++ (renderTuple outs ++ [')']))))) = none :=
      readBytes_none (isPrefixOf_append_false isIdentChar (by decide) hkp.2.2.2.2.1 hhead2)
    have h6 : readBytes "error".data (name ++ (('(' :: (renderTuple ins ++ [')'])) ++
      ((if mods.isEmpty then [] else ' ' :: renderModifiers mods) ++
        (if outs.isEmpty then [] else " returns (".data ++ (renderTuple outs ++ [')']))))) = none :=
      readBytes_none (isPrefixOf_append_false isIdentChar (by decide) hkp.2.2.2.2.2 hhead2)
    have hkind : parseSignatureKind (renderSignature ⟨.unknown, name, ins, outs, mods⟩) =
        (.unknown, name ++ (('(' :: (renderTuple ins ++ [')'])) ++
      ((if mods.isEmpty then [] else ' ' :: renderModifiers mods) ++
        (if outs.isEmpty then [] else " returns (".data ++ (renderTuple outs ++ [')']))))) := by
      rw [hshape]
      simp only [parseSignatureKind, h1, h2, h3, h4, h5, h6]
    have hs2 : parseWhitespace (name ++ (('(' :: (renderTuple ins ++ [')'])) ++
      ((if mods.isEmpty then [] else ' ' :: renderModifiers mods) ++
        (if outs.isEmpty then [] else " returns (".data ++ (renderTuple outs ++ [')']))))) = name ++ (('(' :: (renderTuple ins ++ [')'])) ++
      ((if mods.isEmpty then [] else ' ' :: renderModifiers mods) ++
        (if outs.isEmpty then [] else " returns (".data ++ (renderTuple outs ++ [')'])))) :=
      parseWhitespace_eq_self (by
        intro x hx
        rw [hh] at hx
        simp only [Option.mem_def, Option.some.injEq] at hx
        subst hx
        exact hcw)
    exact parseSignatureF_render_body _ .unknown .unknown _ _ name ins outs mods
      hkind rfl hs2 hname hIns hOuts hMods hvalid hFins hFouts hFmods

/-- A rendered signature never starts with whitespace. -/
theorem renderSignature_head_not_ws (sig : Signature) (hwf : wfSignature sig = true) :
    ∀ c ∈ (renderSignature sig).head?, isWhitespace c = false := by
  obtain ⟨kind, name, ins, outs, mods⟩ := sig
  have hname := (wfSignature_all hwf).1
  dsimp only at hname
  cases kind with
  | function =>
    intro c hc
    rw [show (renderSignature ⟨.function, name, ins, outs, mods⟩).head? =
      some 'f' from rfl] at hc
    simp only [Option.mem_def, Option.some.injEq] at hc
    subst hc; rfl
  | constructor =>
    intro c hc
    rw [show (renderSignature ⟨.constructor, name, ins, outs, mods⟩).head? =
      some 'c' from rfl] at hc
    simp only [Option.mem_def, Option.some.injEq] at hc
    subst hc; rfl
  | fallback =>
    intro c hc
    rw [show (renderSignature ⟨.fallback, name, ins, outs, mods⟩).head? =
      some 'f' from rfl] at hc
    simp only [Option.mem_def, Option.some.injEq] at hc
    subst hc; rfl
  | receive =>
    intro c hc
    rw [show (renderSignature ⟨.receive, name, ins, outs, mods⟩).head? =
      some 'r' from rfl] at hc
    simp only [Option.mem_def, Option.some.injEq] at hc
    subst hc; rfl
  | event =>
    intro c hc
    rw [show (renderSignature ⟨.event, name, ins, outs, mods⟩).head? =
      some 'e' from rfl] at hc
    simp only [Option.mem_def, Option.some.injEq] at hc
    subst hc; rfl
  | error =>
    intro c hc
    rw [show (renderSignature ⟨.error, name, ins, outs, mods⟩).head? =
      some 'e' from rfl] at hc
    simp only [Option.mem_def, Option.some.injEq] at hc
    subst hc; rfl
  | unknown =>
    rcases hname with rfl | hv
    · intro c hc
      rw [show (renderSignature ⟨.unknown, [], ins, outs, mods⟩).head? =
        some '(' from rfl] at hc
      simp only [Option.mem_def, Option.some.injEq] at hc
      subst hc; rfl
    · cases name with
      | nil => exact absurd hv (by simp [validIdent])
      | cons c0 n1 =>
        have hst : isIdentStart c0 = true := by
          simp only [validIdent, Bool.and_eq_true] at hv
          exact hv.1
        intro c hc
        rw [show (renderSignature ⟨.unknown, c0 :: n1, ins, outs, mods⟩).head? =
          some c0 from rfl] at hc
        simp only [Option.mem_def, Option.some.injEq] at hc
        subst hc
        exact not_ws_of_identStart hst

/-- Entry-level round trip for signatures. -/
theorem ParseSignature_render {sig : Signature} (hwf : wfSignature sig = true) :
    ParseSignature (String.mk (renderSignature sig)) = .ok sig := by
  have hp := parseSignatureF_render sig hwf
  have hws : parseWhitespace (renderSignature sig) = renderSignature sig :=
    parseWhitespace_eq_self (renderSignature_head_not_ws sig hwf)
  simp only [ParseSignature, ParseSignatureAs]
  rw [hws, hp]
  rfl

/-- A struct field is well-formed once its name avoids the flag keywords. -/
theorem structField_wf {f : Parameter} (hs : structFieldSound f)
    (hn : noKeywordPrefix flagKeywords f.name = true) : wfParameter f = true := by
  obtain ⟨fn, ft, ftu, fa, fi, fd⟩ := f
  obtain ⟨htu, hi, hd, hnm, hty, harr⟩ := hs
  simp only [Parameter.tuple, Parameter.indexed, Parameter.dataLocation, Parameter.name,
    Parameter.type, Parameter.arrays] at htu hi hd hnm hty harr hn
  subst htu hi hd
  rw [wfParameter_mk]
  simp only [Bool.and_eq_true]
  refine ⟨⟨⟨⟨⟨?_, ?_⟩, ?_⟩, ?_⟩, ?_⟩, ?_⟩
  · rcases hty with rfl | hvt
    · simp
    · simp [hvt]
  · rw [wfParams]
  · simp only [List.all_eq_true]
    intro x hx
    rcases harr x hx with rfl | ⟨h1, h2⟩
    · simp
    · simp only [Bool.or_eq_true, Bool.and_eq_true, decide_eq_true_eq]
      exact Or.inr ⟨h1, h2⟩
  · simp
  · simp [hnm]
  · simp [hn]

/-- A parsed struct whose name and field names avoid the flag keywords is a
well-formed parameter. -/
theorem ParseStruct_wf {s : String} {v : Parameter}
    (h : ParseStruct s = .ok v)
    (hn : noKeywordPrefix flagKeywords v.name = true)
    (hf : ∀ f ∈ v.tuple, noKeywordPrefix flagKeywords f.name = true) :
    wfParameter v = true := by
  obtain ⟨hty, harr, hidx, hloc, hname, hfields⟩ := ParseStruct_shape h
  obtain ⟨nm, t, tu, a, i, d⟩ := v
  simp only [Parameter.tuple, Parameter.indexed, Parameter.dataLocation, Parameter.name,
    Parameter.type, Parameter.arrays] at hty harr hidx hloc hname hfields hn hf
  subst hty harr hidx hloc
  rw [wfParameter_mk]
  simp only [Bool.and_eq_true]
  refine ⟨⟨⟨⟨⟨?_, ?_⟩, ?_⟩, ?_⟩, ?_⟩, ?_⟩
  · simp
  · rw [wfParams_iff_all]
    intro p hp
    exact structField_wf (hfields p hp) (hf p hp)
  · simp
  · simp
  · rcases hname with rfl | hv
    · simp
    · simp [hv]
  · simp [hn]

/-- The struct-field counterexample to the unrestricted round-trip law:
`ParseStruct` accepts a field named `memory`, but re-parsing the rendering
turns that name into a data location. -/
theorem C1_counterexample :
    ParseStruct "struct F \x7b uint256 memory; \x7d" = .ok (.mk "F".data []
      [.mk "memory".data "uint256".data [] [] false .unspecified] [] false .unspecified) ∧
    ParseParameter (String.mk (renderParameter (.mk "F".data []
      [.mk "memory".data "uint256".data [] [] false .unspecified] [] false .unspecified))) =
      .ok (.mk "F".data [] [.mk [] "uint256".data [] [] false .memory] [] false .unspecified) ∧
    (Parameter.mk "memory".data "uint256".data [] [] false .unspecified) ≠
      (.mk [] "uint256".data [] [] false .memory) := by
  refine ⟨by rfl, by rfl, ?_⟩
  intro h
  rw [Parameter.mk.injEq] at h
  exact absurd h.1 (by decide)

/-- **C1 (amended).** Values produced by `ParseSignature`, `ParseSignatureAs`
and `ParseParameter` round-trip unconditionally: re-parsing the rendered
text succeeds with an equal value.  Values produced by `ParseStruct`
round-trip through `ParseParameter` provided the struct name and every
field name do not start with one of the flag keywords `indexed`, `storage`,
`memory`, `calldata` (a field named e.g. `memory` re-parses as a data
location, as the counterexample shows). -/
theorem C1_round_trip :
    (∀ (s : String) (sig : Signature), ParseSignature s = .ok sig →
      ParseSignature (String.mk (renderSignature sig)) = .ok sig) ∧
    (∀ (kind : SignatureKind) (s : String) (sig : Signature),
      ParseSignatureAs kind s = .ok sig →
      ParseSignature (String.mk (renderSignature sig)) = .ok sig) ∧
    (∀ (s : String) (v : Parameter), ParseParameter s = .ok v →
      ParseParameter (String.mk (renderParameter v)) = .ok v) ∧
    (∀ (s : String) (v : Parameter), ParseStruct s = .ok v →
      noKeywordPrefix flagKeywords v.name = true →
      (∀ f ∈ v.tuple, noKeywordPrefix flagKeywords f.name = true) →
      ParseParameter (String.mk (renderParameter v)) = .ok v) := by
  refine ⟨?_, ?_, ?_, ?_⟩
  · intro s sig h
    exact ParseSignature_render (ParseSignature_wf h)
  · intro kind s sig h
    exact ParseSignature_render (ParseSignatureAs_wf h)
  · intro s v h
    exact ParseParameter_render (ParseParameter_wf h)
  · intro s v h hn hf
    exact ParseParameter_render (ParseStruct_wf h hn hf)

/-- Witness for C1: the four branches applied at concrete inputs. -/
theorem C1_round_trip_witness :
    ParseSignature (String.mk (renderSignature ⟨.function, "foo".data,
      [.mk [] "int".data [] [] false .unspecified], [], []⟩)) =
      .ok ⟨.function, "foo".data, [.mk [] "int".data [] [] false .unspecified], [], []⟩ ∧
    ParseSignature (String.mk (renderSignature ⟨.event, "e".data,
      [.mk "x".data "uint256".data [] [] true .unspecified], [], []⟩)) =
      .ok ⟨.event, "e".data, [.mk "x".data "uint256".data [] [] true .unspecified], [], []⟩ ∧
    ParseParameter (String.mk (renderParameter
      (.mk "a".data "uint256".data [] [] false .unspecified))) =
      .ok (.mk "a".data "uint256".data [] [] false .unspecified) ∧
    ParseParameter (String.mk (renderParameter (.mk "F".data []
      [.mk "x".data "int".data [] [] false .unspecified] [] false .unspecified))) =
      .ok (.mk "F".data [] [.mk "x".data "int".data [] [] false .unspecified] [] false
        .unspecified) :=
  ⟨C1_round_trip.1 "function foo(int)"
      ⟨.function, "foo".data, [.mk [] "int".data [] [] false .unspecified], [], []⟩ (by rfl),
   C1_round_trip.2.1 .event "event e(uint256 indexed x)"
      ⟨.event, "e".data, [.mk "x".data "uint256".data [] [] true .unspecified], [], []⟩ (by rfl),
   C1_round_trip.2.2.1 "uint256 a"
      (.mk "a".data "uint256".data [] [] false .unspecified) (by rfl),
   C1_round_trip.2.2.2 "struct F \x7b int x; \x7d"
      (.mk "F".data [] [.mk "x".data "int".data [] [] false .unspecified] [] false .unspecified)
      (by rfl) (by decide) (by decide)⟩

end SigParser
